import Mathlib

/-! Bacalhau orchestration core: execution model and compute-side executor

A shallow embedding of `pkg/models/execution.go`, `pkg/models/spec_config.go`,
`pkg/models/job_history.go` and `pkg/compute/executor.go`, of the job selection
of `pkg/compute_node`, the API client of `pkg/publicapi/client/v2`, the watch
options of `pkg/lib/watcher`, the metric recorder of `pkg/telemetry` and the
EC2 detection of `pkg/storage/s3`, and of the evaluation broker and the
networking bid strategy as the specification describes them, followed by the
properties proved about them.

Conventions of the embedding

* Go `int` values are `Int`; a Go pointer that may be nil is an `Option`.
* A Go `error` is `Option GoError` (`none` is the nil error).
* Collaborators of the executor (store, storage providers, port allocator,
  backend executor, publisher) are fields of `BaseExecutor` holding the answer
  each call receives; the calls themselves are recorded, in order, as a list of
  `Effect`s.
-/

namespace Bacalhau

/-! ## Errors -/

/-- Go error values, as far as the code below inspects them: the message
(`Error()`), the chain followed by `errors.Is` / `errors.As`, and the code of a
`bacerrors.Error`. -/
inductive GoError where
  /-- Built by `errors.New` or by `fmt.Errorf` without a wrapping verb. -/
  | errorString (msg : String)
  /-- The sentinel `context.Canceled`. -/
  | contextCanceled
  /-- The sentinel `context.DeadlineExceeded`. -/
  | contextDeadlineExceeded
  /-- A `bacerrors.Error` with its code and message. -/
  | bacError (code : String) (msg : String)
  /-- Built by `fmt.Errorf(pfx + "%w", inner)`: the text before the wrapped error
  and the wrapped error. -/
  | wrapError (pfx : String) (inner : GoError)
  deriving DecidableEq, Repr

namespace GoError

/-- The text returned by `err.Error()`. -/
def Error : GoError → String
  | errorString msg => msg
  | contextCanceled => "context canceled"
  | contextDeadlineExceeded => "context deadline exceeded"
  | bacError _ msg => msg
  | wrapError pfx inner => pfx ++ inner.Error

/-- The test `errors.Is(err, context.DeadlineExceeded)`: walks the wrap chain. -/
def IsDeadlineExceeded : GoError → Bool
  | contextDeadlineExceeded => true
  | wrapError _ inner => inner.IsDeadlineExceeded
  | _ => false

/-- The code of the first `bacerrors.Error` in the wrap chain (what `errors.As`
finds), if any. -/
def code? : GoError → Option String
  | bacError c _ => some c
  | wrapError _ inner => inner.code?
  | _ => none

end GoError

/-- Modelled from the spec: `bacerrors.IsErrorWithCode` is not among the
sources, and the executor takes it as a parameter; this reading, used by the
sample executors, says that an error carries a code when the first
`bacerrors.Error` of its chain has that code (the advisory codes of the
executor backend are told apart this way). -/
def IsErrorWithCode (err : GoError) (code : String) : Bool :=
  err.code? == some code

/-- The advisory code `executor.ExecutionAlreadyStarted`. -/
abbrev ExecutionAlreadyStarted : String := "ExecutionAlreadyStarted"

/-- The advisory code `executor.ExecutionAlreadyCancelled`. -/
abbrev ExecutionAlreadyCancelled : String := "ExecutionAlreadyCancelled"

/-- The function `errors.Join`: nil when every argument is nil, otherwise an
error whose text is the non-nil texts separated by newlines (only the text of
the joined error is kept). -/
def errorsJoin (errs : List (Option GoError)) : Option GoError :=
  match errs.filterMap id with
  | [] => none
  | e :: es => some (GoError.errorString ("\n".intercalate ((e :: es).map GoError.Error)))

/-! ## pkg/models: execution states -/

/-- The Go type `ExecutionStateType` is an `int`. -/
abbrev ExecutionStateType := Int

abbrev ExecutionStateUndefined : ExecutionStateType := 0
abbrev ExecutionStateNew : ExecutionStateType := 1
abbrev ExecutionStateAskForBid : ExecutionStateType := 2
abbrev ExecutionStateAskForBidAccepted : ExecutionStateType := 3
abbrev ExecutionStateAskForBidRejected : ExecutionStateType := 4
abbrev ExecutionStateBidAccepted : ExecutionStateType := 5
abbrev ExecutionStateRunning : ExecutionStateType := 6
abbrev ExecutionStatePublishing : ExecutionStateType := 7
abbrev ExecutionStateBidRejected : ExecutionStateType := 8
abbrev ExecutionStateCompleted : ExecutionStateType := 9
abbrev ExecutionStateFailed : ExecutionStateType := 10
abbrev ExecutionStateCancelled : ExecutionStateType := 11

/-- The method `ExecutionStateType.IsUndefined`. -/
def ExecutionStateType.IsUndefined (s : ExecutionStateType) : Bool :=
  s == ExecutionStateUndefined

/-- The method `ExecutionStateType.IsTerminal`. -/
def ExecutionStateType.IsTerminal (s : ExecutionStateType) : Bool :=
  s == ExecutionStateBidRejected ||
    s == ExecutionStateCompleted ||
    s == ExecutionStateFailed ||
    s == ExecutionStateCancelled ||
    s == ExecutionStateAskForBidRejected

/-- The method `ExecutionStateType.IsExecuting`. -/
def ExecutionStateType.IsExecuting (s : ExecutionStateType) : Bool :=
  s == ExecutionStateBidAccepted || s == ExecutionStateRunning || s == ExecutionStatePublishing

/-- The Go type `ExecutionDesiredStateType` is an `int`. -/
abbrev ExecutionDesiredStateType := Int

abbrev ExecutionDesiredStatePending : ExecutionDesiredStateType := 0
abbrev ExecutionDesiredStateRunning : ExecutionDesiredStateType := 1
abbrev ExecutionDesiredStateStopped : ExecutionDesiredStateType := 2

/-- Modelled from the spec: the generic `State[T]` record (its file is not among
the sources): the state value and the message attached to it. -/
structure State (T : Type) where
  StateType : T
  Message : String := ""
  deriving DecidableEq, Repr

/-- The constructor `models.NewExecutionState`. -/
def NewExecutionState (s : ExecutionStateType) : State ExecutionStateType :=
  { StateType := s }

/-- The method `State.WithMessage`. -/
def State.WithMessage {T : Type} (s : State T) (msg : String) : State T :=
  { s with Message := msg }

/-! ## pkg/models: spec config, task, job -/

/-- The record `SpecConfig` (`Typ` is the Go field `Type`); `Params` is a
possibly nil map, kept as an association list. -/
structure SpecConfig where
  Typ : String := ""
  Params : Option (List (String × String)) := none
  deriving DecidableEq, Repr

/-- The method `SpecConfig.IsEmpty` (on a possibly nil pointer). -/
def SpecConfig.IsEmpty : Option SpecConfig → Bool
  | none => true
  | some s => s.Typ.length == 0 && (s.Params.getD []).length == 0

/-- Modelled from the spec: the task network types (`models.Network` is not
among the sources). -/
inductive Network where
  | NetworkDefault
  | NetworkNone
  | NetworkHost
  | NetworkFull
  | NetworkBridge
  deriving DecidableEq, Repr

/-- A port map: container port to host port. -/
abbrev PortMap := List (Int × Int)

/-- Modelled from the spec: the task network configuration `{Type, Ports}`
(`Typ` is the Go field `Type`). -/
structure NetworkConfig where
  Typ : Network := Network.NetworkDefault
  Ports : PortMap := []
  deriving DecidableEq, Repr

/-- Modelled from the spec: the part of `Task` read by the code below. -/
structure Task where
  Engine : SpecConfig := {}
  InputSources : List String := []
  ResultPaths : List String := []
  Publisher : Option SpecConfig := none
  Network : Option NetworkConfig := none
  /-- The value of `Timeouts.GetExecutionTimeout()`. -/
  ExecutionTimeout : Int := 0
  deriving DecidableEq, Repr

abbrev JobTypeService : String := "service"
abbrev JobTypeDaemon : String := "daemon"
abbrev JobTypeBatch : String := "batch"
abbrev JobTypeOps : String := "ops"

/-- Modelled from the spec: the part of `Job` read by the code below; `Task` is
the value of `Job.Task()`. -/
structure Job where
  ID : String := ""
  Typ : String := ""
  Count : Int := 0
  Task : Task := {}
  deriving DecidableEq, Repr

/-- The record `RunCommandResult`. -/
structure RunCommandResult where
  STDOUT : String := ""
  StdoutTruncated : Bool := false
  STDERR : String := ""
  StderrTruncated : Bool := false
  ExitCode : Int := 0
  ErrorMsg : String := ""
  deriving DecidableEq, Repr

/-- The record `Execution`; a field left out of a literal has Go's zero
value. `AllocatedResources`, whose type is not among the sources, is kept as
the list of per-task resource descriptions. -/
structure Execution where
  ID : String := ""
  Namespace : String := ""
  EvalID : String := ""
  Name : String := ""
  NodeID : String := ""
  JobID : String := ""
  Job : Option Job := none
  JobVersion : Nat := 0
  AllocatedResources : Option (List (String × String)) := none
  DesiredState : State ExecutionDesiredStateType := { StateType := ExecutionDesiredStatePending }
  ComputeState : State ExecutionStateType := { StateType := ExecutionStateUndefined }
  PublishedResult : Option SpecConfig := none
  RunOutput : Option RunCommandResult := none
  PreviousExecution : String := ""
  NextExecution : String := ""
  FollowupEvalID : String := ""
  PartitionIndex : Int := 0
  Revision : Nat := 0
  CreateTime : Int := 0
  ModifyTime : Int := 0
  deriving DecidableEq, Repr

/-- The helpers of `pkg/lib/validate` used by `Execution.Validate`, and
`Job.Validate`; none of them is among the sources, so `Validate` takes them as
parameters. Each returns the error it raises, if any. -/
structure Validators where
  NotBlank : String → String → Option GoError
  NoSpaces : String → String → Option GoError
  NoNullChars : String → String → Option GoError
  JobValidate : Job → Option GoError

/-- The method `Execution.Validate`. -/
def Execution.Validate (v : Validators) (e : Execution) : Option GoError :=
  let err := errorsJoin [
    v.NotBlank e.ID "missing execution ID",
    v.NoSpaces e.ID "execution ID contains a space",
    v.NoNullChars e.ID "execution ID contains a null character",
    v.NotBlank e.Namespace "execution must be in a namespace",
    v.NotBlank e.JobID "missing execution job ID"]
  match e.Job with
  | none => err
  | some job =>
    let err := errorsJoin [err, v.JobValidate job]
    if (job.Typ = JobTypeBatch ∨ job.Typ = JobTypeService) ∧ job.Count > 1 then
      if e.PartitionIndex < 0 ∨ e.PartitionIndex ≥ job.Count then
        errorsJoin [err, some (GoError.errorString
          ("partition index must be between 0 and " ++ toString (job.Count - 1)))]
      else err
    else err

/-- The method `Execution.IsTerminalDesiredState`. -/
def Execution.IsTerminalDesiredState (e : Execution) : Bool :=
  e.DesiredState.StateType == ExecutionDesiredStateStopped

/-- The method `Execution.IsTerminalComputeState` (a switch on the state). -/
def Execution.IsTerminalComputeState (e : Execution) : Bool :=
  if e.ComputeState.StateType = ExecutionStateCompleted then true
  else if e.ComputeState.StateType = ExecutionStateFailed then true
  else if e.ComputeState.StateType = ExecutionStateCancelled then true
  else if e.ComputeState.StateType = ExecutionStateAskForBidRejected then true
  else if e.ComputeState.StateType = ExecutionStateBidRejected then true
  else false

/-- The method `Execution.IsTerminalState`. -/
def Execution.IsTerminalState (e : Execution) : Bool :=
  e.IsTerminalDesiredState || e.IsTerminalComputeState

/-- The method `Execution.IsDiscarded` (a switch on the state). -/
def Execution.IsDiscarded (e : Execution) : Bool :=
  if e.ComputeState.StateType = ExecutionStateAskForBidRejected then true
  else if e.ComputeState.StateType = ExecutionStateBidRejected then true
  else if e.ComputeState.StateType = ExecutionStateCancelled then true
  else if e.ComputeState.StateType = ExecutionStateFailed then true
  else false

/-- The method `Execution.AllocatePorts`: replaces the port mappings of the
task network when both the job and its network configuration are present. -/
def Execution.AllocatePorts (e : Execution) (portMap : Option PortMap) : Execution :=
  match e.Job with
  | none => e
  | some job =>
    match job.Task.Network with
    | none => e
    | some nc =>
      let ports : PortMap := match portMap with
        | none => []
        | some pm => pm
      { e with Job := some { job with Task := { job.Task with Network := some { nc with Ports := ports } } } }

/-! ## pkg/compute: requests, events and effects -/

/-- A prepared input volume (`storage.PreparedStorage`), by its description. -/
abbrev PreparedStorage := String

/-- The record `executor.OutputLimits`. -/
structure OutputLimits where
  MaxStdoutFileLength : Int := 0
  MaxStdoutReturnLength : Int := 0
  MaxStderrFileLength : Int := 0
  MaxStderrReturnLength : Int := 0
  deriving DecidableEq, Repr

/-- The record `executor.RunCommandRequest` handed to the backend. -/
structure RunCommandRequest where
  JobID : String
  ExecutionID : String
  Resources : Option String
  Network : NetworkConfig
  Outputs : List String
  Inputs : List PreparedStorage
  ExecutionDir : String
  EngineParams : SpecConfig
  Env : List (String × String)
  OutputLimits : OutputLimits
  deriving DecidableEq, Repr

/-- The two event topics used by `Run`. -/
inductive EventTopic where
  | EventTopicExecutionRunning
  | EventTopicExecutionPublishing
  deriving DecidableEq, Repr

/-- Modelled from the spec: an event record (`models.Event` is not among the
sources): topic, message and optional error. -/
structure Event where
  Topic : EventTopic
  Message : String := ""
  Err : Option GoError := none
  deriving DecidableEq, Repr

/-- The constructor `models.NewEvent`. -/
def NewEvent (topic : EventTopic) : Event := { Topic := topic }

/-- The method `Event.WithError`. -/
def Event.WithError (ev : Event) (err : GoError) : Event := { ev with Err := some err }

/-- Modelled from the spec: the condition of a store update; an empty
`ExpectedStates` is no precondition on the compute state. -/
structure UpdateExecutionCondition where
  ExpectedStates : List ExecutionStateType := []
  deriving DecidableEq, Repr

/-- Modelled from the spec: the request of `UpdateExecution` (the store package
is not among the sources): execution id, condition, new values, events. -/
structure UpdateExecutionRequest where
  ExecutionID : String
  Condition : UpdateExecutionCondition := {}
  NewValues : Execution
  Events : List Event := []
  deriving DecidableEq, Repr

/-- A call made to a collaborator, as recorded in the trace of a run. -/
inductive Effect where
  | ExecutorsGet (engineType : String)
  | PrepareExecutionOutputDir (executionID : String)
  | ParallelPrepareStorage (executionID : String) (inputs : List String)
  | ParallelCleanStorage (volumes : List PreparedStorage)
  | AllocatePorts (executionID : String)
  | ReleasePorts (executionID : String)
  | GetExecutionEnvVars (executionID : String)
  | UpdateExecutionState (req : UpdateExecutionRequest)
  | ExecutorStart (args : Option RunCommandRequest)
  | ExecutorWait (executionID : String)
  | PublishersGet (publisherType : String)
  | PublishResult (execution : Execution) (resultsDir : String)
  | RemoveAll (path : String)
  | ScheduleRemoval (path : String)
  | JobsFailedAdd
  | JobsCompletedAdd
  deriving DecidableEq, Repr

/-- What the `select` of `Wait` receives. -/
inductive WaitOutcome where
  /-- The context is done; `err` is `ctx.Err()`. -/
  | ctxDone (err : GoError)
  /-- A result arrives on the result channel. -/
  | result (res : RunCommandResult)
  /-- An error arrives on the error channel. -/
  | failed (err : GoError)
  deriving DecidableEq, Repr

/-- The type `InputCleanupFn`: a closure that returns an error and makes calls. -/
abbrev InputCleanupFn := Unit → Option GoError × List Effect

/-- The receiver `BaseExecutor`. Each collaborator is given by the answers its
calls receive; functions and constants of the repository that are not among the
sources are fields as well. -/
structure BaseExecutor where
  ID : String := ""
  /-- The answer of `store.UpdateExecutionState` to a request. -/
  store : UpdateExecutionRequest → Option GoError
  /-- The answer of `storage.ParallelPrepareStorage` for an execution and its inputs. -/
  prepareStorage : Execution → List String → Except GoError (List PreparedStorage)
  /-- The answer of `storage.ParallelCleanStorage`. -/
  cleanStorage : List PreparedStorage → Option GoError
  /-- The answer of `executors.Get` to the lookup made by `Start`. -/
  executorsGetForStart : String → Option GoError
  /-- The answer of `executors.Get` to the lookup made by `Wait`. -/
  executorsGetForWait : String → Option GoError
  /-- The answer of the backend executor's `Start`. -/
  executorStart : Option RunCommandRequest → Option GoError
  /-- What the backend executor's `Wait` channels and the context deliver. -/
  executorWait : String → WaitOutcome
  /-- The answer of `publishers.Get`. -/
  publishersGet : String → Option GoError
  /-- The answer of the publisher's `PublishResult`. -/
  publishResult : Execution → String → Except GoError SpecConfig
  /-- The answer of `resultsPath.PrepareExecutionOutputDir`. -/
  prepareExecutionOutputDir : String → Except GoError String
  /-- The path `resultsPath.ExecutionOutputDir`. -/
  executionOutputDir : String → String
  /-- The flag `failureInjection.IsBadActor`. -/
  isBadActor : Bool := false
  /-- The answer of `GetExecutionEnvVars` with the executor's resolver. -/
  getExecutionEnvVars : Execution → Except GoError (List (String × String))
  /-- The answer of `portAllocator.AllocatePorts`; the port map may be nil. -/
  allocatePorts : Execution → Except GoError (Option PortMap)
  defaultNetworkType : Network
  /-- The answer of `os.RemoveAll`. -/
  removeAll : String → Option GoError
  /-- The constructor `NewErrExecTimeout`. -/
  NewErrExecTimeout : Int → GoError
  /-- The function `bacerrors.Wrap`. -/
  bacerrorsWrap : GoError → String → GoError
  /-- The function `bacerrors.IsErrorWithCode`. -/
  IsErrorWithCode : GoError → String → Bool
  /-- The path function `ExecutionResultsDir`. -/
  ExecutionResultsDir : String → String
  /-- The event `ExecCompletedEvent()`. -/
  ExecCompletedEvent : Event
  /-- The method `AllocatedResources.Total`, rendered. -/
  totalResources : Option (List (String × String)) → Option String
  /-- The four limits of the `system` package. -/
  outputLimits : OutputLimits
  /-- The method `Job.MetricAttributes`, which is not among the sources: the
  attributes of the job, or `none` when the call panics on a nil pointer. -/
  MetricAttributes : Job → Option (List (String × String))

/-- The method `Execution.TotalAllocatedResources`. -/
def Execution.TotalAllocatedResources (e : BaseExecutor) (execution : Execution) : Option String :=
  e.totalResources execution.AllocatedResources

/-- The three results of `PrepareRunArguments`, with the execution as the
in-place updates left it and the calls made. -/
structure PrepareResult where
  args : Option RunCommandRequest
  cleanup : Option InputCleanupFn
  err : Option GoError
  execution : Execution
  trace : List Effect

/-- The closure returned by `PrepareRunArguments`: runs every registered
cleanup in order and joins their errors. -/
def runCleanupFuncs (cleanupFuncs : List InputCleanupFn) : InputCleanupFn :=
  fun _ => cleanupFuncs.foldl
    (fun (acc : Option GoError × List Effect) cleanupFunc =>
      let r := cleanupFunc ()
      (match r.1 with
        | some err => errorsJoin [acc.1, some err]
        | none => acc.1,
       acc.2 ++ r.2))
    (none, [])

/-! ## pkg/compute: the executor

A function returns `none` where the Go code dereferences a nil pointer (a nil
`execution.Job`, a nil task network). -/

/-- The method `BaseExecutor.PrepareRunArguments` (with `prepareInputVolumes`
inlined): prepare the inputs, allocate the ports, resolve the environment,
apply the default network type and build the request. -/
def BaseExecutor.PrepareRunArguments (e : BaseExecutor) (execution : Execution)
    (executionDir : String) : Option PrepareResult :=
  match execution.Job with
  | none => none
  | some job =>
    let tInputs := [Effect.ParallelPrepareStorage execution.ID job.Task.InputSources]
    match e.prepareStorage execution job.Task.InputSources with
    | .error err =>
      some { args := none, cleanup := none, err := some err, execution := execution,
             trace := tInputs }
    | .ok inputVolumes =>
      let inputCleanup : InputCleanupFn := fun _ =>
        (e.cleanStorage inputVolumes, [Effect.ParallelCleanStorage inputVolumes])
      let tPorts := tInputs ++ [Effect.AllocatePorts execution.ID]
      match e.allocatePorts execution with
      | .error err =>
        some { args := none, cleanup := none, err := some err, execution := execution,
               trace := tPorts }
      | .ok portMappings =>
        let releasePorts : InputCleanupFn := fun _ =>
          (none, [Effect.ReleasePorts execution.ID])
        let cleanupFuncs := [inputCleanup, releasePorts]
        let allocated := execution.AllocatePorts portMappings
        let tEnv := tPorts ++ [Effect.GetExecutionEnvVars execution.ID]
        match e.getExecutionEnvVars allocated with
        | .error err =>
          some { args := none, cleanup := none,
                 err := some (GoError.wrapError "failed to resolve environment variables: " err),
                 execution := allocated, trace := tEnv }
        | .ok env =>
          match allocated.Job with
          | none => none
          | some job1 =>
            match job1.Task.Network with
            | none => none
            | some nc =>
              let networkConfig : NetworkConfig :=
                if nc.Typ = Network.NetworkDefault then { nc with Typ := e.defaultNetworkType }
                else nc
              let updated : Execution :=
                { allocated with
                  Job := some { job1 with Task := { job1.Task with Network := some networkConfig } } }
              some {
                args := some {
                  JobID := job1.ID
                  ExecutionID := updated.ID
                  Resources := updated.TotalAllocatedResources e
                  Network := networkConfig
                  Outputs := job1.Task.ResultPaths
                  Inputs := inputVolumes
                  ExecutionDir := executionDir
                  EngineParams := job1.Task.Engine
                  Env := env
                  OutputLimits := e.outputLimits }
                cleanup := some (runCleanupFuncs cleanupFuncs)
                err := none
                execution := updated
                trace := tEnv }

/-- The record `StartResult`. -/
structure StartResult where
  cleanup : Option InputCleanupFn := none
  Err : Option GoError := none

/-- The method `StartResult.Cleanup`. -/
def StartResult.Cleanup (r : StartResult) : Option GoError × List Effect :=
  match r.cleanup with
  | some cleanup => cleanup ()
  | none => (none, [])

/-- The request by which `Start` moves the execution to Running. -/
def startUpdateRequest (executionID : String) : UpdateExecutionRequest :=
  { ExecutionID := executionID
    Condition := { ExpectedStates := [ExecutionStateBidAccepted, ExecutionStateRunning] }
    NewValues := { ComputeState := NewExecutionState ExecutionStateRunning } }

/-- The method `BaseExecutor.Start`; returns the result, the execution as
updated in place, and the calls made. In the text of the lookup error the
engine is rendered by its type name. -/
def BaseExecutor.Start (e : BaseExecutor) (execution : Execution) :
    Option (StartResult × Execution × List Effect) :=
  match execution.Job with
  | none => none
  | some job =>
    let tGet := [Effect.ExecutorsGet job.Task.Engine.Typ]
    match e.executorsGetForStart job.Task.Engine.Typ with
    | some err =>
      some ({ Err := some (GoError.wrapError
                ("getting executor " ++ job.Task.Engine.Typ ++ ": ") err) },
            execution, tGet)
    | none =>
      let tDir := tGet ++ [Effect.PrepareExecutionOutputDir execution.ID]
      match e.prepareExecutionOutputDir execution.ID with
      | .error err =>
        some ({ Err := some (GoError.wrapError "preparing results path: " err) },
              execution, tDir)
      | .ok executionDir =>
        match e.PrepareRunArguments execution executionDir with
        | none => none
        | some prep =>
          let tPrep := tDir ++ prep.trace
          match prep.err with
          | some err =>
            some ({ cleanup := prep.cleanup,
                    Err := some (GoError.wrapError "preparing arguments: " err) },
                  prep.execution, tPrep)
          | none =>
            let req := startUpdateRequest prep.execution.ID
            let tStore := tPrep ++ [Effect.UpdateExecutionState req]
            match e.store req with
            | some _ =>
              some ({ cleanup := prep.cleanup,
                      Err := some (GoError.errorString
                        "updating execution state from expected: BidAccepted to: Running") },
                    prep.execution, tStore)
            | none =>
              if e.isBadActor then
                some ({ cleanup := prep.cleanup,
                        Err := some (GoError.errorString
                          ("i am a bad node. i failed execution " ++ prep.execution.ID)) },
                      prep.execution, tStore)
              else
                some ({ cleanup := prep.cleanup, Err := e.executorStart prep.args },
                      prep.execution, tStore ++ [Effect.ExecutorStart prep.args])

/-- The method `BaseExecutor.Wait`. -/
def BaseExecutor.Wait (e : BaseExecutor) (execution : Execution) :
    Option (Except GoError RunCommandResult × List Effect) :=
  match execution.Job with
  | none => none
  | some job =>
    let tGet := [Effect.ExecutorsGet job.Task.Engine.Typ]
    match e.executorsGetForWait job.Task.Engine.Typ with
    | some err =>
      some (.error (GoError.wrapError
        ("failed to get executor " ++ job.Task.Engine.Typ ++ ": ") err), tGet)
    | none =>
      let tWait := tGet ++ [Effect.ExecutorWait execution.ID]
      match e.executorWait execution.ID with
      | .ctxDone err => some (.error err, tWait)
      | .result res => some (.ok res, tWait)
      | .failed err => some (.error err, tWait)

/-- The method `BaseExecutor.publish`. -/
def BaseExecutor.publish (e : BaseExecutor) (execution : Execution) (publisher : SpecConfig)
    (resultsDir : String) : Except GoError SpecConfig × List Effect :=
  let tGet := [Effect.PublishersGet publisher.Typ]
  match e.publishersGet publisher.Typ with
  | some err =>
    (.error (GoError.wrapError ("failed to get publisher " ++ publisher.Typ ++ ": ") err), tGet)
  | none =>
    let tPublish := tGet ++ [Effect.PublishResult execution resultsDir]
    match e.publishResult execution resultsDir with
    | .error err => (.error (e.bacerrorsWrap err "failed to publish result"), tPublish)
    | .ok publishedResult => (.ok publishedResult, tPublish)

/-- The request by which `handleFailure` marks the execution Failed. -/
def failedUpdateRequest (executionID : String) (err : GoError) (topic : EventTopic) :
    UpdateExecutionRequest :=
  { ExecutionID := executionID
    NewValues := { ComputeState := (NewExecutionState ExecutionStateFailed).WithMessage err.Error }
    Events := [(NewEvent topic).WithError err] }

/-- The method `BaseExecutor.handleFailure`: one store update; its answer is
only logged. -/
def BaseExecutor.handleFailure (_e : BaseExecutor) (execution : Execution) (err : GoError)
    (topic : EventTopic) : List Effect :=
  [Effect.UpdateExecutionState (failedUpdateRequest execution.ID err topic)]

/-- The state of `Run` when its body reaches a `return`: the value of the named
result `err`, the current `topic`, the results directory whose deferred removal
has been registered (if it has), and the calls made by the body. -/
structure RunBody where
  err : Option GoError
  topic : EventTopic := EventTopic.EventTopicExecutionRunning
  resultsDir : Option String := none
  trace : List Effect

/-- The request by which `Run` moves the execution to Publishing. -/
def publishingUpdateRequest (executionID : String) (result : RunCommandResult) :
    UpdateExecutionRequest :=
  { ExecutionID := executionID
    Condition := { ExpectedStates := [ExecutionStateRunning] }
    NewValues := { ComputeState := NewExecutionState ExecutionStatePublishing
                   RunOutput := some result } }

/-- The request by which `Run` marks the execution Completed. -/
def completedUpdateRequest (e : BaseExecutor) (executionID : String)
    (expectedState : ExecutionStateType) (publishedResult : Option SpecConfig)
    (result : RunCommandResult) : UpdateExecutionRequest :=
  { ExecutionID := executionID
    Condition := { ExpectedStates := [expectedState] }
    NewValues := { ComputeState := NewExecutionState ExecutionStateCompleted
                   PublishedResult := publishedResult
                   RunOutput := some result }
    Events := [e.ExecCompletedEvent] }

/-- The end of the body of `Run`: mark the execution as completed. -/
def BaseExecutor.markCompleted (e : BaseExecutor) (execution : Execution)
    (expectedState : ExecutionStateType) (publishedResult : Option SpecConfig)
    (result : RunCommandResult) (topic : EventTopic) (resultsDir : Option String)
    (trace : List Effect) : RunBody :=
  let req := completedUpdateRequest e execution.ID expectedState publishedResult result
  { err := e.store req, topic := topic, resultsDir := resultsDir,
    trace := trace ++ [Effect.UpdateExecutionState req] }

/-- The body of `Run` from the call of `Wait` on. -/
def BaseExecutor.waitAndComplete (e : BaseExecutor) (execution : Execution) : Option RunBody :=
  match execution.Job with
  | none => none
  | some job =>
    match e.Wait execution with
    | none => none
    | some (.error err, tWait) =>
      if err.IsDeadlineExceeded then
        some { err := some (e.NewErrExecTimeout job.Task.ExecutionTimeout), trace := tWait }
      else
        some { err := some err, trace := tWait }
    | some (.ok result, tWait) =>
      if result.ErrorMsg ≠ "" then
        some { err := some (GoError.errorString result.ErrorMsg), trace := tWait }
      else
        let tDone := tWait ++ [Effect.JobsCompletedAdd]
        if !(SpecConfig.IsEmpty job.Task.Publisher) then
          match job.Task.Publisher with
          | none => none
          | some publisher =>
            let topic := EventTopic.EventTopicExecutionPublishing
            let req := publishingUpdateRequest execution.ID result
            let tPublishing := tDone ++ [Effect.UpdateExecutionState req]
            match e.store req with
            | some err => some { err := some err, topic := topic, trace := tPublishing }
            | none =>
              let resultsDir := e.ExecutionResultsDir (e.executionOutputDir execution.ID)
              match e.publish execution publisher resultsDir with
              | (.error err, tPublish) =>
                some { err := some err, topic := topic, trace := tPublishing ++ tPublish }
              | (.ok publishedResult, tPublish) =>
                some (e.markCompleted execution ExecutionStatePublishing (some publishedResult)
                  result topic (some resultsDir) (tPublishing ++ tPublish))
        else
          some (e.markCompleted execution ExecutionStateRunning none result
            EventTopic.EventTopicExecutionRunning none tDone)

/-- The body of `Run` after the call of `Start`. -/
def BaseExecutor.runAfterStart (e : BaseExecutor) (execution : Execution) (res : StartResult) :
    Option RunBody :=
  match res.Err with
  | some err =>
    if e.IsErrorWithCode err ExecutionAlreadyStarted then
      e.waitAndComplete execution
    else
      some { err := some err, trace := [Effect.JobsFailedAdd] }
  | none => e.waitAndComplete execution

/-- The outcome of `Run`: the error returned and the calls made, in order. -/
structure RunResult where
  err : Option GoError
  trace : List Effect
  deriving DecidableEq, Repr

/-- The method `BaseExecutor.Run` from the call of `Start` on. After the body,
the deferred functions run last registered first: the removal of the results
directory (registered once publishing succeeded), which assigns its answer to
the named result `err`; the scheduling of the output directory removal and
`res.Cleanup`; and the failure handler, which looks at the final `err`. -/
def BaseExecutor.runFromStart (e : BaseExecutor) (execution : Execution) :
    Option RunResult :=
  match execution.Job with
  | none => none
  | some _ =>
    match e.Start execution with
    | none => none
    | some (res, started, tStart) =>
      match e.runAfterStart started res with
      | none => none
      | some body =>
        let removed : Option GoError × List Effect :=
          match body.resultsDir with
          | some resultsDir => (e.removeAll resultsDir, [Effect.RemoveAll resultsDir])
          | none => (body.err, [])
        let tCleanup :=
          [Effect.ScheduleRemoval (e.executionOutputDir execution.ID)] ++ res.Cleanup.2
        let tFailure :=
          match removed.1 with
          | some err =>
            if !(e.IsErrorWithCode err ExecutionAlreadyCancelled) then
              e.handleFailure started err body.topic
            else []
          | none => []
        some { err := removed.1,
               trace := tStart ++ body.trace ++ removed.2 ++ tCleanup ++ tFailure }

/-- The method `BaseExecutor.Run`. Before anything else it starts the timer of
the job with `execution.Job.MetricAttributes()`, which panics on a nil job and
wherever `MetricAttributes` does; the attributes only label the duration. -/
def BaseExecutor.Run (e : BaseExecutor) (execution : Execution) : Option RunResult :=
  match execution.Job with
  | none => none
  | some job =>
    match e.MetricAttributes job with
    | none => none
    | some _ => e.runFromStart execution

/-- The store updates among a list of calls, in order. -/
def storeUpdates : List Effect → List UpdateExecutionRequest
  | [] => []
  | Effect.UpdateExecutionState req :: rest => req :: storeUpdates rest
  | _ :: rest => storeUpdates rest

/-! ## pkg/compute_node: job selection

The types of this package (`types.JobSpec`, `types.StorageSpec`,
`executor.Executor`, `storage.Storage`) are not among the sources; they are
kept as far as `SelectJob` reads them. A Go pair `(bool, error)` is a pair of a
`Bool` and an `Option GoError`; a Go map is a lookup function. -/

/-- The record `types.StorageSpec`: the storage engine and the content id. -/
structure StorageSpec where
  Engine : String := ""
  Cid : String := ""
  deriving DecidableEq, Repr

/-- The record `types.JobSpec`: the execution engine and the inputs. -/
structure JobSpec where
  Engine : String := ""
  Inputs : List StorageSpec := []
  deriving DecidableEq, Repr

/-- The interface `executor.Executor`, by the answer of `IsInstalled`. -/
structure Executor where
  IsInstalled : Bool × Option GoError

/-- The interface `storage.Storage`, by the answers of `IsInstalled` and
`HasResourceLocally`. -/
structure Storage where
  IsInstalled : Bool × Option GoError
  HasResourceLocally : StorageSpec → Bool × Option GoError

/-- The record `ComputeNode`, with its two maps. -/
structure ComputeNode where
  Executors : String → Option Executor
  StorageProviders : String → Option Storage

/-- The method `ComputeNode.checkExecutor`. -/
def ComputeNode.checkExecutor (node : ComputeNode) (engine : String) : Option GoError :=
  match node.Executors engine with
  | none =>
    some (GoError.errorString ("No matching executor found on this server: " ++ engine ++ "."))
  | some executorEngine =>
    match executorEngine.IsInstalled with
    | (_, some err) => some err
    | (installed, none) =>
      if !installed then
        some (GoError.errorString ("Executor is not installed: " ++ engine ++ "."))
      else none

/-- The method `ComputeNode.checkStorageProvider`. -/
def ComputeNode.checkStorageProvider (node : ComputeNode) (engine : String) : Option GoError :=
  match node.StorageProviders engine with
  | none =>
    some (GoError.errorString
      ("No matching storage provider found on this server: " ++ engine ++ "."))
  | some storageProviderEngine =>
    match storageProviderEngine.IsInstalled with
    | (_, some err) => some err
    | (installed, none) =>
      if !installed then
        some (GoError.errorString ("Storage provider is not installed: " ++ engine ++ "."))
      else none

/-- The loop of `SelectJob` over the inputs, from a count of inputs found so
far: either the pair an early `return` gives, or the count at the end of the
loop. A lookup of a missing storage provider after a successful check cannot
happen; it gives the pair of the failed check. -/
def ComputeNode.countLocalInputs (node : ComputeNode) :
    List StorageSpec → Nat → Except (Bool × Option GoError) Nat
  | [], foundInputs => .ok foundInputs
  | input :: rest, foundInputs =>
    match node.checkStorageProvider input.Engine with
    | some _ => .error (false, none)
    | none =>
      match node.StorageProviders input.Engine with
      | none => .error (false, none)
      | some storageEngine =>
        match storageEngine.HasResourceLocally input with
        | (_, some err) => .error (false, some err)
        | (hasStorage, none) =>
          node.countLocalInputs rest (if hasStorage then foundInputs + 1 else foundInputs)

/-- The method `ComputeNode.SelectJob`. -/
def ComputeNode.SelectJob (node : ComputeNode) (job : JobSpec) : Bool × Option GoError :=
  match node.checkExecutor job.Engine with
  | some _ => (false, none)
  | none =>
    if job.Inputs.length = 0 then (true, none)
    else
      match node.countLocalInputs job.Inputs 0 with
      | .error early => early
      | .ok foundInputs =>
        if foundInputs ≥ job.Inputs.length then (true, none) else (false, none)

/-- The answer of `HasResourceLocally` for an input, through the storage
provider of its engine (nothing is held when there is no provider). -/
def ComputeNode.hasResourceLocally (node : ComputeNode) (input : StorageSpec) :
    Bool × Option GoError :=
  match node.StorageProviders input.Engine with
  | none => (false, none)
  | some storageEngine => storageEngine.HasResourceLocally input

/-! ## pkg/bacerrors and pkg/publicapi/client/v2: the error interceptor -/

/-- The type `bacerrors.ErrorCode`. -/
abbrev ErrorCode := String

abbrev BadRequestError : ErrorCode := "BadRequest"

abbrev InternalError : ErrorCode := "InternalError"

abbrev NotFoundError : ErrorCode := "NotFound"

abbrev TimeOutError : ErrorCode := "TimeOut"

abbrev UnauthorizedError : ErrorCode := "Unauthorized"

abbrev Forbidden : ErrorCode := "Forbidden"

abbrev ServiceUnavailable : ErrorCode := "ServiceUnavailable"

abbrev NotImplemented : ErrorCode := "NotImplemented"

abbrev ResourceExhausted : ErrorCode := "ResourceExhausted"

abbrev ResourceInUse : ErrorCode := "ResourceInUse"

abbrev VersionMismatch : ErrorCode := "VersionMismatch"

abbrev ValidationError : ErrorCode := "ValidationError"

abbrev TooManyRequests : ErrorCode := "TooManyRequests"

abbrev NetworkFailure : ErrorCode := "NetworkFailure"

abbrev ConfigurationError : ErrorCode := "ConfigurationError"

abbrev DatastoreFailure : ErrorCode := "DatastoreFailure"

abbrev RequestCancelled : ErrorCode := "RequestCancelled"

abbrev IOError : ErrorCode := "IOError"

abbrev UnknownError : ErrorCode := "UnknownError"

/-- Modelled from the spec: the value behind the interface `bacerrors.Error`,
whose implementation is not among the sources. In the error taxonomy an error
has a code and is retryable or not; the other fields are those the builder
methods used by the client set. -/
structure BacError where
  Message : String
  Code : ErrorCode := ""
  HTTPStatusCode : Int := 0
  Retryable : Bool := false
  Component : String := ""
  Details : List (String × String) := []
  Hint : String := ""
  deriving DecidableEq, Repr

/-- Modelled from the spec: `bacerrors.New` and `bacerrors.Newf` build an error
from its message, not marked retryable. -/
def BacError.New (message : String) : BacError := { Message := message }

/-- Modelled from the spec: each `With` method of the builder sets the field it
names and leaves the others; `WithDetails` adds to the details. -/
def BacError.WithCode (b : BacError) (code : ErrorCode) : BacError := { b with Code := code }

/-- See `BacError.WithCode`. -/
def BacError.WithHTTPStatusCode (b : BacError) (status : Int) : BacError :=
  { b with HTTPStatusCode := status }

/-- See `BacError.WithCode`. -/
def BacError.WithRetryable (b : BacError) : BacError := { b with Retryable := true }

/-- See `BacError.WithCode`. -/
def BacError.WithComponent (b : BacError) (component : String) : BacError :=
  { b with Component := component }

/-- See `BacError.WithCode`. -/
def BacError.WithDetails (b : BacError) (details : List (String × String)) : BacError :=
  { b with Details := b.Details ++ details }

/-- See `BacError.WithCode`. -/
def BacError.WithHint (b : BacError) (hint : String) : BacError := { b with Hint := hint }

/-- The test `errors.Is(err, context.Canceled)`: walks the wrap chain. -/
def GoError.IsCanceled : GoError → Bool
  | GoError.contextCanceled => true
  | GoError.wrapError _ inner => inner.IsCanceled
  | _ => false

/-- Whether the second list starts with the first. -/
def hasPrefixChars : List Char → List Char → Bool
  | [], _ => true
  | _ :: _, [] => false
  | a :: as, b :: bs => a == b && hasPrefixChars as bs

/-- Whether the first list occurs inside the second. -/
def containsChars (substr : List Char) : List Char → Bool
  | [] => hasPrefixChars substr []
  | c :: cs => hasPrefixChars substr (c :: cs) || containsChars substr cs

/-- The function `strings.Contains`. -/
def stringsContains (s substr : String) : Bool := containsChars substr.data s.data

/-- What `errors.As(err, &urlErr)` finds: a `*url.Error`, by `Timeout()` and by
the text of the error it wraps. -/
structure URLError where
  Timeout : Bool
  ErrText : String
  deriving DecidableEq, Repr

/-- A `*net.OpError`: its `Op`, and the `Syscall` of the `*os.SyscallError` it
wraps, if it wraps one. -/
structure OpError where
  Op : String
  Syscall : Option String
  deriving DecidableEq, Repr

/-- What `errors.As(err, &netErr)` finds: a `net.Error`, by `Timeout()`, by its
text, and by the `*net.OpError` it is, if it is one. -/
structure NetError where
  Timeout : Bool
  Text : String
  opErr : Option OpError
  deriving DecidableEq, Repr

/-- A non-nil `err` handed to `interceptError`, by what the function reads of
it: its text and what `errors.As` finds in its chain. -/
structure RequestError where
  Text : String
  urlErr : Option URLError
  netErr : Option NetError
  deriving DecidableEq, Repr

/-- The part of `http.Response` that is read. -/
structure HTTPResponse where
  StatusCode : Int
  Body : String := ""
  deriving DecidableEq, Repr

/-- The constant `errorComponent`. -/
abbrev errorComponent : String := "HTTPClient"

/-- The receiver `httpClient`, with the functions of the repository that
`interceptError` calls and that are not among the sources. -/
structure httpClient where
  address : String
  /-- The result of `apimodels.GenerateAPIErrorFromHTTPResponse` followed by
  `ToBacError`; `none` when no API error is generated. -/
  generateAPIError : HTTPResponse → Option BacError
  /-- The function `bacerrors.Wrap`. -/
  Wrap : RequestError → String → BacError
  /-- The text of the hint formatted for this address. -/
  resolveHint : String
  /-- The address `http://127.0.0.1:<default port>`. -/
  defaultEndpoint : String
  /-- The third item of the hint, added for the default endpoint. -/
  demoNetworkHint : String

/-- The body of `httpClient.interceptError`: the error returned by the `return`
reached, and the flag `isAPIError`. -/
def httpClient.interceptErrorBody (c : httpClient) (ctxErr : Option GoError)
    (err : Option RequestError) (resp : Option HTTPResponse) : Option BacError × Bool :=
  match err, resp with
  | none, some resp =>
    if resp.StatusCode = 200 then (none, false)
    else if resp.StatusCode = 401 then
      (some (((BacError.New "unauthorized").WithHTTPStatusCode 401).WithCode UnauthorizedError),
        false)
    else
      match c.generateAPIError resp with
      | some apiError => (some apiError, true)
      | none =>
        (some (((BacError.New "server error").WithHTTPStatusCode 500).WithCode InternalError),
          false)
  | none, none => (none, false)
  | some err, _ =>
    if (ctxErr.map GoError.IsCanceled).getD false then
      (some ((BacError.New "request cancelled").WithCode RequestCancelled), false)
    else if (ctxErr.map GoError.IsDeadlineExceeded).getD false then
      (some (((BacError.New "request timed out").WithCode TimeOutError).WithRetryable), false)
    else
      let afterURL : Option BacError :=
        match err.urlErr with
        | none => none
        | some urlErr =>
          if urlErr.Timeout then
            some (((BacError.New "request timed out").WithCode TimeOutError).WithRetryable)
          else if stringsContains urlErr.ErrText "no such host" then
            some ((BacError.New "host not found").WithCode BadRequestError)
          else if stringsContains urlErr.ErrText "connection refused" then
            some ((BacError.New ("server is not running or not reachable at " ++ c.address)
              ).WithCode ServiceUnavailable)
          else none
      match afterURL with
      | some bacErr => (some bacErr, false)
      | none =>
        match err.netErr with
        | some netErr =>
          if netErr.Timeout then
            (some (((BacError.New "request timed out").WithCode TimeOutError).WithRetryable),
              false)
          else
            let dialConnect : Bool :=
              match netErr.opErr with
              | some opErr => opErr.Op == "dial" && opErr.Syscall == some "connect"
              | none => false
            if dialConnect then
              (some ((((BacError.New ("server is not running or not accessible at " ++ c.address)
                ).WithCode ServiceUnavailable).WithRetryable).WithDetails
                  [("error", err.Text), ("address", c.address)]), false)
            else
              (some ((BacError.New ("network error: " ++ netErr.Text)).WithCode NetworkFailure),
                false)
        | none => (some ((c.Wrap err "unknown error").WithCode InternalError), false)

/-- The method `httpClient.interceptError`: the body, then the deferred function
that adds the common attributes to an error not derived from an API error. -/
def httpClient.interceptError (c : httpClient) (ctxErr : Option GoError)
    (err : Option RequestError) (resp : Option HTTPResponse) (method endpoint : String) :
    Option BacError :=
  match c.interceptErrorBody ctxErr err resp with
  | (some bacErr, false) =>
    let bacErr := (bacErr.WithComponent errorComponent).WithDetails
      [("method", method), ("address", c.address), ("endpoint", endpoint)]
    if bacErr.Hint = "" then
      let hint := c.resolveHint ++
        (if c.address = c.defaultEndpoint then c.demoNetworkHint else "")
      some (bacErr.WithHint hint)
    else some bacErr
  | (bacErr, _) => bacErr

/-! ## pkg/bidstrategy/semantic: the networking strategy -/

/-- The record `bidstrategy.BidStrategyResponse`, by its decision. -/
structure BidStrategyResponse where
  ShouldBid : Bool
  deriving DecidableEq, Repr

/-- Modelled from the spec: the strategy built by `NewNetworkingStrategy`, whose
code is not among the sources: a bid strategy that rejects networked jobs, or
does not. -/
structure NetworkingStrategy where
  reject : Bool
  deriving DecidableEq, Repr

/-- Modelled from the spec: the constructor `semantic.NewNetworkingStrategy`. -/
def NewNetworkingStrategy (reject : Bool) : NetworkingStrategy := { reject := reject }

/-- Modelled from the spec: the method `NetworkingStrategy.ShouldBid`, whose code
is not among the sources. A strategy that rejects networked jobs bids only for
the network types None and Default and rejects the networked ones; a
non-rejecting strategy bids on all. The strategy reads only the network
configuration of the job's task, which stands for the request; no error is
returned. -/
def NetworkingStrategy.ShouldBid (s : NetworkingStrategy) (network : NetworkConfig) :
    BidStrategyResponse × Option GoError :=
  ({ ShouldBid := !s.reject || network.Typ == Network.NetworkNone ||
      network.Typ == Network.NetworkDefault }, none)

/-- The table `networkingStrategyTestCases` of the test of the strategy:
reject, the job's networking, and whether a bid is expected. -/
def networkingStrategyTestCases : List (Bool × NetworkConfig × Bool) :=
  [(false, { Typ := Network.NetworkNone }, true),
   (false, { Typ := Network.NetworkDefault }, true),
   (false, { Typ := Network.NetworkHost }, true),
   (false, { Typ := Network.NetworkFull }, true),
   (true, { Typ := Network.NetworkNone }, true),
   (true, { Typ := Network.NetworkDefault }, true),
   (true, { Typ := Network.NetworkHost }, false),
   (true, { Typ := Network.NetworkFull }, false)]

/-! ## pkg/orchestrator: the evaluation broker

Only the interface `EvaluationBroker` and its comments are among the sources;
the broker itself is modelled from the specification of the evaluation broker
(state, operations, janitor) and from the comments of the interface. Time is an
integer handed to each operation, and a blocking `Dequeue` is one attempt. -/

/-- Modelled from the spec: the record `Evaluation`, by the fields the broker
reads: ID, JobID, Type, Priority, CreateTime and the optional WaitUntil. -/
structure Evaluation where
  ID : String
  JobID : String
  Typ : String := "batch"
  Priority : Int := 0
  CreateTime : Int := 0
  WaitUntil : Option Int := none
  deriving DecidableEq, Repr

/-- Modelled from the spec: a receipt handle is an opaque token; the n-th handle
generated by a broker is the number n. -/
abbrev ReceiptHandle := Nat

/-- Modelled from the spec: an entry of the inflight table: the evaluation
delivered, its ReceiptHandle, NackTimeoutDeadline and DeliveryCount. -/
structure InflightEntry where
  Eval : Evaluation
  ReceiptHandle : ReceiptHandle
  NackTimeoutDeadline : Int
  DeliveryCount : Nat
  deriving DecidableEq, Repr

/-- Modelled from the spec: the failures of the broker. -/
inductive BrokerError where
  | ErrUnknownEvalID
  | ErrWrongReceipt
  | ErrNotInflight
  | ErrMaxDeliveryExceeded
  deriving DecidableEq, Repr

/-- Modelled from the spec: the state of the broker. `ready` holds the ready
queues of all types, `pending` the per-JobID queues in arrival order (the queue
of a job is the sublist of its evaluations), `delayed` the delayed set,
`inflight` the inflight table, `requeue` the re-enqueues deferred until the
delivery with the given handle is acknowledged, `failed` the evaluations whose
deliveries were exceeded, `counts` the delivery counts kept between deliveries
and `handles` the number of receipt handles generated so far. -/
structure Broker where
  visibility : Int
  maxRetries : Nat
  ready : List Evaluation := []
  pending : List Evaluation := []
  delayed : List Evaluation := []
  inflight : List InflightEntry := []
  requeue : List (ReceiptHandle × Evaluation) := []
  failed : List Evaluation := []
  counts : List (String × Nat) := []
  handles : Nat := 0
  deriving DecidableEq, Repr

/-- Modelled from the spec: the order of delivery: Priority descending, then
CreateTime ascending, then the evaluation ID. -/
def Evaluation.before (a b : Evaluation) : Bool :=
  decide (b.Priority < a.Priority) ||
    (a.Priority == b.Priority &&
      (decide (a.CreateTime < b.CreateTime) ||
        (a.CreateTime == b.CreateTime && decide (a.ID < b.ID))))

/-- Modelled from the spec: the evaluation of a list that comes first in the
order of delivery. -/
def firstInOrder : List Evaluation → Option Evaluation
  | [] => none
  | x :: rest =>
    match firstInOrder rest with
    | none => some x
    | some y => if y.before x then some y else some x

/-- Modelled from the spec: whether an evaluation with this ID is in the broker
(ready, pending, delayed or inflight). -/
def Broker.hasEval (b : Broker) (evalID : String) : Bool :=
  b.ready.any (fun x => x.ID == evalID) || b.pending.any (fun x => x.ID == evalID) ||
    b.delayed.any (fun x => x.ID == evalID) || b.inflight.any (fun x => x.Eval.ID == evalID)

/-- Modelled from the spec: whether an evaluation of this job is in the broker
(ready, pending, delayed or inflight). -/
def Broker.hasJob (b : Broker) (jobID : String) : Bool :=
  b.ready.any (fun x => x.JobID == jobID) || b.pending.any (fun x => x.JobID == jobID) ||
    b.delayed.any (fun x => x.JobID == jobID) || b.inflight.any (fun x => x.Eval.JobID == jobID)

/-- Modelled from the spec: the entry of the inflight table for an evaluation ID. -/
def Broker.Inflight (b : Broker) (evalID : String) : Option InflightEntry :=
  b.inflight.find? (fun x => x.Eval.ID == evalID)

/-- Modelled from the spec: `Enqueue`. An evaluation already present by ID is
left alone; when another evaluation of the same job is in the broker the new
one goes to the per-job queue and is not visible; otherwise it goes to the
delayed set if its WaitUntil lies in the future and to the ready queue if not.
The words "a same JobID is already inflight or pending" are read as the comment
of the interface has them, "another evaluation with the same job ID is in the
broker": the head of a per-job queue is the evaluation of the job that is
ready, delayed or inflight. -/
def Broker.Enqueue (b : Broker) (now : Int) (eval : Evaluation) : Broker :=
  if b.hasEval eval.ID then b
  else if b.hasJob eval.JobID then { b with pending := b.pending ++ [eval] }
  else
    match eval.WaitUntil with
    | some waitUntil =>
      if now < waitUntil then { b with delayed := b.delayed ++ [eval] }
      else { b with ready := b.ready ++ [eval] }
    | none => { b with ready := b.ready ++ [eval] }

/-- Modelled from the spec: one item of `EnqueueAll`: the same as `Enqueue`,
except that an item whose receipt handle matches the handle the evaluation is
inflight with is kept to be re-enqueued once that delivery is acknowledged. -/
def Broker.enqueueItem (b : Broker) (now : Int) (item : Evaluation × Option ReceiptHandle) :
    Broker :=
  match item.2, b.Inflight item.1.ID with
  | some handle, some entry =>
    if entry.ReceiptHandle = handle then
      { b with requeue := (handle, item.1) :: b.requeue.filter (fun r => r.1 != handle) }
    else b.Enqueue now item.1
  | _, _ => b.Enqueue now item.1

/-- Modelled from the spec: `EnqueueAll`, over the items of the map in some
order. -/
def Broker.EnqueueAll (b : Broker) (now : Int)
    (items : List (Evaluation × Option ReceiptHandle)) : Broker :=
  items.foldl (fun acc item => acc.enqueueItem now item) b

/-- Modelled from the spec: `Dequeue`, as one attempt: the ready evaluation of a
requested type that comes first in the order of delivery is delivered with a
fresh receipt handle and entered in the inflight table with the deadline
`now + visibility`; with no such evaluation nothing changes. -/
def Broker.Dequeue (b : Broker) (now : Int) (types : List String) :
    Broker × Option (Evaluation × ReceiptHandle) :=
  match firstInOrder (b.ready.filter (fun x => types.contains x.Typ)) with
  | none => (b, none)
  | some eval =>
    let handle := b.handles
    ({ b with
        ready := b.ready.erase eval
        inflight := b.inflight ++
          [{ Eval := eval, ReceiptHandle := handle, NackTimeoutDeadline := now + b.visibility,
             DeliveryCount := (b.counts.lookup eval.ID).getD 0 }]
        handles := handle + 1 },
      some (eval, handle))

/-- Modelled from the spec: the check shared by `Ack`, `Nack` and
`InflightExtend`: the entry of the evaluation when the handle matches. -/
def Broker.checkReceipt (b : Broker) (evalID : String) (handle : ReceiptHandle) :
    Except BrokerError InflightEntry :=
  match b.Inflight evalID with
  | none =>
    if b.hasEval evalID then .error BrokerError.ErrNotInflight
    else .error BrokerError.ErrUnknownEvalID
  | some entry =>
    if entry.ReceiptHandle = handle then .ok entry else .error BrokerError.ErrWrongReceipt

/-- Modelled from the spec: the promotion of the next entry of a per-job queue
to the ready queue, if there is one. -/
def Broker.promote (b : Broker) (jobID : String) : Broker :=
  match b.pending.find? (fun x => x.JobID == jobID) with
  | none => b
  | some next =>
    { b with
      pending := b.pending.erase next
      ready := b.ready ++ [next] }

/-- Modelled from the spec: `Ack`. When the handle matches, the evaluation is
removed from the inflight table, the next entry of its per-job queue is
promoted, and a re-enqueue deferred to this delivery is carried out. -/
def Broker.Ack (b : Broker) (now : Int) (evalID : String) (handle : ReceiptHandle) :
    Broker × Option BrokerError :=
  match b.checkReceipt evalID handle with
  | .error err => (b, some err)
  | .ok entry =>
    let removed : Broker :=
      { b with
        inflight := b.inflight.filter (fun x => x.Eval.ID != evalID)
        counts := b.counts.filter (fun c => c.1 != evalID)
        requeue := b.requeue.filter (fun r => r.1 != handle) }
    let promoted := removed.promote entry.Eval.JobID
    match b.requeue.lookup handle with
    | some eval => (promoted.Enqueue now eval, none)
    | none => (promoted, none)

/-- Modelled from the spec: `Nack`. When the handle matches, the evaluation
returns to the ready queue at once. -/
def Broker.Nack (b : Broker) (evalID : String) (handle : ReceiptHandle) :
    Broker × Option BrokerError :=
  match b.checkReceipt evalID handle with
  | .error err => (b, some err)
  | .ok entry =>
    ({ b with
        inflight := b.inflight.filter (fun x => x.Eval.ID != evalID)
        ready := b.ready ++ [entry.Eval] },
      none)

/-- Modelled from the spec: `InflightExtend`. When the handle matches, the
deadline of the entry is reset. -/
def Broker.InflightExtend (b : Broker) (now : Int) (evalID : String) (handle : ReceiptHandle) :
    Broker × Option BrokerError :=
  match b.checkReceipt evalID handle with
  | .error err => (b, some err)
  | .ok _ =>
    ({ b with
        inflight := b.inflight.map (fun x =>
          if x.Eval.ID == evalID then { x with NackTimeoutDeadline := now + b.visibility }
          else x) },
      none)

/-- Modelled from the spec: one pass of the janitor. Delayed evaluations whose
WaitUntil has passed move to the ready queue; an inflight entry whose deadline
has passed is treated as a Nack with a bumped DeliveryCount, and moves to
failed when the count exceeds MaxRetries. -/
def Broker.Tick (b : Broker) (now : Int) : Broker :=
  let due := b.delayed.filter (fun x => decide ((x.WaitUntil.getD now) ≤ now))
  let later := b.delayed.filter (fun x => !decide ((x.WaitUntil.getD now) ≤ now))
  let expired := b.inflight.filter (fun x => decide (x.NackTimeoutDeadline ≤ now))
  let alive := b.inflight.filter (fun x => !decide (x.NackTimeoutDeadline ≤ now))
  let again := expired.filter (fun x => !decide (b.maxRetries < x.DeliveryCount + 1))
  let exceeded := expired.filter (fun x => decide (b.maxRetries < x.DeliveryCount + 1))
  { b with
    delayed := later
    inflight := alive
    ready := b.ready ++ due ++ again.map (fun x => x.Eval)
    failed := b.failed ++ exceeded.map (fun x => x.Eval)
    counts := again.map (fun x => (x.Eval.ID, x.DeliveryCount + 1)) ++
      b.counts.filter (fun c => !expired.any (fun x => x.Eval.ID == c.1)) }

/-- A call of the broker. -/
inductive BrokerOp where
  | Enqueue (now : Int) (eval : Evaluation)
  | EnqueueAll (now : Int) (items : List (Evaluation × Option ReceiptHandle))
  | Dequeue (now : Int) (types : List String)
  | Ack (now : Int) (evalID : String) (handle : ReceiptHandle)
  | Nack (evalID : String) (handle : ReceiptHandle)
  | InflightExtend (now : Int) (evalID : String) (handle : ReceiptHandle)
  | Tick (now : Int)
  deriving DecidableEq, Repr

/-- What a call of the broker returns. -/
inductive BrokerResult where
  | done
  | empty
  | delivered (eval : Evaluation) (handle : ReceiptHandle)
  | failure (err : BrokerError)
  deriving DecidableEq, Repr

/-- The result of a call that returns only an error. -/
def BrokerResult.ofError : Option BrokerError → BrokerResult
  | none => BrokerResult.done
  | some err => BrokerResult.failure err

/-- The result of a `Dequeue`. -/
def BrokerResult.ofDelivery : Option (Evaluation × ReceiptHandle) → BrokerResult
  | none => BrokerResult.empty
  | some (eval, handle) => BrokerResult.delivered eval handle

/-- The broker after a call, and what the call returns. -/
def Broker.step (b : Broker) : BrokerOp → Broker × BrokerResult
  | BrokerOp.Enqueue now eval => (b.Enqueue now eval, BrokerResult.done)
  | BrokerOp.EnqueueAll now items => (b.EnqueueAll now items, BrokerResult.done)
  | BrokerOp.Dequeue now types =>
    ((b.Dequeue now types).1, BrokerResult.ofDelivery (b.Dequeue now types).2)
  | BrokerOp.Ack now evalID handle =>
    ((b.Ack now evalID handle).1, BrokerResult.ofError (b.Ack now evalID handle).2)
  | BrokerOp.Nack evalID handle =>
    ((b.Nack evalID handle).1, BrokerResult.ofError (b.Nack evalID handle).2)
  | BrokerOp.InflightExtend now evalID handle =>
    ((b.InflightExtend now evalID handle).1,
      BrokerResult.ofError (b.InflightExtend now evalID handle).2)
  | BrokerOp.Tick now => (b.Tick now, BrokerResult.done)

/-- The broker after a sequence of calls, with the results of the calls in
order. -/
def Broker.run (b : Broker) : List BrokerOp → Broker × List BrokerResult
  | [] => (b, [])
  | op :: ops =>
    let r := b.step op
    let rest := r.1.run ops
    (rest.1, r.2 :: rest.2)

/-- A broker that holds nothing. -/
def Broker.new (visibility : Int) (maxRetries : Nat) : Broker :=
  { visibility := visibility, maxRetries := maxRetries }

/-- The deliveries among the results of calls: evaluation ID and handle, in
order. -/
def deliveries : List BrokerResult → List (String × ReceiptHandle)
  | [] => []
  | BrokerResult.delivered eval handle :: rest => (eval.ID, handle) :: deliveries rest
  | _ :: rest => deliveries rest

/-! ## pkg/models: expiry of an execution -/

/-- Go's `time.Time`, as far as `Before` reads a time built by `time.Unix`: the
instant, in nanoseconds since the Unix epoch. The location set by `UTC` and a
monotonic clock reading play no part in the comparison. -/
structure Time where
  unixNano : Int
  deriving DecidableEq, Repr

/-- Go's `time.Unix(sec, nsec)`. -/
def timeUnix (sec nsec : Int) : Time :=
  { unixNano := sec * 1000000000 + nsec }

/-- Go's `Time.UTC`: the same instant. -/
def Time.UTC (t : Time) : Time := t

/-- Go's `Time.Before`. -/
def Time.Before (t u : Time) : Bool :=
  decide (t.unixNano < u.unixNano)

/-- The method `Execution.GetModifyTime`. -/
def Execution.GetModifyTime (e : Execution) : Time :=
  (timeUnix 0 e.ModifyTime).UTC

/-- The method `Execution.IsExpired`. -/
def Execution.IsExpired (e : Execution) (expirationTime : Time) : Bool :=
  e.ComputeState.StateType.IsExecuting && e.GetModifyTime.Before expirationTime

/-! ## pkg/models: normalising a spec config, and the job history types -/

/-- Go's `unicode.IsSpace`: the Latin-1 spaces and the characters with the
Unicode property White_Space. -/
def unicodeIsSpace (r : Char) : Bool :=
  let n := r.toNat
  (9 ≤ n && n ≤ 13) || n == 32 || n == 0x85 || n == 0xA0 || n == 0x1680 ||
    (0x2000 ≤ n && n ≤ 0x200A) || n == 0x2028 || n == 0x2029 || n == 0x202F ||
    n == 0x205F || n == 0x3000

/-- Go's `strings.TrimSpace` on the characters of a string: the leading and the
trailing white space are dropped. -/
def trimSpaceChars (cs : List Char) : List Char :=
  ((cs.dropWhile unicodeIsSpace).reverse.dropWhile unicodeIsSpace).reverse

/-- Go's `strings.TrimSpace`. -/
def stringsTrimSpace (s : String) : String :=
  String.mk (trimSpaceChars s.data)

/-- The method `SpecConfig.Normalize` (on a possibly nil pointer): the config
as the method leaves it. -/
def SpecConfig.Normalize : Option SpecConfig → Option SpecConfig
  | none => none
  | some s =>
    let s1 := { s with Typ := stringsTrimSpace s.Typ }
    if (s1.Params.getD []).length == 0 then some { s1 with Params := some [] }
    else some s1

/-- The Go type `JobHistoryType` is an `int`. -/
abbrev JobHistoryType := Int

abbrev JobHistoryTypeUndefined : JobHistoryType := 0

abbrev JobHistoryTypeJobLevel : JobHistoryType := 1

abbrev JobHistoryTypeExecutionLevel : JobHistoryType := 2

/-- Modelled from the spec: the method `JobHistoryType.String` is generated by
`stringer -type=JobHistoryType --trimprefix=JobHistoryType` into
`job_history_string.go`, which is not among the sources; it follows the
generated file of `ExecutionDesiredStateType`: the name of the constant without
the prefix, and the type name with the number for a value out of range. -/
def JobHistoryType.String (i : JobHistoryType) : String :=
  if i < 0 ∨ i ≥ 3 then "JobHistoryType(" ++ toString i ++ ")"
  else if i = 0 then "Undefined"
  else if i = 1 then "JobLevel"
  else "ExecutionLevel"

/-- A Go byte slice holding text (`[]byte`), kept as the string it converts
to. -/
abbrev Text := String

/-- The method `JobHistoryType.MarshalText`. -/
def JobHistoryType.MarshalText (s : JobHistoryType) : Text × Option GoError :=
  (s.String, none)

/-- Go's `strings.EqualFold`: the two strings have the same characters up to
Unicode simple case folding. The folding tables belong to Go's library; they
enter as the function `fold` that sends a character to the representative of
its orbit under `unicode.SimpleFold`. -/
def stringsEqualFold (fold : Char → Char) (s t : String) : Bool :=
  s.data.map fold == t.data.map fold

/-- The loop of `UnmarshalText`: the first type from `typ` up to
`JobHistoryTypeExecutionLevel` whose name matches; `fuel` bounds the number of
rounds. -/
def unmarshalLoop (fold : Char → Char) (name : String) :
    Nat → JobHistoryType → Option JobHistoryType
  | 0, _ => none
  | fuel + 1, typ =>
    if typ ≤ JobHistoryTypeExecutionLevel then
      if stringsEqualFold fold typ.String (stringsTrimSpace name) then some typ
      else unmarshalLoop fold name fuel (typ + 1)
    else none

/-- The method `JobHistoryType.UnmarshalText`: the receiver as the method leaves
it, and the error returned. -/
def JobHistoryType.UnmarshalText (fold : Char → Char) (s : JobHistoryType) (text : Text) :
    JobHistoryType × Option GoError :=
  match unmarshalLoop fold text 3 JobHistoryTypeUndefined with
  | some typ => (typ, none)
  | none => (s, none)

/-! ## pkg/models: copying a spec config

A Go map is a reference: two configs may hold the same map, and a write through
one is seen through the other. Here the maps live in a heap and a config holds
the reference of its Params map; the struct itself is passed by value, a fresh
struct being a fresh value. -/

/-- The reference of a map: its number in the heap. -/
abbrev MapRef := Nat

/-- The maps allocated so far, by reference, each kept as an association
list. -/
structure MapHeap where
  maps : List (List (String × String)) := []
  deriving DecidableEq, Repr

/-- The entries of the map behind a reference. -/
def MapHeap.read (h : MapHeap) (ref : MapRef) : List (String × String) :=
  h.maps.getD ref []

/-- Go's `make(map...)` followed by the insertion of the given entries: a new
map and its reference. -/
def MapHeap.alloc (h : MapHeap) (entries : List (String × String)) : MapHeap × MapRef :=
  ({ maps := h.maps ++ [entries] }, h.maps.length)

/-- The assignment `m[key] = value` on an association list. -/
def mapAssign (m : List (String × String)) (key value : String) : List (String × String) :=
  (key, value) :: m.filter (fun kv => kv.1 != key)

/-- The assignment `m[key] = value` through a reference. -/
def MapHeap.assign (h : MapHeap) (ref : MapRef) (key value : String) : MapHeap :=
  { maps := h.maps.set ref (mapAssign (h.read ref) key value) }

/-- The record `SpecConfig` with its Params map held by reference (`none` is the
nil map). -/
structure SpecConfigRef where
  Typ : String := ""
  Params : Option MapRef := none
  deriving DecidableEq, Repr

/-- The entries seen through the Params of a config (none for the nil map). -/
def SpecConfigRef.entries (s : SpecConfigRef) (h : MapHeap) : List (String × String) :=
  match s.Params with
  | none => []
  | some ref => h.read ref

/-- The value `s.Params[key]` read through a config. -/
def SpecConfigRef.param (s : SpecConfigRef) (h : MapHeap) (key : String) : Option String :=
  (s.entries h).lookup key

/-- The method `SpecConfig.WithParam`: the heap and the receiver as the method
leaves them. -/
def SpecConfigRef.WithParam (s : SpecConfigRef) (h : MapHeap) (key value : String) :
    MapHeap × SpecConfigRef :=
  match s.Params with
  | none =>
    let made := h.alloc []
    (made.1.assign made.2 key value, { s with Params := some made.2 })
  | some ref => (h.assign ref key value, s)

/-- The function `maps.Clone` of `golang.org/x/exp/maps`: nil for a nil map,
otherwise a new map with the same entries. -/
def mapsClone (h : MapHeap) : Option MapRef → MapHeap × Option MapRef
  | none => (h, none)
  | some ref =>
    let made := h.alloc (h.read ref)
    (made.1, some made.2)

/-- The method `SpecConfig.Copy` (on a possibly nil pointer): the heap after the
call and the config returned. -/
def SpecConfigRef.Copy (h : MapHeap) : Option SpecConfigRef → MapHeap × Option SpecConfigRef
  | none => (h, none)
  | some s =>
    let cloned := mapsClone h s.Params
    (cloned.1, some { Typ := s.Typ, Params := cloned.2 })

/-! ## pkg/lib/watcher: watch options -/

/-- The Go type `RetryStrategy`. -/
inductive RetryStrategy where
  | RetryStrategyBlock
  | RetryStrategySkip
  deriving DecidableEq, Repr

/-- The record `watchOptions`. The iterator, the handler and the filter, whose
types are not among the sources, are kept by a name; a nil handler or filter is
`none`. The two backoffs are durations in nanoseconds. -/
structure watchOptions where
  initialEventIterator : String := ""
  handler : Option String := none
  filter : Option String := none
  batchSize : Int := 0
  initialBackoff : Int := 0
  maxBackoff : Int := 0
  maxRetries : Int := 0
  retryStrategy : RetryStrategy := RetryStrategy.RetryStrategyBlock
  autoStart : Bool := false
  ephemeral : Bool := false
  deriving DecidableEq, Repr

/-- The numeric helpers of `pkg/lib/validate` used by `watchOptions.validate`;
none of them is among the sources, so `validate` takes them as parameters. Each
returns the error it raises, if any. -/
structure NumberValidators where
  IsGreaterThanZero : Int → String → Option GoError
  IsGreaterOrEqualToZero : Int → String → Option GoError
  IsGreaterOrEqual : Int → Int → String → Option GoError

/-- The method `watchOptions.validate`. -/
def watchOptions.validate (v : NumberValidators) (o : watchOptions) : Option GoError :=
  let err := errorsJoin [
    v.IsGreaterThanZero o.batchSize "batchSize must be greater than zero",
    v.IsGreaterOrEqualToZero o.initialBackoff "initialBackoff cannot be negative",
    v.IsGreaterOrEqualToZero o.maxBackoff "maxBackoff cannot be negative",
    v.IsGreaterOrEqualToZero o.maxRetries "maxRetries cannot be negative",
    v.IsGreaterOrEqual o.maxBackoff o.initialBackoff
      "maxBackoff must be greater than or equal to initialBackoff"]
  if o.autoStart && o.handler.isNone then
    errorsJoin [err, some (GoError.errorString "handler must be set when autoStart is enabled")]
  else err

/-- The function `defaultWatchOptions`: batches of 100, backoff from 200ms to
3 minutes, and `math.MaxInt` retries. -/
def defaultWatchOptions : watchOptions :=
  { initialEventIterator := "TrimHorizonIterator"
    batchSize := 100
    initialBackoff := 200 * 1000000
    maxBackoff := 3 * 60000000000
    maxRetries := 9223372036854775807
    retryStrategy := RetryStrategy.RetryStrategyBlock
    ephemeral := false }

/-- The option `WithAutoStart`. -/
def WithAutoStart (o : watchOptions) : watchOptions :=
  { o with autoStart := true }

/-- The option `WithHandler`. -/
def WithHandler (handler : Option String) (o : watchOptions) : watchOptions :=
  { o with handler := handler }

/-! ## pkg/storage/s3: detection of an EC2 instance -/

/-- What the AWS SDK answers: the error, if any, of `config.LoadDefaultConfig`
and of the metadata request for `instance-id`. -/
structure AWSEnvironment where
  loadDefaultConfig : Option GoError
  getMetadata : Option GoError
  deriving DecidableEq, Repr

/-- The package variables `isEC2Instance` and `isEC2InstanceOnce`; of the once
only whether it has run is kept. -/
structure EC2Detection where
  isEC2Instance : Bool := false
  onceDone : Bool := false
  deriving DecidableEq, Repr

/-- An assignment to a variable: the value it holds afterwards. -/
def assign (_old new : Bool) : Bool := new

/-- The closure `IsEC2Instance` hands to `isEC2InstanceOnce.Do`: the value it
leaves in `isEC2Instance`. After a failed load of the config it assigns false
and returns; after a failed metadata request it assigns false and goes on to
the last statement, which assigns true. -/
def detectEC2 (env : AWSEnvironment) (isEC2Instance : Bool) : Bool :=
  match env.loadDefaultConfig with
  | some _ => assign isEC2Instance false
  | none =>
    let afterRequest :=
      match env.getMetadata with
      | some _ => assign isEC2Instance false
      | none => isEC2Instance
    assign afterRequest true

/-- The function `IsEC2Instance`: the value returned and the package variables
after the call. -/
def IsEC2Instance (env : AWSEnvironment) (d : EC2Detection) : Bool × EC2Detection :=
  let d1 : EC2Detection :=
    if d.onceDone then d
    else { isEC2Instance := detectEC2 env d.isEC2Instance, onceDone := true }
  (d1.isEC2Instance, d1)

/-- The setting `imds.ClientEnableState` chosen by `DefaultAWSConfig`. -/
inductive ClientEnableState where
  | ClientEnabled
  | ClientDisabled
  deriving DecidableEq, Repr

/-- The function `DefaultAWSConfig`, as far as the metadata client goes: the
setting it passes to `config.LoadDefaultConfig`, and the package variables after
the call. -/
def DefaultAWSConfig (env : AWSEnvironment) (d : EC2Detection) :
    ClientEnableState × EC2Detection :=
  let r := IsEC2Instance env d
  (if !r.1 then ClientEnableState.ClientDisabled else ClientEnableState.ClientEnabled, r.2)

/-! ## pkg/publicapi/client/v2: the authenticating client -/

/-- The record `apimodels.HTTPCredential`, by its value. -/
abbrev HTTPCredential := String

/-- The calls made by `doRequest`: the request with the credential set on it,
the authentication callback, and the persist callback with its argument. -/
inductive AuthCall where
  | RunRequest (credential : Option HTTPCredential)
  | Authenticate
  | PersistCredential (credential : Option HTTPCredential)
  deriving DecidableEq, Repr

/-- The record `AuthenticatingClient`. A callback is `none` when the field is
nil; `Authenticate`, called at most once in a request, is kept by the answer it
gives. The test `pkgerrors.Is(err, apimodels.ErrInvalidToken)`, whose sentinel
is not among the sources, is the field `IsInvalidToken`. -/
structure AuthenticatingClient where
  Credential : Option HTTPCredential := none
  PersistCredential : Option (Option HTTPCredential → Option GoError) := none
  Authenticate : Option (Option HTTPCredential × Option GoError) := none
  NewAuthenticationFlowEnabled : Bool := false
  IsInvalidToken : GoError → Bool

/-- The function `Wrap` of `github.com/pkg/errors`: the message, a colon and the
text of the cause, with the cause kept in the chain. -/
def pkgerrorsWrap (err : GoError) (message : String) : GoError :=
  GoError.wrapError (message ++ ": ") err

/-- The outcome of `doRequest`: the error returned, the credential the client
holds afterwards, and the calls made, in order. -/
structure RequestOutcome where
  err : Option GoError
  Credential : Option HTTPCredential
  calls : List AuthCall
  deriving DecidableEq, Repr

/-- The second half of `doRequest`, from the test for a new authentication flow
on: `err` is the error of the first request (nil if none was made), `calls` the
calls made so far. A call of a nil callback panics (`none`). The answer of
`runRequest` depends on the number of the call and on the credential. -/
def AuthenticatingClient.authenticateAndRetry (t : AuthenticatingClient)
    (runRequest : Nat → Option HTTPCredential → Option GoError) (err : Option GoError)
    (calls : List AuthCall) : Option RequestOutcome :=
  let invalidToken := match err with
    | some e => t.IsInvalidToken e
    | none => false
  if t.Credential.isNone || invalidToken then
    match t.Authenticate with
    | none => none
    | some (authenticated, authenticateErr) =>
      let credential := if authenticateErr.isSome then none else authenticated
      match t.PersistCredential with
      | none => none
      | some persist =>
        let authErr :=
          match persist credential with
          | some persistErr =>
            errorsJoin [authenticateErr,
              some (pkgerrorsWrap persistErr "unable to persist new client credential")]
          | none => authenticateErr
        let made := calls ++ [AuthCall.Authenticate, AuthCall.PersistCredential credential]
        match authErr with
        | some e => some { err := some e, Credential := credential, calls := made }
        | none =>
          some { err := runRequest calls.length credential, Credential := credential,
                 calls := made ++ [AuthCall.RunRequest credential] }
  else
    match err with
    | some e => some { err := some e, Credential := t.Credential, calls := calls }
    | none =>
      some { err := runRequest calls.length t.Credential, Credential := t.Credential,
             calls := calls ++ [AuthCall.RunRequest t.Credential] }

/-- The function `doRequest`. -/
def doRequest (t : AuthenticatingClient)
    (runRequest : Nat → Option HTTPCredential → Option GoError) : Option RequestOutcome :=
  if t.NewAuthenticationFlowEnabled then
    some { err := runRequest 0 t.Credential, Credential := t.Credential,
           calls := [AuthCall.RunRequest t.Credential] }
  else
    match t.Credential with
    | some credential =>
      match runRequest 0 (some credential) with
      | none =>
        some { err := none, Credential := t.Credential,
               calls := [AuthCall.RunRequest (some credential)] }
      | some err =>
        match t.Authenticate with
        | none =>
          some { err := some (pkgerrorsWrap err "unauthorized and no authentication is available"),
                 Credential := t.Credential,
                 calls := [AuthCall.RunRequest (some credential)] }
        | some _ =>
          t.authenticateAndRetry runRequest (some err) [AuthCall.RunRequest (some credential)]
    | none => t.authenticateAndRetry runRequest none []

/-! ## pkg/telemetry: the metric recorder

The instruments of OpenTelemetry are kept by a name, and what the recorder
publishes to them is recorded as a list of `MetricCall`s. The clock is read by
the caller: a method that reads it takes the instant `now`, in nanoseconds. A
Go map is an association list with distinct keys, in the order in which the
keys were first used; the order in which `range` visits a map is not fixed, and
no statement below depends on it. -/

/-- The instrument `metric.Int64Counter`, by its name. -/
abbrev Int64Counter := String

/-- The instrument `metric.Float64Histogram`, by its name. -/
abbrev Float64Histogram := String

/-- The instrument `metric.Float64UpDownCounter`, by its name. -/
abbrev Float64UpDownCounter := String

/-- The record `attribute.KeyValue`: key and value. -/
abbrev KeyValue := String × String

/-- The attribute key `SubOperationKey`. -/
abbrev SubOperationKey : String := "sub_operation"

/-- The record `histogramKey`. -/
structure histogramKey where
  histogram : Float64Histogram
  operation : String
  deriving DecidableEq, Repr

/-- What the recorder publishes: `Add` on a counter, `Record` on a histogram,
`Add` on an up-down counter, each with the attributes passed. -/
inductive MetricCall where
  | CounterAdd (counter : Int64Counter) (value : Int) (attrs : List KeyValue)
  | HistogramRecord (histogram : Float64Histogram) (value : Float) (attrs : List KeyValue)
  | UpDownCounterAdd (gauge : Float64UpDownCounter) (value : Float) (attrs : List KeyValue)

/-- The sum of two `int64` values, as Go computes it: with wrap-around. -/
def wrapInt64 (x : Int) : Int :=
  (x + 9223372036854775808) % 18446744073709551616 - 9223372036854775808

/-- Go's `Duration.Seconds`: whole seconds plus the rest of the nanoseconds over
1e9, as a `float64`. -/
def durationSeconds (d : Int) : Float :=
  Float.ofInt (d.tdiv 1000000000) + Float.ofInt (d.tmod 1000000000) / Float.ofNat 1000000000

/-- The statement `m[key] += delta` on a Go map: the value under the key, or the
zero value if the key is absent, with `delta` added. -/
def mapAdd {K V : Type} [DecidableEq K] (add : V → V → V) (zero : V) :
    List (K × V) → K → V → List (K × V)
  | [], key, delta => [(key, add zero delta)]
  | (k, v) :: rest, key, delta =>
    if k = key then (k, add v delta) :: rest
    else (k, v) :: mapAdd add zero rest key delta

/-- The record `MetricRecorder`, without its clock. -/
structure MetricRecorder where
  start : Int := 0
  lastOperation : Int := 0
  attrs : List KeyValue := []
  latencies : List (histogramKey × Int) := []
  counts : List (Int64Counter × Int) := []
  histograms : List (Float64Histogram × Float) := []

/-- The method `reset`. -/
def MetricRecorder.reset (r : MetricRecorder) (now : Int) : MetricRecorder :=
  { r with start := now, lastOperation := now, latencies := [], counts := [], histograms := [] }

/-- The method `Count`. -/
def MetricRecorder.Count (r : MetricRecorder) (c : Int64Counter) : MetricRecorder :=
  { r with counts := mapAdd (fun a b => wrapInt64 (a + b)) 0 r.counts c 1 }

/-- The method `CountN`. -/
def MetricRecorder.CountN (r : MetricRecorder) (c : Int64Counter) (n : Int) : MetricRecorder :=
  { r with counts := mapAdd (fun a b => wrapInt64 (a + b)) 0 r.counts c n }

/-- The method `Gauge`: published at once. -/
def MetricRecorder.Gauge (r : MetricRecorder) (g : Float64UpDownCounter) (val : Float) :
    MetricRecorder × List MetricCall :=
  (r, [MetricCall.UpDownCounterAdd g val r.attrs])

/-- The method `Histogram`. -/
def MetricRecorder.Histogram (r : MetricRecorder) (h : Float64Histogram) (value : Float) : MetricRecorder :=
  { r with histograms := mapAdd (fun a b => a + b) (Float.ofNat 0) r.histograms h value }

/-- The method `Latency`. -/
def MetricRecorder.Latency (r : MetricRecorder) (now : Int) (h : Float64Histogram) (subOperation : String) :
    MetricRecorder :=
  let duration := now - r.lastOperation
  { r with
    lastOperation := now
    latencies := mapAdd (fun a b => wrapInt64 (a + b)) 0 r.latencies
      { histogram := h, operation := subOperation } duration }

/-- The method `DoneWithoutTotalDuration`: the aggregated latencies, counts and
histogram values are published, then the recorder is reset. -/
def MetricRecorder.DoneWithoutTotalDuration (r : MetricRecorder) (now : Int) (attrs : List KeyValue) :
    MetricRecorder × List MetricCall :=
  let finalAttrs := r.attrs ++ attrs
  (r.reset now,
    r.latencies.map (fun entry =>
        MetricCall.HistogramRecord entry.1.histogram (durationSeconds entry.2)
          (finalAttrs ++ [(SubOperationKey, entry.1.operation)])) ++
      r.counts.map (fun entry => MetricCall.CounterAdd entry.1 entry.2 finalAttrs) ++
      r.histograms.map (fun entry => MetricCall.HistogramRecord entry.1 entry.2 finalAttrs))

/-- The method `Done`: the total duration is recorded, then everything
aggregated is published. -/
def MetricRecorder.Done (r : MetricRecorder) (now : Int) (h : Float64Histogram) (attrs : List KeyValue) :
    MetricRecorder × List MetricCall :=
  let finalAttrs := r.attrs ++ attrs
  let published := r.DoneWithoutTotalDuration now attrs
  (published.1,
    MetricCall.HistogramRecord h (durationSeconds (now - r.start)) finalAttrs :: published.2)

/-- The function `NewMetricRecorder`. -/
def NewMetricRecorder (now : Int) (attrs : List KeyValue) : MetricRecorder :=
  MetricRecorder.reset { attrs := attrs } now

/-- A call of a method of the recorder. -/
inductive RecorderOp where
  | Count (c : Int64Counter)
  | CountN (c : Int64Counter) (n : Int)
  | Gauge (g : Float64UpDownCounter) (val : Float)
  | Histogram (h : Float64Histogram) (value : Float)
  | Latency (now : Int) (h : Float64Histogram) (subOperation : String)
  | DoneWithoutTotalDuration (now : Int) (attrs : List KeyValue)
  | Done (now : Int) (h : Float64Histogram) (attrs : List KeyValue)

/-- Whether a call is `Count` or `CountN`. -/
def RecorderOp.isCount : RecorderOp → Bool
  | RecorderOp.Count _ => true
  | RecorderOp.CountN _ _ => true
  | _ => false

/-- The recorder after a call, and what the call publishes. -/
def MetricRecorder.step (r : MetricRecorder) : RecorderOp → MetricRecorder × List MetricCall
  | RecorderOp.Count c => (r.Count c, [])
  | RecorderOp.CountN c n => (r.CountN c n, [])
  | RecorderOp.Gauge g val => r.Gauge g val
  | RecorderOp.Histogram h value => (r.Histogram h value, [])
  | RecorderOp.Latency now h subOperation => (r.Latency now h subOperation, [])
  | RecorderOp.DoneWithoutTotalDuration now attrs => r.DoneWithoutTotalDuration now attrs
  | RecorderOp.Done now h attrs => r.Done now h attrs

/-- The recorder after a sequence of calls, and what the calls publish, in
order. -/
def MetricRecorder.run (r : MetricRecorder) : List RecorderOp → MetricRecorder × List MetricCall
  | [] => (r, [])
  | op :: ops =>
    let first := r.step op
    let rest := first.1.run ops
    (rest.1, first.2 ++ rest.2)

/-! ## Vocabulary of the statements -/

/-- Two jobs that differ at most in the task network configuration. -/
def Job.sameButNetwork (a b : Job) : Prop :=
  a.ID = b.ID ∧ a.Typ = b.Typ ∧ a.Count = b.Count ∧ a.Task.Engine = b.Task.Engine ∧
    a.Task.InputSources = b.Task.InputSources ∧ a.Task.ResultPaths = b.Task.ResultPaths ∧
    a.Task.Publisher = b.Task.Publisher ∧ a.Task.ExecutionTimeout = b.Task.ExecutionTimeout

instance (a b : Job) : Decidable (a.sameButNetwork b) := by
  unfold Job.sameButNetwork
  infer_instance

/-- The calls that `Start` can make. -/
def Effect.isStartCall : Effect → Bool
  | Effect.ExecutorsGet _ => true
  | Effect.PrepareExecutionOutputDir _ => true
  | Effect.ParallelPrepareStorage _ _ => true
  | Effect.AllocatePorts _ => true
  | Effect.GetExecutionEnvVars _ => true
  | Effect.UpdateExecutionState _ => true
  | Effect.ExecutorStart _ => true
  | _ => false

/-- The error `Run` returns once its body has finished: the answer of the
deferred removal of the results directory when that removal was registered,
the error of the body otherwise. -/
def BaseExecutor.returnedErr (e : BaseExecutor) (body : RunBody) : Option GoError :=
  match body.resultsDir with
  | some resultsDir => e.removeAll resultsDir
  | none => body.err

/-- The calls of the deferred functions of `Run`, in the order they run. -/
def BaseExecutor.deferredCalls (e : BaseExecutor) (execution started : Execution)
    (res : StartResult) (body : RunBody) : List Effect :=
  (match body.resultsDir with
    | some resultsDir => [Effect.RemoveAll resultsDir]
    | none => []) ++
  ([Effect.ScheduleRemoval (e.executionOutputDir execution.ID)] ++ res.Cleanup.2) ++
  (match e.returnedErr body with
    | some err =>
      if !(e.IsErrorWithCode err ExecutionAlreadyCancelled) then
        e.handleFailure started err body.topic
      else []
    | none => [])

/-- The calls that the deferred functions of `Run` can make. -/
def Effect.isDeferredCall : Effect → Bool
  | Effect.RemoveAll _ => true
  | Effect.ScheduleRemoval _ => true
  | Effect.ParallelCleanStorage _ => true
  | Effect.ReleasePorts _ => true
  | Effect.UpdateExecutionState _ => true
  | _ => false

/-- The store update issued by the failure handler of `Run` for a final error. -/
def failureUpdates (e : BaseExecutor) (started : Execution) (topic : EventTopic) :
    Option GoError → List UpdateExecutionRequest
  | some err =>
    if !(e.IsErrorWithCode err ExecutionAlreadyCancelled) then
      [failedUpdateRequest started.ID err topic]
    else []
  | none => []

/-- The updates to Failed among a list of store updates. -/
def failedUpdates (reqs : List UpdateExecutionRequest) : List UpdateExecutionRequest :=
  reqs.filter (fun req => req.NewValues.ComputeState.StateType == ExecutionStateFailed)

/-- The number of evaluations that are ready, delayed or inflight and satisfy a
test. -/
def Broker.activeCount (b : Broker) (test : Evaluation → Bool) : Nat :=
  b.ready.countP test + b.delayed.countP test + b.inflight.countP (fun x => test x.Eval)

/-- The broker serialises the evaluations of a job: of every job at most one
evaluation is ready, delayed or inflight, and no evaluation ID is held twice. -/
def Broker.serialised (b : Broker) : Prop :=
  (∀ jobID, b.activeCount (fun x => x.JobID == jobID) ≤ 1) ∧
    ∀ evalID, b.activeCount (fun x => x.ID == evalID) +
      b.pending.countP (fun x => x.ID == evalID) ≤ 1

/-- The receipt handles are fresh: every handle delivered so far is below the
number of handles generated, later deliveries carry larger handles, and an
inflight entry carries the handle of the latest delivery of its evaluation. -/
def Broker.handlesFresh (b : Broker) (delivered : List (String × ReceiptHandle)) : Prop :=
  (∀ d ∈ delivered, d.2 < b.handles) ∧
    delivered.Pairwise (fun d1 d2 => d1.2 < d2.2) ∧
    ∀ entry ∈ b.inflight, (entry.Eval.ID, entry.ReceiptHandle) ∈ delivered ∧
      ∀ handle, (entry.Eval.ID, handle) ∈ delivered → handle ≤ entry.ReceiptHandle

/-- A text is a re-casing of another when the two agree once their ASCII letters
are put in lower case. -/
def recased (core name : List Char) : Prop :=
  core.map Char.toLower = name.map Char.toLower

/-- The Params of a config is nil or a map of the heap. -/
def SpecConfigRef.allocated (s : SpecConfigRef) (h : MapHeap) : Prop :=
  ∀ ref, s.Params = some ref → ref < h.maps.length

/-- The numeric helpers do what their names say: each returns nil exactly when
the comparison it is named after holds. -/
def NumberValidators.sound (v : NumberValidators) : Prop :=
  (∀ n msg, v.IsGreaterThanZero n msg = none ↔ 0 < n) ∧
  (∀ n msg, v.IsGreaterOrEqualToZero n msg = none ↔ 0 ≤ n) ∧
  (∀ a b msg, v.IsGreaterOrEqual a b msg = none ↔ b ≤ a)

/-- The credential `doRequest` holds after the authentication callback: the one
returned, or nil when the callback failed. -/
def authenticatedCredential (auth : Option HTTPCredential × Option GoError) :
    Option HTTPCredential :=
  if auth.2.isSome then none else auth.1

/-- The increments a sequence of calls records for a counter, in order. -/
def increments (c : Int64Counter) : List RecorderOp → List Int
  | [] => []
  | RecorderOp.Count c1 :: ops => if c1 = c then 1 :: increments c ops else increments c ops
  | RecorderOp.CountN c1 n :: ops => if c1 = c then n :: increments c ops else increments c ops
  | _ :: ops => increments c ops

/-- The values and attributes of the `Add` calls a counter receives. -/
def addsOf (c : Int64Counter) : List MetricCall → List (Int × List KeyValue)
  | [] => []
  | MetricCall.CounterAdd c1 value attrs :: calls =>
    if c1 = c then (value, attrs) :: addsOf c calls else addsOf c calls
  | _ :: calls => addsOf c calls

/-- The values a map holds under a key. -/
def valuesOf {K V : Type} [DecidableEq K] (key : K) (m : List (K × V)) : List V :=
  (m.filter (fun entry => entry.1 = key)).map (fun entry => entry.2)

/-- The values a map holds under a key after increments by `m[key] += delta`,
one after the other, given the values it held before. -/
def aggregate : List Int → List Int → List Int
  | held, [] => held
  | [], n :: ns => aggregate [wrapInt64 (0 + n)] ns
  | v :: vs, n :: ns => aggregate (wrapInt64 (v + n) :: vs) ns

/-- Modelled from the spec: `pkg/lib/validate` and `Job.Validate` are not among
the sources. The three string helpers follow the messages at their call sites
(blank, space, null character); `Job.Validate` follows the Job record of the
data model: Type one of batch, service, daemon, ops, and Count at least 1. -/
def specValidators : Validators where
  NotBlank := fun s msg =>
    if s.data.all Char.isWhitespace then some (GoError.errorString msg) else none
  NoSpaces := fun s msg =>
    if s.data.contains (Char.ofNat 32) then some (GoError.errorString msg) else none
  NoNullChars := fun s msg =>
    if s.data.contains (Char.ofNat 0) then some (GoError.errorString msg) else none
  JobValidate := fun j =>
    if (j.Typ = JobTypeBatch ∨ j.Typ = JobTypeService ∨ j.Typ = JobTypeDaemon ∨ j.Typ = JobTypeOps)
        ∧ 1 ≤ j.Count then none
    else some (GoError.errorString "invalid job")

/-- A batch job with a single partition, whose task has an empty publisher:
nothing is published. -/
def sampleJob : Job :=
  { ID := "j-1", Typ := JobTypeBatch, Count := 1,
    Task := { Engine := { Typ := "noop" }, Publisher := some {}, Network := some {} } }

/-- An execution of `sampleJob` whose accepted bid is waiting to run. -/
def sampleExecution : Execution :=
  { ID := "e-1", Namespace := "default", JobID := "j-1", Job := some sampleJob,
    DesiredState := { StateType := ExecutionDesiredStateRunning },
    ComputeState := { StateType := ExecutionStateBidAccepted } }

/-- A batch job of three partitions and its execution for the last one. -/
def partitionedExecution : Execution :=
  { sampleExecution with
    Job := some { sampleJob with Count := 3 }, PartitionIndex := 2 }

/-- An execution of the single-partition `sampleJob` carrying partition index 5. -/
def strayIndexExecution : Execution :=
  { sampleExecution with PartitionIndex := 5 }

/-- The name of a network type in a metric attribute. -/
def networkName : Network → String
  | Network.NetworkDefault => "Default"
  | Network.NetworkNone => "None"
  | Network.NetworkHost => "Host"
  | Network.NetworkFull => "Full"
  | Network.NetworkBridge => "Bridge"

/-- Modelled from the spec: `Job.MetricAttributes` and the `Task.MetricAttributes`
it calls are not among the sources. As `SpecConfig.MetricAttributes` reads the
Type behind its receiver, this reading names the Type of the engine, of the
publisher and of the network of the task and the type of the job; the call
panics (`none`) when the publisher or the network of the task is nil. -/
def jobMetricAttributes (job : Job) : Option (List (String × String)) :=
  match job.Task.Publisher, job.Task.Network with
  | some publisher, some network =>
    some [("task_engine", job.Task.Engine.Typ), ("task_publisher", publisher.Typ),
      ("task_network", networkName network.Typ), ("job_type", job.Typ)]
  | _, _ => none

/-- An executor whose collaborators all succeed; the backend returns exit
code 0 and no runner error. -/
def sampleExecutor : BaseExecutor where
  ID := "node-0"
  store := fun _ => none
  prepareStorage := fun _ inputs => .ok (inputs.map (fun src => "volume:" ++ src))
  cleanStorage := fun _ => none
  executorsGetForStart := fun _ => none
  executorsGetForWait := fun _ => none
  executorStart := fun _ => none
  executorWait := fun _ => .result { ExitCode := 0 }
  publishersGet := fun _ => none
  publishResult := fun _ dir => .ok { Typ := "local", Params := some [("path", dir)] }
  prepareExecutionOutputDir := fun executionID => .ok ("/out/" ++ executionID)
  executionOutputDir := fun executionID => "/out/" ++ executionID
  getExecutionEnvVars := fun _ => .ok []
  allocatePorts := fun _ => .ok (some [(80, 20000)])
  defaultNetworkType := Network.NetworkBridge
  removeAll := fun _ => none
  NewErrExecTimeout := fun timeout =>
    GoError.bacError "ExecutionTimeout" ("execution timed out after " ++ toString timeout)
  bacerrorsWrap := fun err msg => GoError.wrapError (msg ++ ": ") err
  IsErrorWithCode := fun err code => IsErrorWithCode err code
  ExecutionResultsDir := fun dir => dir ++ "/results"
  ExecCompletedEvent :=
    { Topic := EventTopic.EventTopicExecutionRunning, Message := "Completed successfully" }
  totalResources := fun _ => none
  outputLimits := {}
  MetricAttributes := jobMetricAttributes

/-- The execution of `sampleJob` with one input source and a publisher. -/
def publishingExecution : Execution :=
  { sampleExecution with
    Job := some { sampleJob with
      Task := { sampleJob.Task with
        InputSources := ["s3://bucket/in"], Publisher := some { Typ := "local" } } } }

/-- The execution `sampleExecution` after `Start`: ports allocated and the
default network type applied. -/
def sampleStarted : Execution :=
  { sampleExecution with
    Job := some { sampleJob with
      Task := { sampleJob.Task with
        Network := some { Typ := Network.NetworkBridge, Ports := [(80, 20000)] } } } }

/-- The request built for `sampleExecution`. -/
def sampleArgs : RunCommandRequest :=
  { JobID := "j-1", ExecutionID := "e-1", Resources := none,
    Network := { Typ := Network.NetworkBridge, Ports := [(80, 20000)] },
    Outputs := [], Inputs := [], ExecutionDir := "/out/e-1",
    EngineParams := { Typ := "noop" }, Env := [], OutputLimits := {} }

/-- The calls `Start` makes for `sampleExecution` on `sampleExecutor`. -/
def sampleStartTrace : List Effect :=
  [Effect.ExecutorsGet "noop", Effect.PrepareExecutionOutputDir "e-1",
   Effect.ParallelPrepareStorage "e-1" [], Effect.AllocatePorts "e-1",
   Effect.GetExecutionEnvVars "e-1",
   Effect.UpdateExecutionState (startUpdateRequest "e-1"),
   Effect.ExecutorStart (some sampleArgs)]

/-- The result of `Start` for `sampleExecution` on `sampleExecutor`. -/
def sampleStartResult : StartResult :=
  { cleanup := some (runCleanupFuncs
      [fun _ => (none, [Effect.ParallelCleanStorage []]),
       fun _ => (none, [Effect.ReleasePorts "e-1"])]),
    Err := none }

/-- The executor `sampleExecutor` with a backend wait that ends with the context
deadline. -/
def timeoutExecutor : BaseExecutor :=
  { sampleExecutor with executorWait := fun _ => .ctxDone GoError.contextDeadlineExceeded }

/-- The executor `sampleExecutor` with a backend whose task exits with code 1
and no runner error. -/
def exitCodeExecutor : BaseExecutor :=
  { sampleExecutor with executorWait := fun _ => .result { ExitCode := 1 } }

/-- The executor `sampleExecutor` with a backend that reports a runner error. -/
def runnerErrorExecutor : BaseExecutor :=
  { sampleExecutor with
    executorWait := fun _ => .result { ExitCode := 1, ErrorMsg := "image not found" } }

/-- The published result of `sampleExecutor` for execution `e-1`. -/
def samplePublished : SpecConfig :=
  { Typ := "local", Params := some [("path", "/out/e-1/results")] }

/-- The request built for `publishingExecution`. -/
def publishingArgs : RunCommandRequest :=
  { sampleArgs with Inputs := ["volume:s3://bucket/in"] }

/-- The calls `Start` makes for `publishingExecution` on `sampleExecutor`. -/
def publishingStartTrace : List Effect :=
  [Effect.ExecutorsGet "noop", Effect.PrepareExecutionOutputDir "e-1",
   Effect.ParallelPrepareStorage "e-1" ["s3://bucket/in"], Effect.AllocatePorts "e-1",
   Effect.GetExecutionEnvVars "e-1",
   Effect.UpdateExecutionState (startUpdateRequest "e-1"),
   Effect.ExecutorStart (some publishingArgs)]

/-- The outcome of `Run` for `publishingExecution` on `runnerErrorExecutor`. -/
def runnerErrorOutcome : RunResult :=
  { err := some (GoError.errorString "image not found"),
    trace := publishingStartTrace ++
      [Effect.ExecutorsGet "noop", Effect.ExecutorWait "e-1",
       Effect.ScheduleRemoval "/out/e-1",
       Effect.ParallelCleanStorage ["volume:s3://bucket/in"], Effect.ReleasePorts "e-1",
       Effect.UpdateExecutionState (failedUpdateRequest "e-1"
         (GoError.errorString "image not found") EventTopic.EventTopicExecutionRunning)] }

/-- The executor `sampleExecutor` whose environment resolution fails. -/
def envFailsExecutor : BaseExecutor :=
  { sampleExecutor with
    getExecutionEnvVars := fun _ => .error (GoError.errorString "variable not allowed") }

/-- The executor `sampleExecutor` whose port allocation fails. -/
def portFailsExecutor : BaseExecutor :=
  { sampleExecutor with
    allocatePorts := fun _ => .error (GoError.errorString "no free port") }

/-- The executor `sampleExecutor` on which the removal of the results
directory fails. -/
def removeFailsExecutor : BaseExecutor :=
  { sampleExecutor with
    removeAll := fun _ => some (GoError.errorString "directory not empty") }

/-- A task that asks for host networking. -/
def hostExecution : Execution :=
  { sampleExecution with
    Job := some { sampleJob with
      Task := { sampleJob.Task with Network := some { Typ := Network.NetworkHost } } } }

/-- The executor `sampleExecutor` whose backend reports that the execution was
already started. -/
def alreadyStartedExecutor : BaseExecutor :=
  { sampleExecutor with
    executorStart := fun _ =>
      some (GoError.bacError ExecutionAlreadyStarted "execution already started") }

/-- The result of `Start` for `sampleExecution` on `alreadyStartedExecutor`. -/
def alreadyStartedResult : StartResult :=
  { sampleStartResult with
    Err := some (GoError.bacError ExecutionAlreadyStarted "execution already started") }

/-- The outcome of `Run` for `sampleExecution` on `sampleExecutor`. -/
def sampleRunOutcome : RunResult :=
  { err := none,
    trace := sampleStartTrace ++
      [Effect.ExecutorsGet "noop", Effect.ExecutorWait "e-1", Effect.JobsCompletedAdd,
       Effect.UpdateExecutionState
         (completedUpdateRequest sampleExecutor "e-1" ExecutionStateRunning none {}),
       Effect.ScheduleRemoval "/out/e-1", Effect.ParallelCleanStorage [],
       Effect.ReleasePorts "e-1"] }

/-- The execution `publishingExecution` after `Start`. -/
def publishingStarted : Execution :=
  { publishingExecution with
    Job := some { sampleJob with
      Task := { sampleJob.Task with
        InputSources := ["s3://bucket/in"], Publisher := some { Typ := "local" },
        Network := some { Typ := Network.NetworkBridge, Ports := [(80, 20000)] } } } }

/-- The result of `Start` for `publishingExecution` on `sampleExecutor`. -/
def publishingStartResult : StartResult :=
  { cleanup := some (runCleanupFuncs
      [fun _ => (none, [Effect.ParallelCleanStorage ["volume:s3://bucket/in"]]),
       fun _ => (none, [Effect.ReleasePorts "e-1"])]),
    Err := none }

/-- The outcome of `Run` for `publishingExecution` on `timeoutExecutor`. -/
def timeoutOutcome : RunResult :=
  { err := some (GoError.bacError "ExecutionTimeout" "execution timed out after 0"),
    trace := publishingStartTrace ++
      [Effect.ExecutorsGet "noop", Effect.ExecutorWait "e-1",
       Effect.ScheduleRemoval "/out/e-1",
       Effect.ParallelCleanStorage ["volume:s3://bucket/in"], Effect.ReleasePorts "e-1",
       Effect.UpdateExecutionState (failedUpdateRequest "e-1"
         (GoError.bacError "ExecutionTimeout" "execution timed out after 0")
         EventTopic.EventTopicExecutionRunning)] }

/-- A node with a docker executor and an ipfs store holding the content `Qm1`;
its wasm executor is not installed and its s3 store fails on every query. -/
def sampleNode : ComputeNode where
  Executors := fun engine =>
    if engine = "docker" then some { IsInstalled := (true, none) }
    else if engine = "wasm" then some { IsInstalled := (false, none) }
    else none
  StorageProviders := fun engine =>
    if engine = "ipfs" then
      some { IsInstalled := (true, none)
             HasResourceLocally := fun input => (input.Cid == "Qm1", none) }
    else if engine = "s3" then
      some { IsInstalled := (true, none)
             HasResourceLocally := fun _ =>
               (false, some (GoError.errorString "bucket unreachable")) }
    else none

/-- A docker job over the content the sample node holds. -/
def localJob : JobSpec :=
  { Engine := "docker", Inputs := [{ Engine := "ipfs", Cid := "Qm1" }] }

/-- A docker job whose second input fails to be located. -/
def failingLookupJob : JobSpec :=
  { Engine := "docker",
    Inputs := [{ Engine := "ipfs", Cid := "Qm1" }, { Engine := "s3", Cid := "key" },
               { Engine := "ipfs", Cid := "Qm2" }] }

/-- A job for the executor that is not installed. -/
def wasmJob : JobSpec :=
  { Engine := "wasm", Inputs := [{ Engine := "ipfs", Cid := "Qm1" }] }

/-- A client of a local server; no API error is generated from a response and
an unknown error is wrapped with its text. -/
def sampleClient : httpClient where
  address := "http://127.0.0.1:1234"
  generateAPIError := fun _ => none
  Wrap := fun err message => { Message := message ++ ": " ++ err.Text }
  resolveHint := "ensure that the server is running and reachable"
  defaultEndpoint := "http://127.0.0.1:1234"
  demoNetworkHint := " or use the demo network"

/-- A refused connection as the HTTP client reports it: a URL error around the
dial error. -/
def refusedError : RequestError :=
  { Text := "Get http://127.0.0.1:1234/api/v1/agent/alive: dial tcp 127.0.0.1:1234: connect: connection refused",
    urlErr := some { Timeout := false,
                     ErrText := "dial tcp 127.0.0.1:1234: connect: connection refused" },
    netErr := some { Timeout := false,
                     Text := "Get http://127.0.0.1:1234/api/v1/agent/alive: dial tcp 127.0.0.1:1234: connect: connection refused",
                     opErr := none } }

/-- A connection reset while reading the response. -/
def resetError : RequestError :=
  { Text := "read tcp 127.0.0.1:1234: connection reset by peer",
    urlErr := none,
    netErr := some { Timeout := false,
                     Text := "read tcp 127.0.0.1:1234: connection reset by peer",
                     opErr := some { Op := "read", Syscall := some "read" } } }

/-- A refused connection as the dialer reports it: a `*net.OpError` of the
operation dial around the failed system call connect, not inside a URL error. -/
def dialRefusedError : RequestError :=
  { Text := "dial tcp 127.0.0.1:1234: connect: connection refused",
    urlErr := none,
    netErr := some { Timeout := false,
                     Text := "dial tcp 127.0.0.1:1234: connect: connection refused",
                     opErr := some { Op := "dial", Syscall := some "connect" } } }

/-- The error built when the context deadline has passed. -/
def timedOutBacError : BacError :=
  { Message := "request timed out", Code := TimeOutError, Retryable := true,
    Component := errorComponent,
    Details := [("method", "GET"), ("address", "http://127.0.0.1:1234"),
                ("endpoint", "/api/v1/agent/alive")],
    Hint := "ensure that the server is running and reachable or use the demo network" }

/-- Two evaluations of one job, and one of another job. -/
def firstEvaluation : Evaluation :=
  { ID := "eval-a", JobID := "job-1", Priority := 50, CreateTime := 1 }

def secondEvaluation : Evaluation :=
  { ID := "eval-b", JobID := "job-1", Priority := 50, CreateTime := 2 }

/-- Calls that leave the first evaluation inflight and the second one waiting
behind it. -/
def serialisedOps : List BrokerOp :=
  [BrokerOp.Enqueue 0 firstEvaluation, BrokerOp.Enqueue 0 secondEvaluation,
    BrokerOp.Dequeue 0 ["batch"]]

def serialisedBroker : Broker :=
  { visibility := 60, maxRetries := 3,
    pending := [secondEvaluation],
    inflight := [{ Eval := firstEvaluation, ReceiptHandle := 0, NackTimeoutDeadline := 60,
                   DeliveryCount := 0 }],
    handles := 1 }

/-- Calls that deliver the first evaluation twice: once before a `Nack` and
once after it. -/
def redeliveryOps : List BrokerOp :=
  [BrokerOp.Enqueue 0 firstEvaluation, BrokerOp.Dequeue 0 ["batch"],
    BrokerOp.Nack "eval-a" 0, BrokerOp.Dequeue 5 ["batch"]]

def redeliveredEntry : InflightEntry :=
  { Eval := firstEvaluation, ReceiptHandle := 1, NackTimeoutDeadline := 65, DeliveryCount := 0 }

def redeliveredBroker : Broker :=
  { visibility := 60, maxRetries := 3, inflight := [redeliveredEntry], handles := 2 }

def redeliveryResults : List BrokerResult :=
  [BrokerResult.done, BrokerResult.delivered firstEvaluation 0, BrokerResult.done,
    BrokerResult.delivered firstEvaluation 1]

/-- An execution that has been running since instant 1000. -/
def runningExecution : Execution :=
  { sampleExecution with
    ComputeState := { StateType := ExecutionStateRunning }, ModifyTime := 1000 }

/-- A heap with one map, and the config that holds it. -/
def dockerHeap : MapHeap :=
  { maps := [[("Image", "ubuntu")]] }

def dockerSpec : SpecConfigRef :=
  { Typ := "docker", Params := some 0 }

/-- Modelled from the spec: the numeric helpers of `pkg/lib/validate` are not
among the sources; these follow their names and the messages at their call
sites. -/
def specNumberValidators : NumberValidators where
  IsGreaterThanZero := fun n msg => if 0 < n then none else some (GoError.errorString msg)
  IsGreaterOrEqualToZero := fun n msg => if 0 ≤ n then none else some (GoError.errorString msg)
  IsGreaterOrEqual := fun a b msg => if b ≤ a then none else some (GoError.errorString msg)

/-- A machine outside EC2: the AWS config loads and the metadata request
fails. -/
def outsideEC2 : AWSEnvironment :=
  { loadDefaultConfig := none
    getMetadata := some (GoError.errorString "request to EC2 IMDS failed") }

/-- The executor `sampleExecutor` with a store that rejects the update to
Completed and accepts every other update. -/
def completedFailsExecutor : BaseExecutor :=
  { sampleExecutor with
    store := fun req =>
      if req.NewValues.ComputeState.StateType = ExecutionStateCompleted then
        some (GoError.errorString "execution already terminal")
      else none }

/-- A client with an expired token, whose callbacks succeed. -/
def expiredTokenClient : AuthenticatingClient :=
  { Credential := some "old-token"
    PersistCredential := some (fun _ => none)
    Authenticate := some (some "new-token", none)
    IsInvalidToken := fun err => err.Error == "invalid token" }

/-- A client without a credential whose `PersistCredential` is nil. -/
def noPersistClient : AuthenticatingClient :=
  { Credential := none
    PersistCredential := none
    Authenticate := some (some "new-token", none)
    IsInvalidToken := fun err => err.Error == "invalid token" }

/-- A server that accepts only the new token. -/
def newTokenServer : Nat → Option HTTPCredential → Option GoError :=
  fun _ credential =>
    if credential = some "new-token" then none else some (GoError.errorString "invalid token")

/-- A recorder that has just been created, and three calls on two counters. -/
def freshRecorder : MetricRecorder :=
  NewMetricRecorder 0 [("operation", "process")]

def countingOps : List RecorderOp :=
  [RecorderOp.Count "jobs", RecorderOp.CountN "bytes" 512, RecorderOp.CountN "jobs" 2]

/-- Two calls on one counter whose increments add up to more than the largest
`int64`. -/
def overflowingOps : List RecorderOp :=
  [RecorderOp.CountN "jobs" 9223372036854775807, RecorderOp.Count "jobs"]

/-! ## Properties of the execution model -/

/-- Joining with a non-nil second error never gives nil. -/
theorem errorsJoin_pair_some (a : Option GoError) (x : GoError) :
    errorsJoin [a, some x] ≠ none := by
  cases a <;> simp [errorsJoin]

/-- C1: a compute state is terminal exactly when it is Completed, Failed,
Cancelled, BidRejected or AskForBidRejected; the seven other named states are
not terminal. -/
theorem isTerminal_iff (s : ExecutionStateType) :
    (ExecutionStateType.IsTerminal s = true ↔
      (s = ExecutionStateCompleted ∨ s = ExecutionStateFailed ∨ s = ExecutionStateCancelled ∨
        s = ExecutionStateBidRejected ∨ s = ExecutionStateAskForBidRejected)) ∧
    ExecutionStateType.IsTerminal ExecutionStateUndefined = false ∧
    ExecutionStateType.IsTerminal ExecutionStateNew = false ∧
    ExecutionStateType.IsTerminal ExecutionStateAskForBid = false ∧
    ExecutionStateType.IsTerminal ExecutionStateAskForBidAccepted = false ∧
    ExecutionStateType.IsTerminal ExecutionStateBidAccepted = false ∧
    ExecutionStateType.IsTerminal ExecutionStateRunning = false ∧
    ExecutionStateType.IsTerminal ExecutionStatePublishing = false := by
  refine ⟨?_, by decide, by decide, by decide, by decide, by decide, by decide, by decide⟩
  simp only [ExecutionStateType.IsTerminal, Bool.or_eq_true, beq_iff_eq]
  tauto

/-- C2: an execution is reported terminal exactly when its desired state is
Stopped or its compute state is one of the five terminal compute states; with
desired state Pending or Running and a non-terminal compute state it is not
reported terminal. -/
theorem isTerminalState_iff (e : Execution) :
    (e.IsTerminalState = true ↔
      (e.DesiredState.StateType = ExecutionDesiredStateStopped ∨
        e.ComputeState.StateType = ExecutionStateCompleted ∨
        e.ComputeState.StateType = ExecutionStateFailed ∨
        e.ComputeState.StateType = ExecutionStateCancelled ∨
        e.ComputeState.StateType = ExecutionStateBidRejected ∨
        e.ComputeState.StateType = ExecutionStateAskForBidRejected)) ∧
    ((e.DesiredState.StateType = ExecutionDesiredStatePending ∨
        e.DesiredState.StateType = ExecutionDesiredStateRunning) →
      ExecutionStateType.IsTerminal e.ComputeState.StateType = false →
      e.IsTerminalState = false) := by
  have key : e.IsTerminalState = true ↔
      (e.DesiredState.StateType = ExecutionDesiredStateStopped ∨
        e.ComputeState.StateType = ExecutionStateCompleted ∨
        e.ComputeState.StateType = ExecutionStateFailed ∨
        e.ComputeState.StateType = ExecutionStateCancelled ∨
        e.ComputeState.StateType = ExecutionStateBidRejected ∨
        e.ComputeState.StateType = ExecutionStateAskForBidRejected) := by
    simp only [Execution.IsTerminalState, Execution.IsTerminalDesiredState,
      Execution.IsTerminalComputeState, Bool.or_eq_true, beq_iff_eq]
    split_ifs <;> simp_all
  refine ⟨key, ?_⟩
  intro hd hc
  have hns : ¬ e.IsTerminalState = true := by
    rw [key]
    simp only [ExecutionStateType.IsTerminal, Bool.or_eq_false_iff, beq_eq_false_iff_ne] at hc
    rcases hd with hd | hd <;> rw [hd] <;> simp <;> tauto
  simpa using hns

/-- C2, at an instance: a running execution with an accepted bid is not terminal. -/
theorem isTerminalState_iff_witness : sampleExecution.IsTerminalState = false :=
  (isTerminalState_iff sampleExecution).2 (Or.inr rfl) (by decide)

/-- C3, as stated, fails: an execution of a batch job with Count 1 and partition
index 5 passes `Validate`, although 5 is not below the job count. -/
theorem validate_partitionIndex_counterexample :
    strayIndexExecution.Job = some sampleJob ∧
    strayIndexExecution.Validate specValidators = none ∧
    strayIndexExecution.PartitionIndex = 5 ∧ sampleJob.Count = 1 ∧
    ¬ (0 ≤ strayIndexExecution.PartitionIndex ∧
        strayIndexExecution.PartitionIndex < sampleJob.Count) := by
  decide

/-- C3, amended: for an execution of a batch or service job with Count above 1,
when `Validate` returns no error the partition index lies in `[0, Count)`; for
every other job type and for Count at most 1 the answer of `Validate` does not
depend on the partition index. -/
theorem validate_partitionIndex_range (v : Validators) (e : Execution) (job : Job)
    (hjob : e.Job = some job) :
    ((job.Typ = JobTypeBatch ∨ job.Typ = JobTypeService) → 1 < job.Count →
      e.Validate v = none → 0 ≤ e.PartitionIndex ∧ e.PartitionIndex < job.Count) ∧
    (¬ ((job.Typ = JobTypeBatch ∨ job.Typ = JobTypeService) ∧ 1 < job.Count) →
      ∀ index : Int, ({ e with PartitionIndex := index } : Execution).Validate v =
        e.Validate v) := by
  constructor
  · intro htype hcount hvalid
    unfold Execution.Validate at hvalid
    simp only [hjob] at hvalid
    have hguard : (job.Typ = JobTypeBatch ∨ job.Typ = JobTypeService) ∧ job.Count > 1 :=
      ⟨htype, hcount⟩
    rw [if_pos hguard] at hvalid
    by_cases hbad : e.PartitionIndex < 0 ∨ e.PartitionIndex ≥ job.Count
    · rw [if_pos hbad] at hvalid
      exact absurd hvalid (errorsJoin_pair_some _ _)
    · push_neg at hbad
      exact ⟨hbad.1, hbad.2⟩
  · intro hguard index
    have hguard1 : ¬ ((job.Typ = JobTypeBatch ∨ job.Typ = JobTypeService) ∧ job.Count > 1) :=
      hguard
    unfold Execution.Validate
    simp only [hjob]
    rw [if_neg hguard1, if_neg hguard1]

/-- C3, amended, at an instance: partition 2 of a three-partition batch job is
in range; for the batch job with Count 1 the answer of `Validate` is the same
for every partition index. -/
theorem validate_partitionIndex_range_witness :
    partitionedExecution.Validate specValidators = none ∧
    (0 ≤ partitionedExecution.PartitionIndex ∧
      partitionedExecution.PartitionIndex < ({ sampleJob with Count := 3 } : Job).Count) ∧
    (∀ index : Int,
      ({ strayIndexExecution with PartitionIndex := index } : Execution).Validate
          specValidators =
        strayIndexExecution.Validate specValidators) :=
  ⟨by decide,
    (validate_partitionIndex_range specValidators partitionedExecution
      { sampleJob with Count := 3 } rfl).1 (Or.inl rfl) (by decide) (by decide),
    (validate_partitionIndex_range specValidators strayIndexExecution sampleJob rfl).2
      (by decide)⟩

/-! ## Properties of the executor -/

/-- The store updates of a concatenation are those of its parts. -/
theorem storeUpdates_append (a b : List Effect) :
    storeUpdates (a ++ b) = storeUpdates a ++ storeUpdates b := by
  induction a with
  | nil => rfl
  | cons x xs ih => cases x <;> simp [storeUpdates, ih]

/-- The Running update expects BidAccepted or Running. -/
@[simp] theorem startUpdateRequest_expected (executionID : String) :
    (startUpdateRequest executionID).Condition.ExpectedStates =
      [ExecutionStateBidAccepted, ExecutionStateRunning] := rfl

/-- The Running update sets the compute state Running. -/
@[simp] theorem startUpdateRequest_state (executionID : String) :
    (startUpdateRequest executionID).NewValues.ComputeState.StateType = ExecutionStateRunning :=
  rfl

/-- A job differs from itself in nothing. -/
theorem Job.sameButNetwork_refl (a : Job) : a.sameButNetwork a :=
  ⟨rfl, rfl, rfl, rfl, rfl, rfl, rfl, rfl⟩

/-- The method `AllocatePorts` keeps the execution ID. -/
theorem allocatePorts_ID (execution : Execution) (pm : Option PortMap) :
    (execution.AllocatePorts pm).ID = execution.ID := by
  unfold Execution.AllocatePorts
  split
  · rfl
  · split <;> rfl

/-- The method `AllocatePorts` keeps the job but for its network configuration. -/
theorem allocatePorts_job (execution : Execution) (pm : Option PortMap) (job : Job)
    (hjob : execution.Job = some job) :
    ∃ job1, (execution.AllocatePorts pm).Job = some job1 ∧ job.sameButNetwork job1 := by
  unfold Execution.AllocatePorts
  simp only [hjob]
  split
  · exact ⟨job, hjob, Job.sameButNetwork_refl job⟩
  · exact ⟨_, rfl, rfl, rfl, rfl, rfl, rfl, rfl, rfl, rfl⟩

/-- The calls made by a cleanup closure of `PrepareRunArguments`. -/
theorem runCleanupFuncs_trace (c1 c2 : InputCleanupFn) :
    (runCleanupFuncs [c1, c2] ()).2 = (c1 ()).2 ++ (c2 ()).2 := by
  simp [runCleanupFuncs]

/-- What `PrepareRunArguments` leaves behind: no store update and no backend
start among its calls, the execution keeps its ID and its job changes at most
in the network configuration, and the cleanup, when there is one, cleans the
prepared volumes and releases the ports. -/
theorem prepareRunArguments_facts (e : BaseExecutor) (execution : Execution) (dir : String)
    (prep : PrepareResult) (h : e.PrepareRunArguments execution dir = some prep) :
    storeUpdates prep.trace = [] ∧ (∀ args, Effect.ExecutorStart args ∉ prep.trace) ∧
      prep.execution.ID = execution.ID ∧
      (∃ job job1, execution.Job = some job ∧ prep.execution.Job = some job1 ∧
        job.sameButNetwork job1) ∧
      (prep.cleanup = none ∨ ∃ cleanup volumes, prep.cleanup = some cleanup ∧
        (cleanup ()).2 =
          [Effect.ParallelCleanStorage volumes, Effect.ReleasePorts execution.ID]) := by
  unfold BaseExecutor.PrepareRunArguments at h
  split at h
  · contradiction
  rename_i job hjob
  split at h
  · simp only [Option.some.injEq] at h
    subst h
    simp [storeUpdates, hjob, Job.sameButNetwork_refl]
  split at h
  · simp only [Option.some.injEq] at h
    subst h
    simp [storeUpdates, hjob, Job.sameButNetwork_refl]
  rename_i pm hpm
  obtain ⟨job1, hjob1, hsame⟩ := allocatePorts_job execution pm job hjob
  dsimp only at h
  split at h
  · simp only [Option.some.injEq] at h
    subst h
    exact ⟨by simp [storeUpdates], by simp, by simp [allocatePorts_ID],
      ⟨job, job1, hjob, hjob1, hsame⟩, Or.inl rfl⟩
  split at h
  · contradiction
  split at h
  · contradiction
  rename_i job2 hjob2 _ nc hnc
  simp only [Option.some.injEq] at h
  subst h
  rw [hjob1] at hjob2
  simp only [Option.some.injEq] at hjob2
  subst hjob2
  obtain ⟨h1, h2, h3, h4, h5, h6, h7, h8⟩ := hsame
  refine ⟨by simp [storeUpdates], by simp, by simp [allocatePorts_ID], ?_, ?_⟩
  · exact ⟨job, _, hjob, rfl, h1, h2, h3, h4, h5, h6, h7, h8⟩
  · right
    rename_i vols _ _ _ _ _ _ _
    exact ⟨_, vols, rfl, by simp [runCleanupFuncs]⟩


/-- Every call of `PrepareRunArguments` is a call `Start` can make. -/
theorem prepareRunArguments_calls (e : BaseExecutor) (execution : Execution) (dir : String)
    (prep : PrepareResult) (h : e.PrepareRunArguments execution dir = some prep) :
    ∀ x ∈ prep.trace, x.isStartCall = true := by
  unfold BaseExecutor.PrepareRunArguments at h
  split at h
  · contradiction
  split at h
  · simp only [Option.some.injEq] at h
    subst h
    simp [Effect.isStartCall]
  split at h
  · simp only [Option.some.injEq] at h
    subst h
    simp [Effect.isStartCall]
  dsimp only at h
  split at h
  · simp only [Option.some.injEq] at h
    subst h
    simp [Effect.isStartCall]
  split at h
  · contradiction
  split at h
  · contradiction
  simp only [Option.some.injEq] at h
  subst h
  simp [Effect.isStartCall]

/-- What `Start` leaves behind. -/
theorem start_facts (e : BaseExecutor) (execution : Execution) (res : StartResult)
    (started : Execution) (tStart : List Effect)
    (h : e.Start execution = some (res, started, tStart)) :
    started.ID = execution.ID ∧
    (∃ job job1, execution.Job = some job ∧ started.Job = some job1 ∧
      job.sameButNetwork job1) ∧
    (res.Cleanup.2 = [] ∨ ∃ volumes, res.Cleanup.2 =
      [Effect.ParallelCleanStorage volumes, Effect.ReleasePorts execution.ID]) ∧
    (∀ x ∈ tStart, x.isStartCall = true) ∧
    (storeUpdates tStart = [] ∨ storeUpdates tStart = [startUpdateRequest execution.ID]) ∧
    (res.Err = none → storeUpdates tStart = [startUpdateRequest execution.ID]) ∧
    (e.store (startUpdateRequest execution.ID) ≠ none →
      res.Err ≠ none ∧ ∀ args, Effect.ExecutorStart args ∉ tStart) ∧
    (∀ args, Effect.ExecutorStart args ∈ tStart →
      storeUpdates tStart = [startUpdateRequest execution.ID] ∧
      e.store (startUpdateRequest execution.ID) = none) := by
  unfold BaseExecutor.Start at h
  split at h
  · contradiction
  rename_i job hjob
  split at h
  · simp only [Option.some.injEq, Prod.mk.injEq] at h
    obtain ⟨rfl, rfl, rfl⟩ := h
    simp [storeUpdates, hjob, Job.sameButNetwork_refl, StartResult.Cleanup, Effect.isStartCall]
  split at h
  · simp only [Option.some.injEq, Prod.mk.injEq] at h
    obtain ⟨rfl, rfl, rfl⟩ := h
    simp [storeUpdates, hjob, Job.sameButNetwork_refl, StartResult.Cleanup, Effect.isStartCall]
  split at h
  · contradiction
  rename_i prep hprep
  obtain ⟨hnoStore, hnoStart, hid, ⟨job0, job1, hjob0, hjob1, hsame⟩, hclean⟩ :=
    prepareRunArguments_facts e execution _ prep hprep
  have hcalls := prepareRunArguments_calls e execution _ prep hprep
  have hcleanup : ∀ err : Option GoError,
      (({ cleanup := prep.cleanup, Err := err } : StartResult).Cleanup.2 = [] ∨
        ∃ volumes, ({ cleanup := prep.cleanup, Err := err } : StartResult).Cleanup.2 =
          [Effect.ParallelCleanStorage volumes, Effect.ReleasePorts execution.ID]) := by
    intro err
    rcases hclean with hc | ⟨cleanup, volumes, hc, htr⟩
    · left
      simp [StartResult.Cleanup, hc]
    · right
      exact ⟨volumes, by simp [StartResult.Cleanup, hc, htr]⟩
  have hjobs : ∃ job job1, execution.Job = some job ∧ prep.execution.Job = some job1 ∧
      job.sameButNetwork job1 := ⟨job0, job1, hjob0, hjob1, hsame⟩
  have hstartCalls : ∀ x ∈ [Effect.ExecutorsGet job.Task.Engine.Typ] ++
      [Effect.PrepareExecutionOutputDir execution.ID] ++ prep.trace, x.isStartCall = true := by
    intro x hx
    rcases List.mem_append.mp hx with hx | hx
    · simp only [List.singleton_append, List.mem_cons, List.mem_singleton, List.not_mem_nil,
        or_false] at hx
      rcases hx with hx | hx <;> subst hx <;> rfl
    · exact hcalls x hx
  dsimp only at h
  split at h
  · simp only [Option.some.injEq, Prod.mk.injEq] at h
    obtain ⟨rfl, rfl, rfl⟩ := h
    refine ⟨hid, hjobs, hcleanup _, hstartCalls, ?_, ?_, ?_, ?_⟩ <;>
      simp [storeUpdates, storeUpdates_append, hnoStore, hnoStart]
  rw [hid] at h
  split at h
  · rename_i serr hstore
    simp only [Option.some.injEq, Prod.mk.injEq] at h
    obtain ⟨rfl, rfl, rfl⟩ := h
    refine ⟨hid, hjobs, hcleanup _, ?_, ?_, ?_, ?_, ?_⟩
    · intro x hx
      rw [List.mem_append] at hx
      rcases hx with hx | hx
      · exact hstartCalls x hx
      · simp only [List.mem_singleton] at hx
        subst hx
        rfl
    all_goals simp [storeUpdates, storeUpdates_append, hnoStore, hnoStart, hstore]
  rename_i hstore
  split at h
  · simp only [Option.some.injEq, Prod.mk.injEq] at h
    obtain ⟨rfl, rfl, rfl⟩ := h
    refine ⟨hid, hjobs, hcleanup _, ?_, ?_, ?_, ?_, ?_⟩
    · intro x hx
      rw [List.mem_append] at hx
      rcases hx with hx | hx
      · exact hstartCalls x hx
      · simp only [List.mem_singleton] at hx
        subst hx
        rfl
    all_goals simp [storeUpdates, storeUpdates_append, hnoStore, hnoStart, hstore]
  · simp only [Option.some.injEq, Prod.mk.injEq] at h
    obtain ⟨rfl, rfl, rfl⟩ := h
    refine ⟨hid, hjobs, hcleanup _, ?_, ?_, ?_, ?_, ?_⟩
    · intro x hx
      rcases List.mem_append.mp hx with hx | hx
      · rcases List.mem_append.mp hx with hx | hx
        · exact hstartCalls x hx
        · simp only [List.mem_singleton] at hx
          subst hx
          rfl
      · simp only [List.mem_singleton] at hx
        subst hx
        rfl
    all_goals simp [storeUpdates, storeUpdates_append, hnoStore, hnoStart, hstore]


/-- From `Start` on, `Run` is `Start`, then the body, then the deferred
functions. -/
theorem runFromStart_eq (e : BaseExecutor) (execution : Execution) (res : StartResult)
    (started : Execution) (tStart : List Effect) (body : RunBody)
    (hs : e.Start execution = some (res, started, tStart))
    (hb : e.runAfterStart started res = some body) :
    e.runFromStart execution = some
      { err := e.returnedErr body,
        trace := tStart ++ body.trace ++ e.deferredCalls execution started res body } := by
  obtain ⟨_, ⟨job, _, hjob, _, _⟩, _⟩ := start_facts e execution res started tStart hs
  unfold BaseExecutor.runFromStart
  simp only [hjob, hs, hb]
  cases hrd : body.resultsDir with
  | none =>
    cases hbe : body.err <;>
      simp [BaseExecutor.returnedErr, BaseExecutor.deferredCalls, hrd, hbe]
  | some resultsDir =>
    cases hra : e.removeAll resultsDir <;>
      simp [BaseExecutor.returnedErr, BaseExecutor.deferredCalls, hrd, hra]

/-- When the metric attributes of the job are computed, `Run` is `Run` from
`Start` on. -/
theorem run_of_attrs (e : BaseExecutor) (execution : Execution) (job : Job)
    (attrs : List (String × String)) (hjob : execution.Job = some job)
    (hattrs : e.MetricAttributes job = some attrs) :
    e.Run execution = e.runFromStart execution := by
  unfold BaseExecutor.Run
  simp only [hjob, hattrs]

/-- A run that returns has computed the metric attributes of the job, and is the
run from `Start` on. -/
theorem run_some (e : BaseExecutor) (execution : Execution) (out : RunResult)
    (h : e.Run execution = some out) :
    e.runFromStart execution = some out ∧
      ∃ job attrs, execution.Job = some job ∧ e.MetricAttributes job = some attrs := by
  unfold BaseExecutor.Run at h
  cases hjob : execution.Job with
  | none => rw [hjob] at h; simp at h
  | some job =>
    cases hattrs : e.MetricAttributes job with
    | none => simp [hjob, hattrs] at h
    | some attrs =>
      simp only [hjob, hattrs] at h
      exact ⟨h, job, attrs, rfl, hattrs⟩

/-- When the metric attributes of the job are computed, `Run` is `Start`, then
the body, then the deferred functions. -/
theorem run_eq (e : BaseExecutor) (execution : Execution) (job : Job)
    (attrs : List (String × String)) (res : StartResult)
    (started : Execution) (tStart : List Effect) (body : RunBody)
    (hjob : execution.Job = some job) (hattrs : e.MetricAttributes job = some attrs)
    (hs : e.Start execution = some (res, started, tStart))
    (hb : e.runAfterStart started res = some body) :
    e.Run execution = some
      { err := e.returnedErr body,
        trace := tStart ++ body.trace ++ e.deferredCalls execution started res body } := by
  rw [run_of_attrs e execution job attrs hjob hattrs]
  exact runFromStart_eq e execution res started tStart body hs hb


/-- When `Start` reports no error, or one carrying ExecutionAlreadyStarted, the
body of `Run` continues with `Wait`. -/
theorem runAfterStart_reaches_wait (e : BaseExecutor) (started : Execution) (res : StartResult)
    (h : res.Err = none ∨
      ∃ se, res.Err = some se ∧ e.IsErrorWithCode se ExecutionAlreadyStarted = true) :
    e.runAfterStart started res = e.waitAndComplete started := by
  unfold BaseExecutor.runAfterStart
  rcases h with h | ⟨se, h, hcode⟩
  · simp [h]
  · simp [h, hcode]

/-- The calls of `Wait`: the executor lookup, then the backend wait. -/
theorem wait_trace (e : BaseExecutor) (started : Execution) (job : Job)
    (hjob : started.Job = some job) :
    ∃ r tWait, e.Wait started = some (r, tWait) ∧
      (tWait = [Effect.ExecutorsGet job.Task.Engine.Typ] ∨
        tWait = [Effect.ExecutorsGet job.Task.Engine.Typ, Effect.ExecutorWait started.ID]) := by
  unfold BaseExecutor.Wait
  simp only [hjob]
  split
  · exact ⟨_, _, rfl, Or.inl rfl⟩
  · split <;> exact ⟨_, _, rfl, Or.inr rfl⟩

/-- The calls of `publish`: the publisher lookup, then the publication. -/
theorem publish_trace (e : BaseExecutor) (started : Execution) (publisher : SpecConfig)
    (dir : String) :
    (e.publish started publisher dir).2 = [Effect.PublishersGet publisher.Typ] ∨
    (e.publish started publisher dir).2 =
      [Effect.PublishersGet publisher.Typ, Effect.PublishResult started dir] := by
  unfold BaseExecutor.publish
  split
  · exact Or.inl rfl
  · split <;> exact Or.inr rfl

/-- The paths through the body of `Run` from `Wait` on. -/
theorem waitAndComplete_paths (e : BaseExecutor) (started : Execution) (job : Job)
    (hjob : started.Job = some job) (body : RunBody)
    (hb : e.waitAndComplete started = some body) :
    (∃ err tWait, e.Wait started = some (.error err, tWait) ∧
      body = { err := some (if err.IsDeadlineExceeded then
                  e.NewErrExecTimeout job.Task.ExecutionTimeout else err),
               trace := tWait }) ∨
    (∃ result tWait, e.Wait started = some (.ok result, tWait) ∧ result.ErrorMsg ≠ "" ∧
      body = { err := some (GoError.errorString result.ErrorMsg), trace := tWait }) ∨
    (∃ result tWait, e.Wait started = some (.ok result, tWait) ∧ result.ErrorMsg = "" ∧
      SpecConfig.IsEmpty job.Task.Publisher = true ∧
      body = e.markCompleted started ExecutionStateRunning none result
        EventTopic.EventTopicExecutionRunning none (tWait ++ [Effect.JobsCompletedAdd])) ∨
    (∃ result tWait publisher, e.Wait started = some (.ok result, tWait) ∧
      result.ErrorMsg = "" ∧ SpecConfig.IsEmpty job.Task.Publisher = false ∧
      job.Task.Publisher = some publisher ∧
      ((∃ err, e.store (publishingUpdateRequest started.ID result) = some err ∧
          body = { err := some err, topic := EventTopic.EventTopicExecutionPublishing,
                   trace := tWait ++ [Effect.JobsCompletedAdd] ++
                     [Effect.UpdateExecutionState (publishingUpdateRequest started.ID result)] }) ∨
        (e.store (publishingUpdateRequest started.ID result) = none ∧
          ∃ err, (e.publish started publisher
              (e.ExecutionResultsDir (e.executionOutputDir started.ID))).1 = .error err ∧
            body = { err := some err, topic := EventTopic.EventTopicExecutionPublishing,
                     trace := tWait ++ [Effect.JobsCompletedAdd] ++
                       [Effect.UpdateExecutionState (publishingUpdateRequest started.ID result)] ++
                       (e.publish started publisher
                         (e.ExecutionResultsDir (e.executionOutputDir started.ID))).2 }) ∨
        (e.store (publishingUpdateRequest started.ID result) = none ∧
          ∃ published, (e.publish started publisher
              (e.ExecutionResultsDir (e.executionOutputDir started.ID))).1 = .ok published ∧
            body = e.markCompleted started ExecutionStatePublishing (some published) result
              EventTopic.EventTopicExecutionPublishing
              (some (e.ExecutionResultsDir (e.executionOutputDir started.ID)))
              (tWait ++ [Effect.JobsCompletedAdd] ++
                [Effect.UpdateExecutionState (publishingUpdateRequest started.ID result)] ++
                (e.publish started publisher
                  (e.ExecutionResultsDir (e.executionOutputDir started.ID))).2)))) := by
  unfold BaseExecutor.waitAndComplete at hb
  simp only [hjob] at hb
  split at hb
  · contradiction
  · rename_i err tWait hw
    left
    refine ⟨err, tWait, hw, ?_⟩
    split at hb <;> simp_all
  · rename_i result tWait hw
    right
    split at hb
    · rename_i hmsg
      left
      simp only [Option.some.injEq] at hb
      exact ⟨result, tWait, hw, hmsg, hb.symm⟩
    · rename_i hmsg
      right
      simp only [ne_eq, Decidable.not_not] at hmsg
      split at hb
      · rename_i hpub
        right
        simp only [Bool.not_eq_true', ] at hpub
        split at hb
        · contradiction
        · rename_i publisher hpublisher
          refine ⟨result, tWait, publisher, hw, hmsg, hpub, hpublisher, ?_⟩
          split at hb
          · rename_i serr hstore
            left
            simp only [Option.some.injEq] at hb
            exact ⟨serr, hstore, hb.symm⟩
          · rename_i hstore
            right
            split at hb
            · rename_i perr tp hp
              left
              simp only [Option.some.injEq] at hb
              exact ⟨hstore, perr, by rw [hp], by rw [hp]; exact hb.symm⟩
            · rename_i published tp hp
              right
              simp only [Option.some.injEq] at hb
              exact ⟨hstore, published, by rw [hp], by rw [hp]; exact hb.symm⟩
      · rename_i hpub
        left
        simp only [Bool.not_eq_true', Bool.not_eq_false] at hpub
        simp only [Option.some.injEq] at hb
        exact ⟨result, tWait, hw, hmsg, hpub, hb.symm⟩

/-- A run that returns went through `Start`, the body and the deferred functions. -/
theorem run_inv (e : BaseExecutor) (execution : Execution) (out : RunResult)
    (h : e.Run execution = some out) :
    ∃ res started tStart body, e.Start execution = some (res, started, tStart) ∧
      e.runAfterStart started res = some body ∧
      out = { err := e.returnedErr body,
              trace := tStart ++ body.trace ++ e.deferredCalls execution started res body } := by
  replace h := (run_some e execution out h).1
  cases hs : e.Start execution with
  | none =>
    unfold BaseExecutor.runFromStart at h
    rw [hs] at h
    split at h <;> simp at h
  | some triple =>
    obtain ⟨res, started, tStart⟩ := triple
    cases hb : e.runAfterStart started res with
    | none =>
      unfold BaseExecutor.runFromStart at h
      rw [hs] at h
      simp only [hb] at h
      split at h <;> simp at h
    | some body =>
      refine ⟨res, started, tStart, body, rfl, hb, ?_⟩
      rw [runFromStart_eq e execution res started tStart body hs hb] at h
      simp only [Option.some.injEq] at h
      exact h.symm

/-- After `Start`, the body either goes on to `Wait` or returns the error of
`Start`, which then does not carry ExecutionAlreadyStarted. -/
theorem runAfterStart_inv (e : BaseExecutor) (started : Execution) (res : StartResult)
    (body : RunBody) (h : e.runAfterStart started res = some body) :
    ((res.Err = none ∨
        ∃ se, res.Err = some se ∧ e.IsErrorWithCode se ExecutionAlreadyStarted = true) ∧
      e.waitAndComplete started = some body) ∨
    (∃ se, res.Err = some se ∧ e.IsErrorWithCode se ExecutionAlreadyStarted = false ∧
      body = { err := some se, trace := [Effect.JobsFailedAdd] }) := by
  unfold BaseExecutor.runAfterStart at h
  split at h
  · rename_i se hse
    split at h
    · rename_i hcode
      exact Or.inl ⟨Or.inr ⟨se, hse, hcode⟩, h⟩
    · rename_i hcode
      simp only [Option.some.injEq] at h
      simp only [Bool.not_eq_true] at hcode
      exact Or.inr ⟨se, hse, hcode, h.symm⟩
  · rename_i hnone
    exact Or.inl ⟨Or.inl hnone, h⟩

/-- The deferred functions make only cleanup calls and the update of the
failure handler. -/
theorem deferredCalls_facts (e : BaseExecutor) (execution started : Execution)
    (res : StartResult) (body : RunBody)
    (hclean : res.Cleanup.2 = [] ∨ ∃ volumes, res.Cleanup.2 =
      [Effect.ParallelCleanStorage volumes, Effect.ReleasePorts execution.ID]) :
    (∀ x ∈ e.deferredCalls execution started res body, x.isDeferredCall = true) ∧
    storeUpdates (e.deferredCalls execution started res body) =
      failureUpdates e started body.topic (e.returnedErr body) := by
  unfold BaseExecutor.deferredCalls failureUpdates
  constructor
  · intro x hx
    simp only [List.mem_append] at hx
    rcases hx with (hx | hx | hx) | hx
    · split at hx
      · simp only [List.mem_singleton] at hx
        subst hx
        rfl
      · simp at hx
    · simp only [List.mem_singleton] at hx
      subst hx
      rfl
    · rcases hclean with hc | ⟨volumes, hc⟩ <;> rw [hc] at hx
      · simp at hx
      · simp only [List.mem_cons, List.mem_singleton, List.not_mem_nil, or_false] at hx
        rcases hx with hx | hx <;> subst hx <;> rfl
    · split at hx
      · split at hx
        · simp only [BaseExecutor.handleFailure, List.mem_singleton] at hx
          subst hx
          rfl
        · simp at hx
      · simp at hx
  · have hc : storeUpdates res.Cleanup.2 = [] := by
      rcases hclean with hc | ⟨volumes, hc⟩ <;> rw [hc] <;> rfl
    simp only [storeUpdates_append, hc]
    cases e.returnedErr body with
    | none => cases body.resultsDir <;> simp [storeUpdates]
    | some err =>
      cases body.resultsDir <;> simp only [storeUpdates, BaseExecutor.handleFailure] <;>
        split <;> simp [storeUpdates]

/-- The calls of `Wait` include no store update and no publication. -/
theorem wait_trace_calls (e : BaseExecutor) (started : Execution)
    (r : Except GoError RunCommandResult) (tWait : List Effect)
    (h : e.Wait started = some (r, tWait)) :
    storeUpdates tWait = [] ∧ ∀ ex dir, Effect.PublishResult ex dir ∉ tWait := by
  cases hjob : started.Job with
  | none => simp [BaseExecutor.Wait, hjob] at h
  | some job =>
    obtain ⟨r1, t1, h1, ht⟩ := wait_trace e started job hjob
    rw [h] at h1
    simp only [Option.some.injEq, Prod.mk.injEq] at h1
    obtain ⟨_, rfl⟩ := h1
    rcases ht with ht | ht <;> subst ht <;> simp [storeUpdates]

/-- The calls of `publish` include no store update. -/
theorem publish_trace_calls (e : BaseExecutor) (started : Execution) (publisher : SpecConfig)
    (dir : String) : storeUpdates (e.publish started publisher dir).2 = [] := by
  rcases publish_trace e started publisher dir with h | h <;> rw [h] <;> rfl

/-- What the body of `Run` issues from `Wait` on: every store update is the
Publishing or the Completed update for a wait result without runner error, and
the publisher is called only for such a result and a non-empty publisher. -/
theorem waitAndComplete_facts (e : BaseExecutor) (started : Execution) (job : Job)
    (hjob : started.Job = some job) (body : RunBody)
    (hb : e.waitAndComplete started = some body) :
    (∀ req ∈ storeUpdates body.trace, ∃ result tWait,
      e.Wait started = some (.ok result, tWait) ∧ result.ErrorMsg = "" ∧
      ((req = publishingUpdateRequest started.ID result ∧
          SpecConfig.IsEmpty job.Task.Publisher = false) ∨
        (req = completedUpdateRequest e started.ID ExecutionStateRunning none result ∧
          SpecConfig.IsEmpty job.Task.Publisher = true) ∨
        (∃ published,
          req = completedUpdateRequest e started.ID ExecutionStatePublishing (some published)
            result ∧
          SpecConfig.IsEmpty job.Task.Publisher = false))) ∧
    (∀ ex dir, Effect.PublishResult ex dir ∈ body.trace → ∃ result tWait,
      e.Wait started = some (.ok result, tWait) ∧ result.ErrorMsg = "" ∧
      SpecConfig.IsEmpty job.Task.Publisher = false) := by
  rcases waitAndComplete_paths e started job hjob body hb with
    ⟨err, tWait, hw, rfl⟩ | ⟨result, tWait, hw, hmsg, rfl⟩ |
    ⟨result, tWait, hw, hmsg, hpub, rfl⟩ | ⟨result, tWait, publisher, hw, hmsg, hpub, hp, hrest⟩
  · obtain ⟨h1, h2⟩ := wait_trace_calls e started _ tWait hw
    exact ⟨by simp [h1], fun ex dir hx => absurd hx (h2 ex dir)⟩
  · obtain ⟨h1, h2⟩ := wait_trace_calls e started _ tWait hw
    exact ⟨by simp [h1], fun ex dir hx => absurd hx (h2 ex dir)⟩
  · obtain ⟨h1, h2⟩ := wait_trace_calls e started _ tWait hw
    constructor
    · intro req hreq
      simp only [BaseExecutor.markCompleted, storeUpdates_append, h1, storeUpdates,
        List.nil_append, List.mem_singleton] at hreq
      exact ⟨result, tWait, hw, hmsg, Or.inr (Or.inl ⟨hreq, hpub⟩)⟩
    · intro ex dir hx
      simp only [BaseExecutor.markCompleted, List.mem_append, List.mem_singleton] at hx
      rcases hx with (hx | hx) | hx
      · exact absurd hx (h2 ex dir)
      · cases hx
      · cases hx
  · obtain ⟨h1, h2⟩ := wait_trace_calls e started _ tWait hw
    have h3 := publish_trace_calls e started publisher
      (e.ExecutionResultsDir (e.executionOutputDir started.ID))
    rcases hrest with ⟨serr, hstore, rfl⟩ | ⟨hstore, perr, hperr, rfl⟩ |
      ⟨hstore, published, hpublished, rfl⟩
    · constructor
      · intro req hreq
        simp only [storeUpdates_append, h1, storeUpdates, List.nil_append,
          List.mem_singleton] at hreq
        exact ⟨result, tWait, hw, hmsg, Or.inl ⟨hreq, hpub⟩⟩
      · intro ex dir _
        exact ⟨result, tWait, hw, hmsg, hpub⟩
    · constructor
      · intro req hreq
        simp only [storeUpdates_append, h1, h3, storeUpdates, List.nil_append,
          List.append_nil, List.mem_singleton] at hreq
        exact ⟨result, tWait, hw, hmsg, Or.inl ⟨hreq, hpub⟩⟩
      · intro ex dir _
        exact ⟨result, tWait, hw, hmsg, hpub⟩
    · constructor
      · intro req hreq
        simp only [BaseExecutor.markCompleted, storeUpdates_append, h1, h3, storeUpdates,
          List.nil_append, List.append_nil, List.cons_append, List.mem_cons,
          List.mem_singleton, List.not_mem_nil, or_false] at hreq
        rcases hreq with hreq | hreq
        · exact ⟨result, tWait, hw, hmsg, Or.inl ⟨hreq, hpub⟩⟩
        · exact ⟨result, tWait, hw, hmsg, Or.inr (Or.inr ⟨published, hreq, hpub⟩)⟩
      · intro ex dir _
        exact ⟨result, tWait, hw, hmsg, hpub⟩

/-- The Publishing update sets the compute state Publishing. -/
@[simp] theorem publishingUpdateRequest_state (executionID : String) (result : RunCommandResult) :
    (publishingUpdateRequest executionID result).NewValues.ComputeState.StateType =
      ExecutionStatePublishing := rfl

/-- The Completed update sets the compute state Completed. -/
@[simp] theorem completedUpdateRequest_state (e : BaseExecutor) (executionID : String)
    (expected : ExecutionStateType) (published : Option SpecConfig) (result : RunCommandResult) :
    (completedUpdateRequest e executionID expected published result).NewValues.ComputeState.StateType
      = ExecutionStateCompleted := rfl

/-- The Failed update sets the compute state Failed. -/
@[simp] theorem failedUpdateRequest_state (executionID : String) (err : GoError)
    (topic : EventTopic) :
    (failedUpdateRequest executionID err topic).NewValues.ComputeState.StateType =
      ExecutionStateFailed := rfl

/-- Every store update of a run is the Running update of `Start`, the Failed
update of the failure handler for the error `Run` returns, or a Publishing or Completed update for a wait
result without runner error; the publisher is called only for such a result
and a non-empty publisher. -/
theorem run_calls_classified (e : BaseExecutor) (execution : Execution) (job : Job)
    (res : StartResult) (started : Execution) (tStart : List Effect) (out : RunResult)
    (hjob : execution.Job = some job)
    (hs : e.Start execution = some (res, started, tStart))
    (hrun : e.Run execution = some out) :
    (∀ req ∈ storeUpdates out.trace,
      req = startUpdateRequest execution.ID ∨
      (∃ err topic, out.err = some err ∧ req = failedUpdateRequest execution.ID err topic) ∨
      (∃ result tWait, e.Wait started = some (.ok result, tWait) ∧ result.ErrorMsg = "" ∧
        ((req = publishingUpdateRequest execution.ID result ∧
            SpecConfig.IsEmpty job.Task.Publisher = false) ∨
          (req = completedUpdateRequest e execution.ID ExecutionStateRunning none result ∧
            SpecConfig.IsEmpty job.Task.Publisher = true) ∨
          (∃ published,
            req = completedUpdateRequest e execution.ID ExecutionStatePublishing
              (some published) result ∧
            SpecConfig.IsEmpty job.Task.Publisher = false)))) ∧
    (∀ ex dir, Effect.PublishResult ex dir ∈ out.trace → ∃ result tWait,
      e.Wait started = some (.ok result, tWait) ∧ result.ErrorMsg = "" ∧
      SpecConfig.IsEmpty job.Task.Publisher = false) := by
  obtain ⟨res1, started1, tStart1, body, hs1, hb, rfl⟩ := run_inv e execution out hrun
  rw [hs] at hs1
  simp only [Option.some.injEq, Prod.mk.injEq] at hs1
  obtain ⟨rfl, rfl, rfl⟩ := hs1
  obtain ⟨hid, ⟨job0, job1, hjob0, hjob1, hsame⟩, hclean, hcalls, hupd, _⟩ :=
    start_facts e execution res started tStart hs
  rw [hjob] at hjob0
  simp only [Option.some.injEq] at hjob0
  subst hjob0
  have hpubEq : job1.Task.Publisher = job.Task.Publisher := hsame.2.2.2.2.2.2.1.symm
  obtain ⟨hdcalls, hdupd⟩ := deferredCalls_facts e execution started res body hclean
  have hbody :
      (∀ req ∈ storeUpdates body.trace, ∃ result tWait,
        e.Wait started = some (.ok result, tWait) ∧ result.ErrorMsg = "" ∧
        ((req = publishingUpdateRequest started.ID result ∧
            SpecConfig.IsEmpty job1.Task.Publisher = false) ∨
          (req = completedUpdateRequest e started.ID ExecutionStateRunning none result ∧
            SpecConfig.IsEmpty job1.Task.Publisher = true) ∨
          (∃ published,
            req = completedUpdateRequest e started.ID ExecutionStatePublishing (some published)
              result ∧
            SpecConfig.IsEmpty job1.Task.Publisher = false))) ∧
      (∀ ex dir, Effect.PublishResult ex dir ∈ body.trace → ∃ result tWait,
        e.Wait started = some (.ok result, tWait) ∧ result.ErrorMsg = "" ∧
        SpecConfig.IsEmpty job1.Task.Publisher = false) := by
    rcases runAfterStart_inv e started res body hb with ⟨_, hwc⟩ | ⟨se, _, _, rfl⟩
    · exact waitAndComplete_facts e started job1 hjob1 body hwc
    · exact ⟨by simp [storeUpdates], by simp⟩
  rw [hid, hpubEq] at hbody
  constructor
  · intro req hreq
    simp only [storeUpdates_append, hdupd, List.mem_append] at hreq
    rcases hreq with (hreq | hreq) | hreq
    · left
      rcases hupd with hu | hu <;> rw [hu] at hreq
      · simp at hreq
      · simpa using hreq
    · exact Or.inr (Or.inr (hbody.1 req hreq))
    · right
      left
      cases hre : e.returnedErr body with
      | none => simp [failureUpdates, hre] at hreq
      | some err =>
        simp only [failureUpdates, hre] at hreq
        split at hreq
        · simp only [List.mem_singleton] at hreq
          rw [hid] at hreq
          exact ⟨err, _, rfl, hreq⟩
        · simp at hreq
  · intro ex dir hx
    simp only [List.mem_append] at hx
    rcases hx with (hx | hx) | hx
    · have := hcalls _ hx
      simp [Effect.isStartCall] at this
    · exact hbody.2 ex dir hx
    · have := hdcalls _ hx
      simp [Effect.isDeferredCall] at this

/-- A result returned by `Wait` is the one the backend delivered. -/
theorem wait_ok_inv (e : BaseExecutor) (started : Execution) (result : RunCommandResult)
    (tWait : List Effect) (h : e.Wait started = some (.ok result, tWait)) :
    e.executorWait started.ID = .result result := by
  unfold BaseExecutor.Wait at h
  split at h
  · contradiction
  · split at h
    · simp at h
    · split at h <;> simp at h
      rename_i hres
      rw [hres, h.1]

/-- The method `PrepareRunArguments` does not consult the backend `Start`. -/
theorem prepareRunArguments_backend_congr (e : BaseExecutor)
    (f g : Option RunCommandRequest → Option GoError) (execution : Execution) (dir : String) :
    ({ e with executorStart := f } : BaseExecutor).PrepareRunArguments execution dir =
      ({ e with executorStart := g } : BaseExecutor).PrepareRunArguments execution dir := rfl

/-- The body of `Run` from `Wait` on does not consult the backend `Start`. -/
theorem waitAndComplete_backend_congr (e : BaseExecutor)
    (f g : Option RunCommandRequest → Option GoError) (started : Execution) :
    ({ e with executorStart := f } : BaseExecutor).waitAndComplete started =
      ({ e with executorStart := g } : BaseExecutor).waitAndComplete started := rfl

/-- A backend `Start` that answers ExecutionAlreadyStarted leaves `Run` from
`Start` on with the same returned error and the same calls as a backend `Start`
that succeeds. -/
theorem runFromStart_alreadyStarted_eq (e : BaseExecutor) (execution : Execution)
    (se : GoError) (hcode : e.IsErrorWithCode se ExecutionAlreadyStarted = true) :
    ({ e with executorStart := fun _ => some se } : BaseExecutor).runFromStart execution =
      ({ e with executorStart := fun _ => none } : BaseExecutor).runFromStart execution := by
  unfold BaseExecutor.runFromStart
  cases hjob : execution.Job with
  | none => rfl
  | some job =>
    simp only []
    unfold BaseExecutor.Start
    simp only [hjob]
    cases h1 : e.executorsGetForStart job.Task.Engine.Typ with
    | some err => rfl
    | none =>
      simp only []
      cases h2 : e.prepareExecutionOutputDir execution.ID with
      | error err => rfl
      | ok dir =>
        simp only []
        rw [prepareRunArguments_backend_congr e (fun _ => some se) (fun _ => none)]
        cases h3 : ({ e with executorStart := fun _ => none } : BaseExecutor).PrepareRunArguments
            execution dir with
        | none => rfl
        | some prep =>
          simp only []
          cases h4 : prep.err with
          | some err => rfl
          | none =>
            simp only []
            cases h5 : e.store (startUpdateRequest prep.execution.ID) with
            | some err => rfl
            | none =>
              simp only []
              cases h6 : e.isBadActor with
              | true => rfl
              | false =>
                simp only [Bool.false_eq_true, if_false, BaseExecutor.runAfterStart, hcode,
                  if_true]
                rfl

/-- A backend `Start` that answers ExecutionAlreadyStarted leaves `Run` with the
same returned error and the same calls as a backend `Start` that succeeds. -/
theorem run_alreadyStarted_eq (e : BaseExecutor) (execution : Execution) (se : GoError)
    (hcode : e.IsErrorWithCode se ExecutionAlreadyStarted = true) :
    ({ e with executorStart := fun _ => some se } : BaseExecutor).Run execution =
      ({ e with executorStart := fun _ => none } : BaseExecutor).Run execution := by
  unfold BaseExecutor.Run
  cases execution.Job with
  | none => rfl
  | some job =>
    simp only []
    cases e.MetricAttributes job with
    | none => rfl
    | some attrs => exact runFromStart_alreadyStarted_eq e execution se hcode

/-- The successful path of `Run`: `Start` succeeds, the wait result has no
runner error and the store accepts every update. Without a publisher the run
issues the Running update and then the Completed update expecting Running, and
returns no error. With a publisher whose publication succeeds it issues the
Running, Publishing (expecting Running) and Completed (expecting Publishing)
updates; the error returned is the answer of the deferred removal of the
results directory, and a non-nil answer adds the Failed update of the failure
handler. -/
theorem run_success_updates (e : BaseExecutor) (execution : Execution) (job : Job)
    (attrs : List (String × String))
    (res : StartResult) (started : Execution) (tStart : List Effect)
    (result : RunCommandResult)
    (hjob : execution.Job = some job)
    (hattrs : e.MetricAttributes job = some attrs)
    (hs : e.Start execution = some (res, started, tStart))
    (hok : res.Err = none)
    (hget : e.executorsGetForWait job.Task.Engine.Typ = none)
    (hwait : e.executorWait execution.ID = .result result)
    (hmsg : result.ErrorMsg = "")
    (hstore : ∀ req, e.store req = none) :
    (SpecConfig.IsEmpty job.Task.Publisher = true →
      ∃ out, e.Run execution = some out ∧ out.err = none ∧
        storeUpdates out.trace =
          [startUpdateRequest execution.ID,
           completedUpdateRequest e execution.ID ExecutionStateRunning none result]) ∧
    (∀ publisher published, job.Task.Publisher = some publisher →
      SpecConfig.IsEmpty job.Task.Publisher = false →
      e.publishersGet publisher.Typ = none →
      e.publishResult started (e.ExecutionResultsDir (e.executionOutputDir execution.ID)) =
        .ok published →
      ∃ out, e.Run execution = some out ∧
        out.err = e.removeAll (e.ExecutionResultsDir (e.executionOutputDir execution.ID)) ∧
        storeUpdates out.trace =
          [startUpdateRequest execution.ID,
           publishingUpdateRequest execution.ID result,
           completedUpdateRequest e execution.ID ExecutionStatePublishing (some published)
             result] ++
          failureUpdates e started EventTopic.EventTopicExecutionPublishing
            (e.removeAll (e.ExecutionResultsDir (e.executionOutputDir execution.ID)))) := by
  obtain ⟨hid, ⟨job0, job1, hjob0, hjob1, hsame⟩, hclean, _, _, hstartUpd, _⟩ :=
    start_facts e execution res started tStart hs
  rw [hjob] at hjob0
  simp only [Option.some.injEq] at hjob0
  subst hjob0
  have hengine : job1.Task.Engine = job.Task.Engine := hsame.2.2.2.1.symm
  have hpubEq : job1.Task.Publisher = job.Task.Publisher := hsame.2.2.2.2.2.2.1.symm
  have hw : e.Wait started = some (.ok result,
      [Effect.ExecutorsGet job.Task.Engine.Typ, Effect.ExecutorWait execution.ID]) := by
    unfold BaseExecutor.Wait
    simp only [hjob1, hengine, hget, hid, hwait]
    rfl
  have hreach : e.runAfterStart started res = e.waitAndComplete started :=
    runAfterStart_reaches_wait e started res (Or.inl hok)
  constructor
  · intro hempty
    have hb : e.runAfterStart started res = some
        (e.markCompleted started ExecutionStateRunning none result
          EventTopic.EventTopicExecutionRunning none
          ([Effect.ExecutorsGet job.Task.Engine.Typ, Effect.ExecutorWait execution.ID] ++
            [Effect.JobsCompletedAdd])) := by
      rw [hreach]
      unfold BaseExecutor.waitAndComplete
      simp [hjob1, hw, hmsg, hpubEq, hempty]
    obtain ⟨body, hbody⟩ : ∃ body, body = e.markCompleted started ExecutionStateRunning none
        result EventTopic.EventTopicExecutionRunning none
        ([Effect.ExecutorsGet job.Task.Engine.Typ, Effect.ExecutorWait execution.ID] ++
          [Effect.JobsCompletedAdd]) := ⟨_, rfl⟩
    rw [← hbody] at hb
    obtain ⟨_, hdupd⟩ := deferredCalls_facts e execution started res body hclean
    refine ⟨_, run_eq e execution job attrs res started tStart body hjob hattrs hs hb, ?_, ?_⟩ <;>
      subst hbody
    · simp [BaseExecutor.returnedErr, BaseExecutor.markCompleted, hstore]
    · simp only [storeUpdates_append, hdupd, hstartUpd hok]
      simp [BaseExecutor.returnedErr, BaseExecutor.markCompleted, hstore, failureUpdates,
        storeUpdates, hid]
  · intro publisher published hpublisher hnonempty hpget hpublish
    have hp : e.publish started publisher
        (e.ExecutionResultsDir (e.executionOutputDir started.ID)) =
        (.ok published, [Effect.PublishersGet publisher.Typ,
          Effect.PublishResult started
            (e.ExecutionResultsDir (e.executionOutputDir started.ID))]) := by
      unfold BaseExecutor.publish
      simp only [hpget, hid, hpublish]
      rfl
    have hb : e.runAfterStart started res = some
        (e.markCompleted started ExecutionStatePublishing (some published) result
          EventTopic.EventTopicExecutionPublishing
          (some (e.ExecutionResultsDir (e.executionOutputDir started.ID)))
          ([Effect.ExecutorsGet job.Task.Engine.Typ, Effect.ExecutorWait execution.ID] ++
            [Effect.JobsCompletedAdd] ++
            [Effect.UpdateExecutionState (publishingUpdateRequest started.ID result)] ++
            [Effect.PublishersGet publisher.Typ,
              Effect.PublishResult started
                (e.ExecutionResultsDir (e.executionOutputDir started.ID))])) := by
      rw [hreach]
      rw [hpublisher] at hnonempty
      unfold BaseExecutor.waitAndComplete
      simp [hjob1, hw, hmsg, hpubEq, hnonempty, hpublisher, hstore, hp]
    obtain ⟨body, hbody⟩ : ∃ body, body = e.markCompleted started ExecutionStatePublishing
        (some published) result EventTopic.EventTopicExecutionPublishing
        (some (e.ExecutionResultsDir (e.executionOutputDir started.ID)))
        ([Effect.ExecutorsGet job.Task.Engine.Typ, Effect.ExecutorWait execution.ID] ++
          [Effect.JobsCompletedAdd] ++
          [Effect.UpdateExecutionState (publishingUpdateRequest started.ID result)] ++
          [Effect.PublishersGet publisher.Typ,
            Effect.PublishResult started
              (e.ExecutionResultsDir (e.executionOutputDir started.ID))]) := ⟨_, rfl⟩
    rw [← hbody] at hb
    obtain ⟨_, hdupd⟩ := deferredCalls_facts e execution started res body hclean
    refine ⟨_, run_eq e execution job attrs res started tStart body hjob hattrs hs hb, ?_, ?_⟩ <;>
      subst hbody
    · simp [BaseExecutor.returnedErr, BaseExecutor.markCompleted, hid]
    · simp only [storeUpdates_append, hdupd, hstartUpd hok]
      simp [BaseExecutor.returnedErr, BaseExecutor.markCompleted, storeUpdates, hid]

/-- The store updates of a run are those of `Start`, those of the body and
those of the failure handler for the returned error; only the last can be an
update to Failed. -/
theorem run_updates_split (e : BaseExecutor) (execution : Execution) (res : StartResult)
    (started : Execution) (tStart : List Effect) (out : RunResult)
    (hs : e.Start execution = some (res, started, tStart))
    (hrun : e.Run execution = some out) :
    ∃ body, e.runAfterStart started res = some body ∧ out.err = e.returnedErr body ∧
      storeUpdates out.trace = storeUpdates tStart ++ storeUpdates body.trace ++
        failureUpdates e started body.topic out.err ∧
      failedUpdates (storeUpdates tStart) = [] ∧
      failedUpdates (storeUpdates body.trace) = [] := by
  obtain ⟨res1, started1, tStart1, body, hs1, hb, rfl⟩ := run_inv e execution out hrun
  rw [hs] at hs1
  simp only [Option.some.injEq, Prod.mk.injEq] at hs1
  obtain ⟨rfl, rfl, rfl⟩ := hs1
  obtain ⟨hid, ⟨job, job1, hjob, hjob1, hsame⟩, hclean, hcalls, hupd, _⟩ :=
    start_facts e execution res started tStart hs
  obtain ⟨_, hdupd⟩ := deferredCalls_facts e execution started res body hclean
  refine ⟨body, hb, rfl, by simp only [storeUpdates_append, hdupd], ?_, ?_⟩
  · rcases hupd with hu | hu <;> rw [hu] <;> simp [failedUpdates]
  · unfold failedUpdates
    rw [List.filter_eq_nil_iff]
    intro req hreq
    rcases runAfterStart_inv e started res body hb with ⟨_, hwc⟩ | ⟨se, _, _, rfl⟩
    · obtain ⟨_, _, _, _, ⟨rfl, _⟩ | ⟨rfl, _⟩ | ⟨_, rfl, _⟩⟩ :=
        (waitAndComplete_facts e started job1 hjob1 body hwc).1 req hreq <;> simp
    · simp [storeUpdates] at hreq

/-- The method `PrepareRunArguments` does not consult the store. -/
theorem prepareRunArguments_store_congr (e : BaseExecutor)
    (store : UpdateExecutionRequest → Option GoError) (execution : Execution) (dir : String) :
    ({ e with store := store } : BaseExecutor).PrepareRunArguments execution dir =
      e.PrepareRunArguments execution dir := rfl

/-- The method `Start` consults the store only about the Running update. -/
theorem start_store_congr (e : BaseExecutor) (store : UpdateExecutionRequest → Option GoError)
    (hagree : ∀ req, req.NewValues.ComputeState.StateType ≠ ExecutionStateFailed →
      store req = e.store req)
    (execution : Execution) :
    ({ e with store := store } : BaseExecutor).Start execution = e.Start execution := by
  unfold BaseExecutor.Start
  cases hjob : execution.Job with
  | none => rfl
  | some job =>
    simp only []
    cases h1 : e.executorsGetForStart job.Task.Engine.Typ with
    | some err => rfl
    | none =>
      simp only []
      cases h2 : e.prepareExecutionOutputDir execution.ID with
      | error err => rfl
      | ok dir =>
        simp only []
        rw [prepareRunArguments_store_congr]
        cases h3 : e.PrepareRunArguments execution dir with
        | none => rfl
        | some prep =>
          simp only []
          cases h4 : prep.err with
          | some err => rfl
          | none =>
            simp only []
            rw [hagree (startUpdateRequest prep.execution.ID) (by simp)]

/-- The body of `Run` consults the store only about the Publishing and the
Completed update. -/
theorem waitAndComplete_store_congr (e : BaseExecutor)
    (store : UpdateExecutionRequest → Option GoError)
    (hagree : ∀ req, req.NewValues.ComputeState.StateType ≠ ExecutionStateFailed →
      store req = e.store req)
    (started : Execution) :
    ({ e with store := store } : BaseExecutor).waitAndComplete started =
      e.waitAndComplete started := by
  unfold BaseExecutor.waitAndComplete
  cases hjob : started.Job with
  | none => rfl
  | some job =>
    simp only []
    have hw : ({ e with store := store } : BaseExecutor).Wait started = e.Wait started := rfl
    rw [hw]
    cases hwait : e.Wait started with
    | none => rfl
    | some r =>
      obtain ⟨r1, tWait⟩ := r
      cases r1 with
      | error err => rfl
      | ok result =>
        simp only []
        split
        · rfl
        · split
          · cases hp : job.Task.Publisher with
            | none => rfl
            | some publisher =>
              simp only []
              rw [hagree (publishingUpdateRequest started.ID result) (by simp)]
              cases hst : e.store (publishingUpdateRequest started.ID result) with
              | some err => rfl
              | none =>
                simp only []
                have hpub : ∀ dir, ({ e with store := store } : BaseExecutor).publish started
                    publisher dir = e.publish started publisher dir := fun _ => rfl
                rw [hpub]
                cases hpr : e.publish started publisher
                    (e.ExecutionResultsDir (e.executionOutputDir started.ID)) with
                | mk r2 tp =>
                  cases r2 with
                  | error err => rfl
                  | ok published =>
                    simp only [BaseExecutor.markCompleted]
                    rw [hagree _ (by simp)]
                    rfl
          · simp only [BaseExecutor.markCompleted]
            rw [hagree _ (by simp)]
            rfl

/-- The answers of the store to updates to Failed play no part in a run. -/
theorem run_store_congr (e : BaseExecutor) (store : UpdateExecutionRequest → Option GoError)
    (hagree : ∀ req, req.NewValues.ComputeState.StateType ≠ ExecutionStateFailed →
      store req = e.store req)
    (execution : Execution) :
    ({ e with store := store } : BaseExecutor).Run execution = e.Run execution := by
  have hfrom : ({ e with store := store } : BaseExecutor).runFromStart execution =
      e.runFromStart execution := by
    unfold BaseExecutor.runFromStart
    rw [start_store_congr e store hagree]
    have hafter : ∀ started res,
        ({ e with store := store } : BaseExecutor).runAfterStart started res
          = e.runAfterStart started res := by
      intro started res
      unfold BaseExecutor.runAfterStart
      rw [waitAndComplete_store_congr e store hagree]
    simp only [hafter]
    rfl
  unfold BaseExecutor.Run
  cases execution.Job with
  | none => rfl
  | some job =>
    simp only []
    cases e.MetricAttributes job with
    | none => rfl
    | some attrs => exact hfrom

/-- C4: the only store update `Start` issues is the one to Running, and it
carries ExpectedStates exactly [BidAccepted, Running]; a successful `Start` has
issued it; when the store rejects it, `Start` returns an error and the backend
executor is not started; the backend is started only after the store accepted
it. -/
theorem start_running_update (e : BaseExecutor) (execution : Execution) (res : StartResult)
    (started : Execution) (trace : List Effect)
    (h : e.Start execution = some (res, started, trace)) :
    (∀ req ∈ storeUpdates trace,
      req = startUpdateRequest execution.ID ∧
      req.NewValues.ComputeState.StateType = ExecutionStateRunning ∧
      req.Condition.ExpectedStates = [ExecutionStateBidAccepted, ExecutionStateRunning]) ∧
    (storeUpdates trace).length ≤ 1 ∧
    (res.Err = none → storeUpdates trace = [startUpdateRequest execution.ID]) ∧
    (e.store (startUpdateRequest execution.ID) ≠ none →
      res.Err ≠ none ∧ ∀ args, Effect.ExecutorStart args ∉ trace) ∧
    (∀ args, Effect.ExecutorStart args ∈ trace →
      storeUpdates trace = [startUpdateRequest execution.ID] ∧
      e.store (startUpdateRequest execution.ID) = none) := by
  obtain ⟨_, _, _, _, hupd, hok, hrej, hstart⟩ := start_facts e execution res started trace h
  refine ⟨?_, ?_, hok, hrej, hstart⟩
  · intro req hreq
    rcases hupd with hu | hu <;> rw [hu] at hreq
    · simp at hreq
    · simp only [List.mem_singleton] at hreq
      subst hreq
      exact ⟨rfl, rfl, rfl⟩
  · rcases hupd with hu | hu <;> simp [hu]

/-- C4, at an instance: on `sampleExecutor`, `Start` of `sampleExecution`
succeeds and its one store update is the Running update. -/
theorem start_running_update_witness :
    sampleExecutor.Start sampleExecution =
      some (sampleStartResult, sampleStarted, sampleStartTrace) ∧
    sampleStartResult.Err = none ∧
    storeUpdates sampleStartTrace = [startUpdateRequest sampleExecution.ID] :=
  ⟨rfl, rfl,
    (start_running_update sampleExecutor sampleExecution sampleStartResult sampleStarted
      sampleStartTrace rfl).2.2.1 rfl⟩

/-- A store that accepts every request, also an update to Failed after the
update to Completed: when the removal of the results directory fails, `Run`
returns the removal error and issues the update to Failed after the update to
Completed. -/
theorem run_remove_failure_third_update :
    (removeFailsExecutor.Start publishingExecution).map (fun r => r.1.Err) = some none ∧
    removeFailsExecutor.executorWait "e-1" = .result { ExitCode := 0, ErrorMsg := "" } ∧
    (∀ req, removeFailsExecutor.store req = none) ∧
    (removeFailsExecutor.Run publishingExecution).map
        (fun out => (out.err, storeUpdates out.trace)) =
      some (some (GoError.errorString "directory not empty"),
        [startUpdateRequest "e-1",
         publishingUpdateRequest "e-1" {},
         completedUpdateRequest removeFailsExecutor "e-1" ExecutionStatePublishing
           (some { Typ := "local", Params := some [("path", "/out/e-1/results")] }) {},
         failedUpdateRequest "e-1" (GoError.errorString "directory not empty")
           EventTopic.EventTopicExecutionPublishing]) := by
  refine ⟨rfl, rfl, fun _ => rfl, rfl⟩

/-- C6, as stated, fails: the task exits with code 1 and no runner error, and
`Run` still moves the execution to Publishing and then to Completed. -/
theorem run_nonzero_exit_counterexample :
    exitCodeExecutor.executorWait publishingExecution.ID = .result { ExitCode := 1 } ∧
    (exitCodeExecutor.Run publishingExecution).map
        (fun out => (out.err, storeUpdates out.trace)) =
      some (none,
        [startUpdateRequest "e-1",
         publishingUpdateRequest "e-1" { ExitCode := 1 },
         completedUpdateRequest exitCodeExecutor "e-1" ExecutionStatePublishing
           (some samplePublished) { ExitCode := 1 }]) := by
  constructor <;> rfl

/-- C6, amended: `Run` issues the Publishing update and calls the publisher only
when `Wait` delivered a result with an empty ErrorMsg and the task has a
non-empty Publisher; for a wait result with a non-empty ErrorMsg it issues no
update to Publishing or Completed and does not call the publisher. The exit
code plays no part. -/
theorem run_publishing_requires (e : BaseExecutor) (execution : Execution) (job : Job)
    (out : RunResult)
    (hjob : execution.Job = some job)
    (hrun : e.Run execution = some out) :
    (((∃ req ∈ storeUpdates out.trace,
          req.NewValues.ComputeState.StateType = ExecutionStatePublishing) ∨
        (∃ ex dir, Effect.PublishResult ex dir ∈ out.trace)) →
      SpecConfig.IsEmpty job.Task.Publisher = false ∧
      ∃ result, e.executorWait execution.ID = .result result ∧ result.ErrorMsg = "") ∧
    (∀ result, e.executorWait execution.ID = .result result → result.ErrorMsg ≠ "" →
      (∀ req ∈ storeUpdates out.trace,
        req.NewValues.ComputeState.StateType ≠ ExecutionStatePublishing ∧
        req.NewValues.ComputeState.StateType ≠ ExecutionStateCompleted) ∧
      (∀ ex dir, Effect.PublishResult ex dir ∉ out.trace)) := by
  obtain ⟨res, started, tStart, _, hs, _, _⟩ := run_inv e execution out hrun
  obtain ⟨hid, _⟩ := start_facts e execution res started tStart hs
  obtain ⟨hupd0, hpub0⟩ :=
    run_calls_classified e execution job res started tStart out hjob hs hrun
  have hconv : ∀ result tWait, e.Wait started = some (.ok result, tWait) →
      e.executorWait execution.ID = .result result := by
    intro result tWait hw
    rw [← hid]
    exact wait_ok_inv e started result tWait hw
  have hupd : ∀ req ∈ storeUpdates out.trace,
      req = startUpdateRequest execution.ID ∨
      (∃ err topic, out.err = some err ∧ req = failedUpdateRequest execution.ID err topic) ∨
      (∃ result, e.executorWait execution.ID = .result result ∧ result.ErrorMsg = "" ∧
        ((req = publishingUpdateRequest execution.ID result ∧
            SpecConfig.IsEmpty job.Task.Publisher = false) ∨
          (req = completedUpdateRequest e execution.ID ExecutionStateRunning none result ∧
            SpecConfig.IsEmpty job.Task.Publisher = true) ∨
          (∃ published,
            req = completedUpdateRequest e execution.ID ExecutionStatePublishing
              (some published) result ∧
            SpecConfig.IsEmpty job.Task.Publisher = false))) := by
    intro req hreq
    rcases hupd0 req hreq with h | h | ⟨result, tWait, hw, hrest⟩
    · exact Or.inl h
    · exact Or.inr (Or.inl h)
    · exact Or.inr (Or.inr ⟨result, hconv result tWait hw, hrest⟩)
  have hpub : ∀ ex dir, Effect.PublishResult ex dir ∈ out.trace → ∃ result,
      e.executorWait execution.ID = .result result ∧ result.ErrorMsg = "" ∧
      SpecConfig.IsEmpty job.Task.Publisher = false := by
    intro ex dir hx
    obtain ⟨result, tWait, hw, hrest⟩ := hpub0 ex dir hx
    exact ⟨result, hconv result tWait hw, hrest⟩
  constructor
  · rintro (⟨req, hreq, hstate⟩ | ⟨ex, dir, hx⟩)
    · rcases hupd req hreq with rfl | ⟨err, topic, _, rfl⟩ |
        ⟨result, hw, hmsg, ⟨rfl, hp⟩ | ⟨rfl, hp⟩ | ⟨published, rfl, hp⟩⟩
      · simp at hstate
      · simp at hstate
      · exact ⟨hp, result, hw, hmsg⟩
      · simp at hstate
      · exact ⟨hp, result, hw, hmsg⟩
    · obtain ⟨result, hw, hmsg, hp⟩ := hpub ex dir hx
      exact ⟨hp, result, hw, hmsg⟩
  · intro result hw hmsg
    constructor
    · intro req hreq
      rcases hupd req hreq with rfl | ⟨err, topic, _, rfl⟩ | ⟨result1, hw1, hmsg1, _⟩
      · simp
      · simp
      · rw [hw] at hw1
        simp only [WaitOutcome.result.injEq] at hw1
        subst hw1
        exact absurd hmsg1 hmsg
    · intro ex dir hx
      obtain ⟨result1, hw1, hmsg1, _⟩ := hpub ex dir hx
      rw [hw] at hw1
      simp only [WaitOutcome.result.injEq] at hw1
      subst hw1
      exact absurd hmsg1 hmsg

/-- C6, amended, at an instance: the backend reports a runner error and `Run`
issues no update to Publishing or Completed. -/
theorem run_publishing_requires_witness :
    runnerErrorExecutor.Run publishingExecution = some runnerErrorOutcome ∧
    (∀ req ∈ storeUpdates runnerErrorOutcome.trace,
      req.NewValues.ComputeState.StateType ≠ ExecutionStatePublishing ∧
      req.NewValues.ComputeState.StateType ≠ ExecutionStateCompleted) :=
  ⟨rfl,
    ((run_publishing_requires runnerErrorExecutor publishingExecution _ runnerErrorOutcome
      rfl rfl).2 { ExitCode := 1, ErrorMsg := "image not found" } rfl (by decide)).1⟩

/-- C7: for a job whose metric attributes `Run` can read (they are read before
`Start`, and reading them panics on a nil pointer), when the `Wait` inside `Run`
fails, `Run` returns the ErrExecTimeout built from the task's execution timeout
if the error is a deadline-exceeded error, and the error of `Wait` itself
otherwise. -/
theorem run_wait_error (e : BaseExecutor) (execution : Execution) (job : Job)
    (attrs : List (String × String))
    (res : StartResult) (started : Execution) (tStart tWait : List Effect) (err : GoError)
    (hjob : execution.Job = some job)
    (hattrs : e.MetricAttributes job = some attrs)
    (hs : e.Start execution = some (res, started, tStart))
    (hreach : res.Err = none ∨
      ∃ se, res.Err = some se ∧ e.IsErrorWithCode se ExecutionAlreadyStarted = true)
    (hw : e.Wait started = some (.error err, tWait)) :
    ∃ out, e.Run execution = some out ∧
      (err.IsDeadlineExceeded = true →
        out.err = some (e.NewErrExecTimeout job.Task.ExecutionTimeout)) ∧
      (err.IsDeadlineExceeded = false → out.err = some err) := by
  obtain ⟨_, ⟨job0, job1, hjob0, hjob1, hsame⟩, _⟩ := start_facts e execution res started tStart hs
  rw [hjob] at hjob0
  simp only [Option.some.injEq] at hjob0
  subst hjob0
  have htimeout : job1.Task.ExecutionTimeout = job.Task.ExecutionTimeout := hsame.2.2.2.2.2.2.2.symm
  have hbody : e.runAfterStart started res = some
      { err := some (if err.IsDeadlineExceeded then e.NewErrExecTimeout job.Task.ExecutionTimeout
          else err),
        trace := tWait } := by
    rw [runAfterStart_reaches_wait e started res hreach]
    unfold BaseExecutor.waitAndComplete
    simp only [hjob1, hw, htimeout]
    split <;> rfl
  refine ⟨_, run_eq e execution job attrs res started tStart _ hjob hattrs hs hbody, ?_, ?_⟩
  · intro hd
    simp [BaseExecutor.returnedErr, hd]
  · intro hd
    simp [BaseExecutor.returnedErr, hd]

/-- C7, at an instance: the context deadline ends the wait of `sampleExecution`
and `Run` returns the execution-timeout error of its task. -/
theorem run_wait_error_witness :
    (timeoutExecutor.Run sampleExecution).map RunResult.err =
      some (some (timeoutExecutor.NewErrExecTimeout sampleJob.Task.ExecutionTimeout)) := by
  obtain ⟨out, hrun, htimeout, _⟩ :=
    run_wait_error timeoutExecutor sampleExecution sampleJob
      [("task_engine", "noop"), ("task_publisher", ""), ("task_network", "Default"),
        ("job_type", "batch")]
      sampleStartResult sampleStarted
      sampleStartTrace [Effect.ExecutorsGet "noop", Effect.ExecutorWait "e-1"]
      GoError.contextDeadlineExceeded rfl rfl rfl (Or.inl rfl) rfl
  rw [hrun, Option.map_some', htimeout rfl]

/-- C8: when `Start` reports an error carrying ExecutionAlreadyStarted, `Run`
goes on to `Wait`: the error it returns and the calls it makes after `Start` are
those of the wait-and-complete part, a Failed update is issued only for the
error `Run` returns, and a backend answering ExecutionAlreadyStarted gives the
same run as a backend whose `Start` succeeds. For an error of `Start` without
that code, `Run` returns that error and `Wait` is not called. -/
theorem run_start_error (e : BaseExecutor) (execution : Execution) (res : StartResult)
    (started : Execution) (tStart : List Effect) (se : GoError) (out : RunResult)
    (hs : e.Start execution = some (res, started, tStart))
    (hse : res.Err = some se)
    (hrun : e.Run execution = some out) :
    (e.IsErrorWithCode se ExecutionAlreadyStarted = true →
      (∃ body, e.waitAndComplete started = some body ∧ out.err = e.returnedErr body ∧
        out.trace = tStart ++ body.trace ++ e.deferredCalls execution started res body) ∧
      (∀ req ∈ storeUpdates out.trace,
        req.NewValues.ComputeState.StateType = ExecutionStateFailed →
        ∃ err topic, out.err = some err ∧ req = failedUpdateRequest execution.ID err topic) ∧
      ({ e with executorStart := fun _ => some se } : BaseExecutor).Run execution =
        ({ e with executorStart := fun _ => none } : BaseExecutor).Run execution) ∧
    (e.IsErrorWithCode se ExecutionAlreadyStarted = false →
      out.err = some se ∧
      (∀ executionID, Effect.ExecutorWait executionID ∉ out.trace) ∧
      out.trace = tStart ++ [Effect.JobsFailedAdd] ++
        e.deferredCalls execution started res { err := some se, trace := [Effect.JobsFailedAdd] })
    := by
  obtain ⟨res1, started1, tStart1, body, hs1, hb, hout⟩ := run_inv e execution out hrun
  rw [hs] at hs1
  simp only [Option.some.injEq, Prod.mk.injEq] at hs1
  obtain ⟨rfl, rfl, rfl⟩ := hs1
  obtain ⟨hid, ⟨job, job1, hjob, hjob1, hsame⟩, hclean, hcalls, _⟩ :=
    start_facts e execution res started tStart hs
  obtain ⟨hupd, _⟩ := run_calls_classified e execution job res started tStart out hjob hs hrun
  constructor
  · intro hcode
    have hreach : e.runAfterStart started res = e.waitAndComplete started :=
      runAfterStart_reaches_wait e started res (Or.inr ⟨se, hse, hcode⟩)
    rw [hreach] at hb
    refine ⟨⟨body, hb, by rw [hout], by rw [hout]⟩, ?_, run_alreadyStarted_eq e execution se hcode⟩
    intro req hreq hstate
    rcases hupd req hreq with rfl | h | ⟨result, tWait, _, _, ⟨rfl, _⟩ | ⟨rfl, _⟩ | ⟨_, rfl, _⟩⟩
    · simp at hstate
    · exact h
    · simp at hstate
    · simp at hstate
    · simp at hstate
  · intro hcode
    rcases runAfterStart_inv e started res body hb with ⟨hreach, _⟩ | ⟨se1, hse1, _, hbody⟩
    · rcases hreach with hnone | ⟨se1, hse1, hcode1⟩
      · rw [hse] at hnone
        cases hnone
      · rw [hse] at hse1
        simp only [Option.some.injEq] at hse1
        subst hse1
        rw [hcode] at hcode1
        cases hcode1
    · rw [hse] at hse1
      simp only [Option.some.injEq] at hse1
      subst hse1
      subst hbody
      obtain ⟨hdcalls, _⟩ := deferredCalls_facts e execution started res
        { err := some se, trace := [Effect.JobsFailedAdd] } hclean
      refine ⟨by rw [hout]; rfl, ?_, by rw [hout]⟩
      intro executionID hx
      rw [hout] at hx
      simp only [List.mem_append, List.mem_singleton] at hx
      rcases hx with (hx | hx) | hx
      · have := hcalls _ hx
        simp [Effect.isStartCall] at this
      · cases hx
      · have := hdcalls _ hx
        simp [Effect.isDeferredCall] at this

/-- C8, at an instance: the backend of `alreadyStartedExecutor` reports
ExecutionAlreadyStarted, and the run of `sampleExecution` is the run on
`sampleExecutor`, which completes without error. -/
theorem run_start_error_witness :
    alreadyStartedExecutor.Run sampleExecution = sampleExecutor.Run sampleExecution ∧
    sampleExecutor.Run sampleExecution = some sampleRunOutcome ∧
    sampleRunOutcome.err = none :=
  ⟨((run_start_error alreadyStartedExecutor sampleExecution alreadyStartedResult sampleStarted
      sampleStartTrace (GoError.bacError ExecutionAlreadyStarted "execution already started")
      sampleRunOutcome rfl rfl rfl).1 rfl).2.2,
    rfl, rfl⟩

/-- C9: after the inputs are prepared and the ports allocated, a failing
environment resolution makes `Run` return without releasing the ports or
cleaning the input volumes; after the inputs are prepared, a failing port
allocation makes `Run` return without cleaning the input volumes. -/
theorem run_prepare_failure_leaks :
    (envFailsExecutor.Run publishingExecution).map RunResult.trace = some
      [Effect.ExecutorsGet "noop", Effect.PrepareExecutionOutputDir "e-1",
       Effect.ParallelPrepareStorage "e-1" ["s3://bucket/in"], Effect.AllocatePorts "e-1",
       Effect.GetExecutionEnvVars "e-1", Effect.JobsFailedAdd,
       Effect.ScheduleRemoval "/out/e-1",
       Effect.UpdateExecutionState (failedUpdateRequest "e-1"
         (GoError.wrapError "preparing arguments: "
           (GoError.wrapError "failed to resolve environment variables: "
             (GoError.errorString "variable not allowed")))
         EventTopic.EventTopicExecutionRunning)] ∧
    (portFailsExecutor.Run publishingExecution).map RunResult.trace = some
      [Effect.ExecutorsGet "noop", Effect.PrepareExecutionOutputDir "e-1",
       Effect.ParallelPrepareStorage "e-1" ["s3://bucket/in"], Effect.AllocatePorts "e-1",
       Effect.JobsFailedAdd, Effect.ScheduleRemoval "/out/e-1",
       Effect.UpdateExecutionState (failedUpdateRequest "e-1"
         (GoError.wrapError "preparing arguments: " (GoError.errorString "no free port"))
         EventTopic.EventTopicExecutionRunning)] ∧
    (sampleExecutor.Run publishingExecution).map
        (fun out => (Effect.ParallelCleanStorage ["volume:s3://bucket/in"] ∈ out.trace ∧
          Effect.ReleasePorts "e-1" ∈ out.trace : Bool)) = some true := by
  refine ⟨rfl, rfl, rfl⟩

/-- C10: the request built by `PrepareRunArguments` has the executor's default
network type when the task's network type is Default and the task's own network
type otherwise; the request is built whenever the inputs, the ports and the
environment are obtained. -/
theorem prepareRunArguments_network (e : BaseExecutor) (execution : Execution) (dir : String)
    (job : Job) (nc : NetworkConfig)
    (hjob : execution.Job = some job) (hnet : job.Task.Network = some nc) :
    (∀ prep req, e.PrepareRunArguments execution dir = some prep → prep.args = some req →
      req.Network.Typ =
        if nc.Typ = Network.NetworkDefault then e.defaultNetworkType else nc.Typ) ∧
    (∀ volumes ports env, e.prepareStorage execution job.Task.InputSources = .ok volumes →
      e.allocatePorts execution = .ok ports →
      e.getExecutionEnvVars (execution.AllocatePorts ports) = .ok env →
      ∃ prep req, e.PrepareRunArguments execution dir = some prep ∧ prep.args = some req ∧
        prep.err = none) := by
  have halloc : ∀ ports, ∃ job1 nc1, (execution.AllocatePorts ports).Job = some job1 ∧
      job1.Task.Network = some nc1 ∧ nc1.Typ = nc.Typ := by
    intro ports
    simp only [Execution.AllocatePorts, hjob, hnet]
    exact ⟨_, _, rfl, rfl, rfl⟩
  constructor
  · intro prep req hprep hargs
    unfold BaseExecutor.PrepareRunArguments at hprep
    simp only [hjob] at hprep
    split at hprep
    · simp only [Option.some.injEq] at hprep
      subst hprep
      simp at hargs
    split at hprep
    · simp only [Option.some.injEq] at hprep
      subst hprep
      simp at hargs
    rename_i ports _
    obtain ⟨job1, nc1, hj1, hn1, htyp⟩ := halloc ports
    split at hprep
    · simp only [Option.some.injEq] at hprep
      subst hprep
      simp at hargs
    simp only [hj1, hn1, Option.some.injEq] at hprep
    subst hprep
    simp only [Option.some.injEq] at hargs
    subst hargs
    simp only [htyp]
    split <;> simp_all
  · intro volumes ports env hv hp henv
    obtain ⟨job1, nc1, hj1, hn1, _⟩ := halloc ports
    unfold BaseExecutor.PrepareRunArguments
    simp only [hjob, hv, hp, henv, hj1, hn1]
    exact ⟨_, _, rfl, rfl, rfl⟩

/-- C10, at two instances: a Default task gets the executor's default (Bridge),
a Host task keeps Host. -/
theorem prepareRunArguments_network_witness :
    ((sampleExecutor.PrepareRunArguments sampleExecution "/out/e-1").bind
        PrepareResult.args).map (fun req => req.Network.Typ) = some Network.NetworkBridge ∧
    ((sampleExecutor.PrepareRunArguments hostExecution "/out/e-1").bind
        PrepareResult.args).map (fun req => req.Network.Typ) = some Network.NetworkHost := by
  obtain ⟨prep1, req1, h1, ha1, _⟩ :=
    (prepareRunArguments_network sampleExecutor sampleExecution "/out/e-1" sampleJob {} rfl
      rfl).2 [] (some [(80, 20000)]) [] rfl rfl rfl
  have t1 := (prepareRunArguments_network sampleExecutor sampleExecution "/out/e-1" sampleJob {}
    rfl rfl).1 prep1 req1 h1 ha1
  obtain ⟨prep2, req2, h2, ha2, _⟩ :=
    (prepareRunArguments_network sampleExecutor hostExecution "/out/e-1"
      { sampleJob with
        Task := { sampleJob.Task with Network := some { Typ := Network.NetworkHost } } }
      { Typ := Network.NetworkHost } rfl rfl).2 [] (some [(80, 20000)]) [] rfl rfl rfl
  have t2 := (prepareRunArguments_network sampleExecutor hostExecution "/out/e-1"
      { sampleJob with
        Task := { sampleJob.Task with Network := some { Typ := Network.NetworkHost } } }
      { Typ := Network.NetworkHost } rfl rfl).1 prep2 req2 h2 ha2
  rw [h1, h2]
  simp only [Option.some_bind, ha1, ha2, Option.map_some']
  exact ⟨congrArg some t1, congrArg some t2⟩

/-- C11: when `Run` finishes with a non-nil error that does not carry
ExecutionAlreadyCancelled, its trace holds exactly one update to Failed: it has
no precondition, sets the compute state Failed with the text of the error as
message and carries one event with that error. When the error carries
ExecutionAlreadyCancelled the trace holds no update to Failed. The answers of
the store to updates to Failed change neither the error returned nor the calls
made. -/
theorem run_failure_update (e : BaseExecutor) (execution : Execution) (out : RunResult)
    (err : GoError)
    (hrun : e.Run execution = some out)
    (herr : out.err = some err) :
    (e.IsErrorWithCode err ExecutionAlreadyCancelled = false →
      ∃ topic, failedUpdates (storeUpdates out.trace) =
          [failedUpdateRequest execution.ID err topic] ∧
        (failedUpdateRequest execution.ID err topic).ExecutionID = execution.ID ∧
        (failedUpdateRequest execution.ID err topic).Condition = {} ∧
        (failedUpdateRequest execution.ID err topic).NewValues.ComputeState =
          { StateType := ExecutionStateFailed, Message := err.Error } ∧
        (failedUpdateRequest execution.ID err topic).Events =
          [{ Topic := topic, Err := some err }]) ∧
    (e.IsErrorWithCode err ExecutionAlreadyCancelled = true →
      failedUpdates (storeUpdates out.trace) = []) ∧
    (∀ store : UpdateExecutionRequest → Option GoError,
      (∀ req, req.NewValues.ComputeState.StateType ≠ ExecutionStateFailed →
        store req = e.store req) →
      ({ e with store := store } : BaseExecutor).Run execution = some out) := by
  obtain ⟨res, started, tStart, _, hs, _, _⟩ := run_inv e execution out hrun
  obtain ⟨hid, _⟩ := start_facts e execution res started tStart hs
  obtain ⟨body, _, _, hsplit, hf1, hf2⟩ :=
    run_updates_split e execution res started tStart out hs hrun
  have hfilter : failedUpdates (storeUpdates out.trace) =
      failedUpdates (failureUpdates e started body.topic out.err) := by
    rw [hsplit]
    unfold failedUpdates at hf1 hf2 ⊢
    rw [List.filter_append, List.filter_append, hf1, hf2]
    rfl
  refine ⟨?_, ?_, ?_⟩
  · intro hcode
    refine ⟨body.topic, ?_, rfl, rfl, rfl, rfl⟩
    rw [hfilter, herr]
    simp [failureUpdates, hcode, failedUpdates, hid]
  · intro hcode
    rw [hfilter, herr]
    simp [failureUpdates, hcode, failedUpdates]
  · intro store hagree
    rw [run_store_congr e store hagree execution, hrun]

/-- C11, at an instance: the backend reports a runner error, `Run` returns it
and issues one update to Failed, with the topic of the running phase. -/
theorem run_failure_update_witness :
    runnerErrorExecutor.Run publishingExecution = some runnerErrorOutcome ∧
    ∃ topic, failedUpdates (storeUpdates runnerErrorOutcome.trace) =
      [failedUpdateRequest publishingExecution.ID (GoError.errorString "image not found")
        topic] :=
  ⟨rfl,
    ((run_failure_update runnerErrorExecutor publishingExecution runnerErrorOutcome
      (GoError.errorString "image not found") rfl rfl).1 rfl).imp fun _ h => h.1⟩

/-- C12: when the `Wait` inside `Run` ends with an error, or with a result whose
ErrorMsg is not empty, the run issues no update to Publishing or Completed and
makes no call to a publisher, whatever the task's Publisher is. -/
theorem run_wait_failure_no_publish (e : BaseExecutor) (execution : Execution)
    (res : StartResult) (started : Execution) (tStart : List Effect) (out : RunResult)
    (hs : e.Start execution = some (res, started, tStart))
    (hrun : e.Run execution = some out)
    (hwait : (∃ err tWait, e.Wait started = some (.error err, tWait)) ∨
      (∃ result tWait, e.Wait started = some (.ok result, tWait) ∧ result.ErrorMsg ≠ "")) :
    (∀ req ∈ storeUpdates out.trace,
      req.NewValues.ComputeState.StateType ≠ ExecutionStatePublishing ∧
      req.NewValues.ComputeState.StateType ≠ ExecutionStateCompleted) ∧
    (∀ ex dir, Effect.PublishResult ex dir ∉ out.trace) ∧
    (∀ publisherType, Effect.PublishersGet publisherType ∉ out.trace) := by
  obtain ⟨res1, started1, tStart1, body, hs1, hb, hout⟩ := run_inv e execution out hrun
  rw [hs] at hs1
  simp only [Option.some.injEq, Prod.mk.injEq] at hs1
  obtain ⟨rfl, rfl, rfl⟩ := hs1
  obtain ⟨hid, ⟨job, job1, hjob, hjob1, hsame⟩, hclean, hcalls, hupd, _⟩ :=
    start_facts e execution res started tStart hs
  obtain ⟨hdcalls, _⟩ := deferredCalls_facts e execution started res body hclean
  obtain ⟨body1, hb1, _, hsplit, _, _⟩ :=
    run_updates_split e execution res started tStart out hs hrun
  rw [hb] at hb1
  simp only [Option.some.injEq] at hb1
  subst hb1
  -- the body made no call beyond those of `Wait`
  have hbody : body.trace = [Effect.JobsFailedAdd] ∨
      ∃ r tWait, e.Wait started = some (r, tWait) ∧ body.trace = tWait := by
    rcases runAfterStart_inv e started res body hb with ⟨_, hwc⟩ | ⟨se, _, _, rfl⟩
    · right
      rcases waitAndComplete_paths e started job1 hjob1 body hwc with
        ⟨err, tWait, hw, rfl⟩ | ⟨result, tWait, hw, _, rfl⟩ |
        ⟨result, tWait, hw, hmsg, _⟩ | ⟨result, tWait, _, hw, hmsg, _⟩
      · exact ⟨_, tWait, hw, rfl⟩
      · exact ⟨_, tWait, hw, rfl⟩
      · rcases hwait with ⟨err, t1, h1⟩ | ⟨result1, t1, h1, hne⟩
        · rw [hw] at h1
          simp at h1
        · rw [hw] at h1
          simp only [Option.some.injEq, Prod.mk.injEq, Except.ok.injEq] at h1
          exact absurd (h1.1 ▸ hmsg) hne
      · rcases hwait with ⟨err, t1, h1⟩ | ⟨result1, t1, h1, hne⟩
        · rw [hw] at h1
          simp at h1
        · rw [hw] at h1
          simp only [Option.some.injEq, Prod.mk.injEq, Except.ok.injEq] at h1
          exact absurd (h1.1 ▸ hmsg) hne
    · exact Or.inl rfl
  have hbodyCalls : storeUpdates body.trace = [] ∧
      (∀ ex dir, Effect.PublishResult ex dir ∉ body.trace) ∧
      (∀ publisherType, Effect.PublishersGet publisherType ∉ body.trace) := by
    rcases hbody with hb2 | ⟨r, tWait, hw, hb2⟩
    · rw [hb2]
      simp [storeUpdates]
    · rw [hb2]
      obtain ⟨r1, t1, hw1, ht⟩ := wait_trace e started job1 hjob1
      rw [hw] at hw1
      simp only [Option.some.injEq, Prod.mk.injEq] at hw1
      obtain ⟨_, rfl⟩ := hw1
      rcases ht with ht | ht <;> rw [ht] <;> simp [storeUpdates]
  refine ⟨?_, ?_, ?_⟩
  · intro req hreq
    rw [hsplit, hbodyCalls.1] at hreq
    simp only [List.append_nil, List.mem_append] at hreq
    rcases hreq with hreq | hreq
    · rcases hupd with hu | hu <;> rw [hu] at hreq
      · simp at hreq
      · simp only [List.mem_singleton] at hreq
        subst hreq
        simp
    · unfold failureUpdates at hreq
      split at hreq
      · split at hreq
        · simp only [List.mem_singleton] at hreq
          subst hreq
          simp
        · simp at hreq
      · simp at hreq
  · intro ex dir hx
    rw [hout] at hx
    simp only [List.mem_append] at hx
    rcases hx with (hx | hx) | hx
    · have := hcalls _ hx
      simp [Effect.isStartCall] at this
    · exact hbodyCalls.2.1 ex dir hx
    · have := hdcalls _ hx
      simp [Effect.isDeferredCall] at this
  · intro publisherType hx
    rw [hout] at hx
    simp only [List.mem_append] at hx
    rcases hx with (hx | hx) | hx
    · have := hcalls _ hx
      simp [Effect.isStartCall] at this
    · exact hbodyCalls.2.2 publisherType hx
    · have := hdcalls _ hx
      simp [Effect.isDeferredCall] at this

/-- C12, at an instance: the wait of an execution with a publisher ends with the
context deadline, and the run makes no call to a publisher. -/
theorem run_wait_failure_no_publish_witness :
    timeoutExecutor.Run publishingExecution = some timeoutOutcome ∧
    (∀ ex dir, Effect.PublishResult ex dir ∉ timeoutOutcome.trace) ∧
    (∀ publisherType, Effect.PublishersGet publisherType ∉ timeoutOutcome.trace) :=
  ⟨rfl,
    (run_wait_failure_no_publish timeoutExecutor publishingExecution publishingStartResult
      publishingStarted publishingStartTrace timeoutOutcome rfl rfl
      (Or.inl ⟨GoError.contextDeadlineExceeded,
        [Effect.ExecutorsGet "noop", Effect.ExecutorWait "e-1"], rfl⟩)).2⟩

/-- C27: the store rejects the update to Completed. For the execution with a
publisher, the deferred removal of the results directory succeeds and assigns
nil to the result of `Run`: `Run` returns nil and issues no update to Failed.
For the execution with an empty publisher `Run` returns the error of the store
and issues the update to Failed. -/
theorem run_completed_failure_masked :
    completedFailsExecutor.store
        (completedUpdateRequest completedFailsExecutor "e-1" ExecutionStatePublishing
          (some samplePublished) {}) =
      some (GoError.errorString "execution already terminal") ∧
    (completedFailsExecutor.Run publishingExecution).map
        (fun out => (out.err, storeUpdates out.trace)) =
      some (none,
        [startUpdateRequest "e-1",
         publishingUpdateRequest "e-1" {},
         completedUpdateRequest completedFailsExecutor "e-1" ExecutionStatePublishing
           (some samplePublished) {}]) ∧
    (completedFailsExecutor.Run sampleExecution).map
        (fun out => (out.err, storeUpdates out.trace)) =
      some (some (GoError.errorString "execution already terminal"),
        [startUpdateRequest "e-1",
         completedUpdateRequest completedFailsExecutor "e-1" ExecutionStateRunning none {},
         failedUpdateRequest "e-1" (GoError.errorString "execution already terminal")
           EventTopic.EventTopicExecutionRunning]) := by
  refine ⟨rfl, rfl, rfl⟩

/-! ## Properties of job selection on a compute node -/

/-- A successful storage provider check means the provider is in the map. -/
theorem checkStorageProvider_ok (node : ComputeNode) (engine : String) (sp : Storage)
    (h : node.StorageProviders engine = some sp) (hinst : sp.IsInstalled = (true, none)) :
    node.checkStorageProvider engine = none := by
  simp [ComputeNode.checkStorageProvider, h, hinst]

/-- Without lookup errors the loop of `SelectJob` counts the local inputs. -/
theorem countLocalInputs_ok (node : ComputeNode) (inputs : List StorageSpec) :
    ∀ foundInputs : Nat,
    (∀ input ∈ inputs, ∃ sp, node.StorageProviders input.Engine = some sp ∧
      sp.IsInstalled = (true, none)) →
    (∀ input ∈ inputs, (node.hasResourceLocally input).2 = none) →
    node.countLocalInputs inputs foundInputs =
      .ok (foundInputs + inputs.countP (fun input => (node.hasResourceLocally input).1)) := by
  induction inputs with
  | nil => intro n _ _; simp [ComputeNode.countLocalInputs]
  | cons input rest ih =>
    intro n hsp hnoerr
    obtain ⟨sp, hsp1, hinst⟩ := hsp input (List.mem_cons_self _ _)
    have herr := hnoerr input (List.mem_cons_self _ _)
    have hrest := ih (if (sp.HasResourceLocally input).1 then n + 1 else n)
      (fun i hi => hsp i (List.mem_cons_of_mem _ hi))
      (fun i hi => hnoerr i (List.mem_cons_of_mem _ hi))
    simp only [ComputeNode.hasResourceLocally, hsp1] at herr
    unfold ComputeNode.countLocalInputs
    rw [checkStorageProvider_ok node input.Engine sp hsp1 hinst]
    simp only [hsp1]
    rcases hres : sp.HasResourceLocally input with ⟨has, err⟩
    simp only [hres] at herr hrest
    subst herr
    simp only [hrest, List.countP_cons, ComputeNode.hasResourceLocally, hsp1, hres]
    cases has <;> simp
    omega

/-- The first lookup error ends the loop of `SelectJob` with that error. -/
theorem countLocalInputs_error (node : ComputeNode) (pre : List StorageSpec)
    (input : StorageSpec) (post : List StorageSpec) (err : GoError) :
    ∀ foundInputs : Nat,
    (∀ i ∈ pre ++ [input], ∃ sp, node.StorageProviders i.Engine = some sp ∧
      sp.IsInstalled = (true, none)) →
    (∀ i ∈ pre, (node.hasResourceLocally i).2 = none) →
    (node.hasResourceLocally input).2 = some err →
    node.countLocalInputs (pre ++ input :: post) foundInputs = .error (false, some err) := by
  induction pre with
  | nil =>
    intro n hsp _ herr
    obtain ⟨sp, hsp1, hinst⟩ := hsp input (by simp)
    simp only [ComputeNode.hasResourceLocally, hsp1] at herr
    simp only [List.nil_append]
    unfold ComputeNode.countLocalInputs
    rw [checkStorageProvider_ok node input.Engine sp hsp1 hinst]
    simp only [hsp1]
    rcases hres : sp.HasResourceLocally input with ⟨has, err1⟩
    simp only [hres] at herr
    subst herr
    rfl
  | cons first rest ih =>
    intro n hsp hnoerr herr
    obtain ⟨sp, hsp1, hinst⟩ := hsp first (by simp)
    have hfirst := hnoerr first (List.mem_cons_self _ _)
    simp only [ComputeNode.hasResourceLocally, hsp1] at hfirst
    simp only [List.cons_append]
    unfold ComputeNode.countLocalInputs
    rw [checkStorageProvider_ok node first.Engine sp hsp1 hinst]
    simp only [hsp1]
    rcases hres : sp.HasResourceLocally first with ⟨has, err1⟩
    simp only [hres] at hfirst
    subst hfirst
    exact ih _ (fun i hi => hsp i (by simp at hi ⊢; tauto))
      (fun i hi => hnoerr i (List.mem_cons_of_mem _ hi)) herr

/-- C19: `SelectJob` returns (false, nil) whenever the job's engine has no entry
in the Executors map, or the executor reports that it is not installed, or its
IsInstalled check fails, whatever the inputs of the job are. -/
theorem selectJob_engine_unavailable (node : ComputeNode) (job : JobSpec)
    (h : node.Executors job.Engine = none ∨
      ∃ executorEngine, node.Executors job.Engine = some executorEngine ∧
        (executorEngine.IsInstalled.2 ≠ none ∨ executorEngine.IsInstalled.1 = false)) :
    node.SelectJob job = (false, none) := by
  have hcheck : node.checkExecutor job.Engine ≠ none := by
    unfold ComputeNode.checkExecutor
    rcases h with h | ⟨ex, h, hinst⟩
    · simp [h]
    · simp only [h]
      rcases hres : ex.IsInstalled with ⟨installed, err⟩
      simp only [hres] at hinst
      cases err with
      | some e => simp
      | none =>
        rcases hinst with hinst | hinst
        · exact absurd rfl hinst
        · simp [hinst]
  unfold ComputeNode.SelectJob
  cases hc : node.checkExecutor job.Engine with
  | none => exact absurd hc hcheck
  | some _ => rfl

/-- C19, at two instances: an engine without executor and an executor that is
not installed. -/
theorem selectJob_engine_unavailable_witness :
    sampleNode.SelectJob { localJob with Engine := "python" } = (false, none) ∧
    sampleNode.SelectJob wasmJob = (false, none) :=
  ⟨selectJob_engine_unavailable sampleNode { localJob with Engine := "python" } (Or.inl rfl),
    selectJob_engine_unavailable sampleNode wasmJob
      (Or.inr ⟨{ IsInstalled := (false, none) }, rfl, Or.inr rfl⟩)⟩

/-- C20: with the job's executor present and installed and the storage provider
of every input present and installed, `SelectJob` returns no error and accepts
exactly when `HasResourceLocally` is true for every input, provided no
`HasResourceLocally` call errors; and when a call errors, calls before it not
erring, `SelectJob` returns false with that error. -/
theorem selectJob_local_data (node : ComputeNode) (job : JobSpec)
    (hexec : ∃ executorEngine, node.Executors job.Engine = some executorEngine ∧
      executorEngine.IsInstalled = (true, none))
    (hstorage : ∀ input ∈ job.Inputs, ∃ sp, node.StorageProviders input.Engine = some sp ∧
      sp.IsInstalled = (true, none)) :
    ((∀ input ∈ job.Inputs, (node.hasResourceLocally input).2 = none) →
      (node.SelectJob job).2 = none ∧
      ((node.SelectJob job).1 = true ↔
        ∀ input ∈ job.Inputs, (node.hasResourceLocally input).1 = true)) ∧
    (∀ pre input post err, job.Inputs = pre ++ input :: post →
      (∀ i ∈ pre, (node.hasResourceLocally i).2 = none) →
      (node.hasResourceLocally input).2 = some err →
      node.SelectJob job = (false, some err)) := by
  obtain ⟨ex, hex, hinst⟩ := hexec
  have hcheck : node.checkExecutor job.Engine = none := by
    simp [ComputeNode.checkExecutor, hex, hinst]
  constructor
  · intro hnoerr
    unfold ComputeNode.SelectJob
    simp only [hcheck]
    by_cases hlen : job.Inputs.length = 0
    · have hnil : job.Inputs = [] := List.length_eq_zero.mp hlen
      simp [hnil]
    · rw [if_neg hlen, countLocalInputs_ok node job.Inputs 0 hstorage hnoerr]
      simp only [Nat.zero_add, ge_iff_le]
      have hle := List.countP_le_length (fun input => (node.hasResourceLocally input).1)
        (l := job.Inputs)
      by_cases hall : ∀ input ∈ job.Inputs, (node.hasResourceLocally input).1 = true
      · have heq := (List.countP_eq_length
          (p := fun input => (node.hasResourceLocally input).1) (l := job.Inputs)).mpr hall
        simp only [heq, le_refl, if_true, true_iff]
        exact ⟨trivial, hall⟩
      · have hne : List.countP (fun input => (node.hasResourceLocally input).1) job.Inputs
            ≠ job.Inputs.length := by
          intro heq
          exact hall ((List.countP_eq_length
            (p := fun input => (node.hasResourceLocally input).1) (l := job.Inputs)).mp heq)
        have hlt : ¬ job.Inputs.length ≤
            List.countP (fun input => (node.hasResourceLocally input).1) job.Inputs := by
          omega
        simp [hlt, hall]
  · intro pre input post err hinputs hpre herr
    unfold ComputeNode.SelectJob
    simp only [hcheck]
    have hlen : job.Inputs.length ≠ 0 := by simp [hinputs]
    rw [if_neg hlen, hinputs,
      countLocalInputs_error node pre input post err 0
        (fun i hi => hstorage i (by rw [hinputs]; simp at hi ⊢; tauto)) hpre herr]

/-- C20, at two instances: the job whose only input is held is accepted, and a
failing lookup of the second input is returned with false. -/
theorem selectJob_local_data_witness :
    sampleNode.SelectJob localJob = (true, none) ∧
    sampleNode.SelectJob failingLookupJob =
      (false, some (GoError.errorString "bucket unreachable")) := by
  have hexec : ∃ executorEngine, sampleNode.Executors "docker" = some executorEngine ∧
      executorEngine.IsInstalled = (true, none) := ⟨_, rfl, rfl⟩
  constructor
  · have h := (selectJob_local_data sampleNode localJob hexec
      (by intro input hi; simp [localJob] at hi; subst hi; exact ⟨_, rfl, rfl⟩)).1
      (by intro input hi; simp [localJob] at hi; subst hi; rfl)
    have h1 : (sampleNode.SelectJob localJob).1 = true :=
      h.2.mpr (by intro input hi; simp [localJob] at hi; subst hi; rfl)
    exact Prod.ext h1 h.1
  · exact (selectJob_local_data sampleNode failingLookupJob hexec
      (by
        intro input hi
        simp [failingLookupJob] at hi
        rcases hi with rfl | rfl | rfl <;> exact ⟨_, rfl, rfl⟩)).2
      [{ Engine := "ipfs", Cid := "Qm1" }] { Engine := "s3", Cid := "key" }
      [{ Engine := "ipfs", Cid := "Qm2" }] (GoError.errorString "bucket unreachable") rfl
      (by intro i hi; simp at hi; subst hi; rfl) rfl

/-! ## Properties of the error interceptor of the API client -/

/-- The deferred function of `interceptError` changes neither the code nor the
retryable mark. -/
theorem interceptError_body (c : httpClient) (ctxErr : Option GoError)
    (err : Option RequestError) (resp : Option HTTPResponse) (method endpoint : String)
    (b : BacError)
    (h : c.interceptError ctxErr err resp method endpoint = some b) :
    ∃ b0, (c.interceptErrorBody ctxErr err resp).1 = some b0 ∧ b.Code = b0.Code ∧
      b.Retryable = b0.Retryable := by
  unfold httpClient.interceptError at h
  split at h
  · rename_i b0 hb
    refine ⟨b0, by rw [hb], ?_⟩
    dsimp only at h
    split at h <;> simp only [Option.some.injEq] at h <;> subst h <;>
      simp [BacError.WithHint, BacError.WithDetails, BacError.WithComponent]
  · rename_i b1 flag hne hb
    subst h
    exact ⟨b, by rw [hb], rfl, rfl⟩

/-- C13: the marks of the transient errors that `interceptError` builds. For a
refused connection reported as a URL error it builds a ServiceUnavailable error
that is not marked retryable, while for the same refusal reported as a dial
error it builds a ServiceUnavailable error that is marked retryable; for
another network error it builds a NetworkFailure error that is not marked
retryable. None of the three is derived from an API error body. -/
theorem interceptError_refused_not_retryable (c : httpClient) (method endpoint : String) :
    (c.interceptErrorBody none (some refusedError) none).2 = false ∧
    (c.interceptError none (some refusedError) none method endpoint).map
        (fun b => (b.Code, b.Retryable)) = some (ServiceUnavailable, false) ∧
    (c.interceptErrorBody none (some dialRefusedError) none).2 = false ∧
    (c.interceptError none (some dialRefusedError) none method endpoint).map
        (fun b => (b.Code, b.Retryable)) = some (ServiceUnavailable, true) ∧
    (c.interceptErrorBody none (some resetError) none).2 = false ∧
    (c.interceptError none (some resetError) none method endpoint).map
        (fun b => (b.Code, b.Retryable)) = some (NetworkFailure, false) := by
  have hrefused : stringsContains "dial tcp 127.0.0.1:1234: connect: connection refused"
      "connection refused" = true := by decide
  have hhost : stringsContains "dial tcp 127.0.0.1:1234: connect: connection refused"
      "no such host" = false := by decide
  refine ⟨?_, ?_, ?_, ?_, ?_, ?_⟩
  · simp [httpClient.interceptErrorBody, refusedError, hrefused, hhost]
  · simp only [httpClient.interceptError, httpClient.interceptErrorBody, refusedError,
      hrefused, hhost]
    simp [BacError.New, BacError.WithCode, BacError.WithComponent, BacError.WithDetails,
      BacError.WithHint]
  · simp [httpClient.interceptErrorBody, dialRefusedError]
  · simp only [httpClient.interceptError, httpClient.interceptErrorBody, dialRefusedError]
    simp [BacError.New, BacError.WithCode, BacError.WithComponent, BacError.WithDetails,
      BacError.WithHint, BacError.WithRetryable]
  · simp [httpClient.interceptErrorBody, resetError]
  · simp only [httpClient.interceptError, httpClient.interceptErrorBody, resetError]
    simp [BacError.New, BacError.WithCode, BacError.WithComponent, BacError.WithDetails,
      BacError.WithHint]

/-- The retryable marks of `interceptError`: an error that it builds itself (not
derived from an API error body) is marked retryable only if its code is TimeOut or
ServiceUnavailable, or if it is the unknown error that `bacerrors.Wrap` returned
marked retryable; every error coded TimeOut is marked retryable; errors coded
BadRequest, Unauthorized, RequestCancelled or NetworkFailure are never marked
retryable, nor is an InternalError unless `bacerrors.Wrap` returned it so. -/
theorem interceptError_retryable (c : httpClient) (ctxErr : Option GoError)
    (err : Option RequestError) (resp : Option HTTPResponse) (method endpoint : String)
    (b : BacError)
    (h : c.interceptError ctxErr err resp method endpoint = some b)
    (hown : (c.interceptErrorBody ctxErr err resp).2 = false) :
    (b.Retryable = true →
      b.Code = TimeOutError ∨ b.Code = ServiceUnavailable ∨
      (b.Code = InternalError ∧
        ∃ cause, err = some cause ∧ (c.Wrap cause "unknown error").Retryable = true)) ∧
    (b.Code = TimeOutError → b.Retryable = true) ∧
    (b.Code = BadRequestError ∨ b.Code = UnauthorizedError ∨ b.Code = RequestCancelled ∨
      b.Code = NetworkFailure → b.Retryable = false) ∧
    (b.Code = InternalError → b.Retryable = true →
      ∃ cause, err = some cause ∧ (c.Wrap cause "unknown error").Retryable = true) := by
  obtain ⟨b0, hb0, hcode, hretry⟩ := interceptError_body c ctxErr err resp method endpoint b h
  rw [hcode, hretry]
  clear h hcode hretry
  unfold httpClient.interceptErrorBody at hb0 hown
  split at hb0
  · -- a response without transport error
    split at hb0
    · simp at hb0
    · split at hb0
      · simp only [Option.some.injEq] at hb0
        subst hb0
        simp [BacError.New, BacError.WithCode, BacError.WithHTTPStatusCode,
          BacError.WithRetryable, BacError.WithDetails, UnauthorizedError, TimeOutError,
          ServiceUnavailable, InternalError, BadRequestError, RequestCancelled, NetworkFailure]
      · split at hb0
        · rename_i hgen
          simp only [hgen] at hown
          rename_i hne200 hne401 _ _
          simp [hne200, hne401] at hown
        · simp only [Option.some.injEq] at hb0
          subst hb0
          simp [BacError.New, BacError.WithCode, BacError.WithHTTPStatusCode,
          BacError.WithRetryable, BacError.WithDetails, UnauthorizedError, TimeOutError,
          ServiceUnavailable, InternalError, BadRequestError, RequestCancelled, NetworkFailure]
  · simp at hb0
  · rename_i cause _
    split at hb0
    · simp only [Option.some.injEq] at hb0
      subst hb0
      simp [BacError.New, BacError.WithCode, BacError.WithHTTPStatusCode,
          BacError.WithRetryable, BacError.WithDetails, UnauthorizedError, TimeOutError,
          ServiceUnavailable, InternalError, BadRequestError, RequestCancelled, NetworkFailure]
    · split at hb0
      · simp only [Option.some.injEq] at hb0
        subst hb0
        simp [BacError.New, BacError.WithCode, BacError.WithHTTPStatusCode,
          BacError.WithRetryable, BacError.WithDetails, UnauthorizedError, TimeOutError,
          ServiceUnavailable, InternalError, BadRequestError, RequestCancelled, NetworkFailure]
      · dsimp only at hb0
        split at hb0
        · -- the URL error decides
          rename_i bacErr hurl
          simp only [Option.some.injEq] at hb0
          subst hb0
          split at hurl
          · simp at hurl
          · split at hurl
            · simp only [Option.some.injEq] at hurl
              subst hurl
              simp [BacError.New, BacError.WithCode, BacError.WithHTTPStatusCode,
          BacError.WithRetryable, BacError.WithDetails, UnauthorizedError, TimeOutError,
          ServiceUnavailable, InternalError, BadRequestError, RequestCancelled, NetworkFailure]
            · split at hurl
              · simp only [Option.some.injEq] at hurl
                subst hurl
                simp [BacError.New, BacError.WithCode, BacError.WithHTTPStatusCode,
          BacError.WithRetryable, BacError.WithDetails, UnauthorizedError, TimeOutError,
          ServiceUnavailable, InternalError, BadRequestError, RequestCancelled, NetworkFailure]
              · split at hurl
                · simp only [Option.some.injEq] at hurl
                  subst hurl
                  simp [BacError.New, BacError.WithCode, BacError.WithHTTPStatusCode,
          BacError.WithRetryable, BacError.WithDetails, UnauthorizedError, TimeOutError,
          ServiceUnavailable, InternalError, BadRequestError, RequestCancelled, NetworkFailure]
                · simp at hurl
        · split at hb0
          · split at hb0
            · simp only [Option.some.injEq] at hb0
              subst hb0
              simp [BacError.New, BacError.WithCode, BacError.WithHTTPStatusCode,
          BacError.WithRetryable, BacError.WithDetails, UnauthorizedError, TimeOutError,
          ServiceUnavailable, InternalError, BadRequestError, RequestCancelled, NetworkFailure]
            · split at hb0
              · simp only [Option.some.injEq] at hb0
                subst hb0
                simp [BacError.New, BacError.WithCode, BacError.WithHTTPStatusCode,
          BacError.WithRetryable, BacError.WithDetails, UnauthorizedError, TimeOutError,
          ServiceUnavailable, InternalError, BadRequestError, RequestCancelled, NetworkFailure]
              · simp only [Option.some.injEq] at hb0
                subst hb0
                simp [BacError.New, BacError.WithCode, BacError.WithHTTPStatusCode,
          BacError.WithRetryable, BacError.WithDetails, UnauthorizedError, TimeOutError,
          ServiceUnavailable, InternalError, BadRequestError, RequestCancelled, NetworkFailure]
          · simp only [Option.some.injEq] at hb0
            subst hb0
            simp [BacError.New, BacError.WithCode, BacError.WithHTTPStatusCode,
          BacError.WithRetryable, BacError.WithDetails, UnauthorizedError, TimeOutError,
          ServiceUnavailable, InternalError, BadRequestError, RequestCancelled, NetworkFailure]

/-- Past the context deadline the interceptor
builds a TimeOut error, marked retryable. -/
theorem interceptError_retryable_witness :
    sampleClient.interceptError (some GoError.contextDeadlineExceeded) (some refusedError) none
      "GET" "/api/v1/agent/alive" = some timedOutBacError ∧
    timedOutBacError.Retryable = true :=
  ⟨rfl,
    (interceptError_retryable sampleClient (some GoError.contextDeadlineExceeded)
      (some refusedError) none "GET" "/api/v1/agent/alive" timedOutBacError rfl rfl).2.1 rfl⟩

/-! ## Properties of the networking bid strategy -/

/-- C14: for every networking strategy and every job networking, `ShouldBid`
returns no error and bids exactly when the strategy does not reject or the
network type is None or Default; a rejecting strategy does not bid on Host or
Full, a non-rejecting strategy bids on None, Default, Host and Full, and every
row of the test table is met. -/
theorem networkingStrategy_shouldBid (reject : Bool) (network : NetworkConfig) :
    ((NewNetworkingStrategy reject).ShouldBid network).2 = none ∧
    (((NewNetworkingStrategy reject).ShouldBid network).1.ShouldBid = true ↔
      (reject = false ∨ network.Typ = Network.NetworkNone ∨
        network.Typ = Network.NetworkDefault)) ∧
    ((network.Typ = Network.NetworkHost ∨ network.Typ = Network.NetworkFull) →
      ((NewNetworkingStrategy true).ShouldBid network).1.ShouldBid = false) ∧
    ((network.Typ = Network.NetworkNone ∨ network.Typ = Network.NetworkDefault ∨
        network.Typ = Network.NetworkHost ∨ network.Typ = Network.NetworkFull) →
      ((NewNetworkingStrategy false).ShouldBid network).1.ShouldBid = true) ∧
    (∀ test ∈ networkingStrategyTestCases,
      (NewNetworkingStrategy test.1).ShouldBid test.2.1 = ({ ShouldBid := test.2.2 }, none)) := by
  refine ⟨rfl, ?_, ?_, ?_, by decide⟩
  · cases reject <;>
      simp [NewNetworkingStrategy, NetworkingStrategy.ShouldBid]
  · rintro (h | h) <;> simp [NewNetworkingStrategy, NetworkingStrategy.ShouldBid, h]
  · intro _
    simp [NewNetworkingStrategy, NetworkingStrategy.ShouldBid]

/-- C14, at an instance: a rejecting strategy does not bid on a job with host
networking. -/
theorem networkingStrategy_shouldBid_witness :
    ((NewNetworkingStrategy true).ShouldBid { Typ := Network.NetworkHost }).1.ShouldBid = false :=
  (networkingStrategy_shouldBid true { Typ := Network.NetworkHost }).2.2.1 (Or.inl rfl)

/-! ## Properties of the evaluation broker -/

/-- Filtering a list does not raise a count. -/
theorem countP_filter_le {α : Type} (l : List α) (keep test : α → Bool) :
    (l.filter keep).countP test ≤ l.countP test := by
  induction l with
  | nil => simp
  | cons y l ih =>
    by_cases hk : keep y = true <;> by_cases ht : test y = true <;>
      simp [List.filter_cons, List.countP_cons, hk, ht] <;> omega

/-- An element that a filter drops is missing from the count of the filtered list. -/
theorem countP_filter_removed {α : Type} (l : List α) (keep test : α → Bool) (x : α)
    (hx : x ∈ l) (hkeep : keep x = false) :
    (l.filter keep).countP test + (if test x = true then 1 else 0) ≤ l.countP test := by
  induction l with
  | nil => simp at hx
  | cons y l ih =>
    rcases List.mem_cons.1 hx with rfl | hmem
    · have := countP_filter_le l keep test
      by_cases ht : test x = true <;>
        simp [List.filter_cons, List.countP_cons, hkeep, ht] <;> omega
    · have := ih hmem
      by_cases hk : keep y = true <;> by_cases ht : test y = true <;>
        by_cases hx : test x = true <;>
        simp [List.filter_cons, List.countP_cons, hk, ht, hx] at * <;> omega

/-- A filter and its complement share out a count. -/
theorem countP_filter_split {α : Type} (l : List α) (q test : α → Bool) :
    (l.filter q).countP test + (l.filter (fun x => !q x)).countP test = l.countP test := by
  induction l with
  | nil => simp
  | cons y l ih =>
    by_cases hk : q y = true <;> by_cases ht : test y = true <;>
      simp [List.filter_cons, List.countP_cons, hk, ht] <;> omega

/-- Erasing an element of a list lowers a count by what the element contributed. -/
theorem countP_erase_add {α : Type} [DecidableEq α] (l : List α) (test : α → Bool) (x : α)
    (hx : x ∈ l) :
    (l.erase x).countP test + (if test x = true then 1 else 0) = l.countP test := by
  induction l with
  | nil => simp at hx
  | cons y l ih =>
    by_cases hyx : y = x
    · subst hyx
      by_cases ht : test y = true <;> simp [List.countP_cons, ht]
    · have hmem : x ∈ l := by
        rcases List.mem_cons.1 hx with h | h
        · exact absurd h.symm hyx
        · exact h
      have := ih hmem
      have he : (y :: l).erase x = y :: l.erase x := by
        simp [List.erase_cons, hyx]
      rw [he]
      by_cases ht : test y = true <;> by_cases hx : test x = true <;>
        simp [List.countP_cons, ht, hx] at * <;> omega

/-- When at most one element of a list passes a test, two elements that pass it are
the same. -/
theorem countP_unique {α : Type} (l : List α) (test : α → Bool) (x y : α)
    (h : l.countP test ≤ 1) (hx : x ∈ l) (hy : y ∈ l) (htx : test x = true)
    (hty : test y = true) : x = y := by
  induction l with
  | nil => simp at hx
  | cons z l ih =>
    have hpos : ∀ w, w ∈ l → test w = true → 0 < l.countP test := fun w hw ht =>
      List.countP_pos_iff.2 ⟨w, hw, ht⟩
    rw [List.countP_cons] at h
    rcases List.mem_cons.1 hx with hx0 | hx1 <;> rcases List.mem_cons.1 hy with hy0 | hy1
    · rw [hx0, hy0]
    · have := hpos y hy1 hty
      rw [← hx0] at h
      simp only [htx, if_true] at h
      omega
    · have := hpos x hx1 htx
      rw [← hy0] at h
      simp only [hty, if_true] at h
      omega
    · have hle : l.countP test ≤ 1 := by omega
      exact ih hle hx1 hy1

/-- When at most one element of a list passes a test, the search finds it. -/
theorem find_of_unique {α : Type} (l : List α) (test : α → Bool) (x : α)
    (h : l.countP test ≤ 1) (hx : x ∈ l) (htx : test x = true) : l.find? test = some x := by
  cases hf : l.find? test with
  | none =>
    have := List.find?_eq_none.1 hf x hx
    simp [htx] at this
  | some y =>
    have hy := List.mem_of_find?_eq_some hf
    have hty := List.find?_some hf
    rw [countP_unique l test x y h hx hy htx hty]

/-- The evaluation that comes first in the order of delivery is in the list. -/
theorem firstInOrder_mem (l : List Evaluation) (x : Evaluation)
    (h : firstInOrder l = some x) : x ∈ l := by
  induction l generalizing x with
  | nil => simp [firstInOrder] at h
  | cons y l ih =>
    unfold firstInOrder at h
    split at h
    · simp at h; simp [h]
    · rename_i z hz
      split at h
      · simp at h; subst h; exact List.mem_cons_of_mem _ (ih z hz)
      · simp at h; simp [h]

/-- A job without an evaluation in the broker has no active evaluation. -/
theorem hasJob_false_count (b : Broker) (jobID : String) (h : b.hasJob jobID = false) :
    b.activeCount (fun x => x.JobID == jobID) = 0 := by
  simp only [Broker.hasJob, Bool.or_eq_false_iff] at h
  obtain ⟨⟨⟨h1, _⟩, h3⟩, h4⟩ := h
  simp only [Broker.activeCount, Nat.add_eq_zero, List.countP_eq_zero]
  simp only [List.any_eq_false] at h1 h3 h4
  exact ⟨⟨h1, h3⟩, h4⟩

/-- An evaluation ID that is not in the broker is counted nowhere. -/
theorem hasEval_false_count (b : Broker) (evalID : String) (h : b.hasEval evalID = false) :
    b.activeCount (fun x => x.ID == evalID) + b.pending.countP (fun x => x.ID == evalID) = 0 := by
  simp only [Broker.hasEval, Bool.or_eq_false_iff] at h
  obtain ⟨⟨⟨h1, h2⟩, h3⟩, h4⟩ := h
  simp only [Broker.activeCount, Nat.add_eq_zero, List.countP_eq_zero]
  simp only [List.any_eq_false] at h1 h2 h3 h4
  exact ⟨⟨⟨h1, h3⟩, h4⟩, h2⟩

/-- `Enqueue` keeps the evaluations of a job serialised. -/
theorem enqueue_serialised (b : Broker) (now : Int) (eval : Evaluation)
    (h : b.serialised) : (b.Enqueue now eval).serialised := by
  have hadd : ∀ id, eval.ID = id → b.hasEval eval.ID = false →
      b.activeCount (fun x => x.ID == id) + b.pending.countP (fun x => x.ID == id) = 0 := by
    intro id hid hno
    subst hid
    exact hasEval_false_count b _ hno
  have hjob : ∀ j, eval.JobID = j → b.hasJob eval.JobID = false →
      b.activeCount (fun x => x.JobID == j) = 0 := by
    intro j hj hno
    subst hj
    exact hasJob_false_count b _ hno
  have hready : b.hasEval eval.ID = false → b.hasJob eval.JobID = false →
      Broker.serialised { b with ready := b.ready ++ [eval] } := by
    intro he hj
    refine ⟨fun j => ?_, fun id => ?_⟩
    · have h1 := h.1 j
      have h2 := hjob j
      simp only [Broker.activeCount, List.countP_append, List.countP_cons, List.countP_nil] at *
      by_cases hc : eval.JobID = j
      · have := h2 hc hj
        simp [hc]; omega
      · simp [hc]; omega
    · have h1 := h.2 id
      have h2 := hadd id
      simp only [Broker.activeCount, List.countP_append, List.countP_cons, List.countP_nil] at *
      by_cases hc : eval.ID = id
      · have := h2 hc he
        simp [hc]; omega
      · simp [hc]; omega
  unfold Broker.Enqueue
  split
  · exact h
  · rename_i he
    simp only [Bool.not_eq_true] at he
    split
    · refine ⟨fun j => h.1 j, fun id => ?_⟩
      have h1 := h.2 id
      have h2 := hadd id
      simp only [Broker.activeCount, List.countP_append, List.countP_cons, List.countP_nil] at *
      by_cases hc : eval.ID = id
      · have := h2 hc he
        simp [hc]; omega
      · simp [hc]; omega
    · rename_i hj
      simp only [Bool.not_eq_true] at hj
      split
      · split
        · refine ⟨fun j => ?_, fun id => ?_⟩
          · have h1 := h.1 j
            have h2 := hjob j
            simp only [Broker.activeCount, List.countP_append, List.countP_cons,
              List.countP_nil] at *
            by_cases hc : eval.JobID = j
            · have := h2 hc hj
              simp [hc]; omega
            · simp [hc]; omega
          · have h1 := h.2 id
            have h2 := hadd id
            simp only [Broker.activeCount, List.countP_append, List.countP_cons,
              List.countP_nil] at *
            by_cases hc : eval.ID = id
            · have := h2 hc he
              simp [hc]; omega
            · simp [hc]; omega
        · exact hready he hj
      · exact hready he hj

/-- A broker whose counts do not exceed those of a serialised broker is serialised. -/
theorem serialised_of_le (b c : Broker) (h : b.serialised)
    (hA : ∀ test, c.activeCount test ≤ b.activeCount test)
    (hP : ∀ test, c.activeCount test + c.pending.countP test ≤
      b.activeCount test + b.pending.countP test) : c.serialised :=
  ⟨fun j => le_trans (hA _) (h.1 j), fun id => le_trans (hP _) (h.2 id)⟩

/-- The entry found for an evaluation ID is in the inflight table under that ID. -/
theorem inflight_mem_of_lookup (b : Broker) (evalID : String) (entry : InflightEntry)
    (h : b.Inflight evalID = some entry) : entry ∈ b.inflight ∧ entry.Eval.ID = evalID := by
  unfold Broker.Inflight at h
  refine ⟨List.mem_of_find?_eq_some h, ?_⟩
  have := List.find?_some h
  simpa using this

/-- The receipt check passes only with the entry of the evaluation and its handle. -/
theorem checkReceipt_ok (b : Broker) (evalID : String) (handle : ReceiptHandle)
    (entry : InflightEntry) (h : b.checkReceipt evalID handle = .ok entry) :
    b.Inflight evalID = some entry ∧ entry.ReceiptHandle = handle := by
  unfold Broker.checkReceipt at h
  split at h
  · split at h <;> simp at h
  · rename_i found hfound
    split at h
    · rename_i hh
      simp at h
      subst h
      exact ⟨hfound, hh⟩
    · simp at h

/-- `Dequeue` either changes nothing or delivers a ready evaluation of a requested
type with the next handle. -/
theorem dequeue_cases (b : Broker) (now : Int) (types : List String) :
    b.Dequeue now types = (b, none) ∨
      ∃ eval, eval ∈ b.ready ∧ types.contains eval.Typ = true ∧
        b.Dequeue now types =
          ({ b with
              ready := b.ready.erase eval
              inflight := b.inflight ++
                [{ Eval := eval, ReceiptHandle := b.handles,
                   NackTimeoutDeadline := now + b.visibility,
                   DeliveryCount := (b.counts.lookup eval.ID).getD 0 }]
              handles := b.handles + 1 },
            some (eval, b.handles)) := by
  unfold Broker.Dequeue
  split
  · exact Or.inl rfl
  · rename_i eval hfirst
    have hmem := firstInOrder_mem _ _ hfirst
    rw [List.mem_filter] at hmem
    exact Or.inr ⟨eval, hmem.1, hmem.2, rfl⟩

/-- `Dequeue` keeps the evaluations of a job serialised. -/
theorem dequeue_serialised (b : Broker) (now : Int) (types : List String)
    (h : b.serialised) : (b.Dequeue now types).1.serialised := by
  rcases dequeue_cases b now types with hd | ⟨eval, hmem, _, hd⟩
  · rw [hd]; exact h
  · rw [hd]
    have key : ∀ test, Broker.activeCount { b with
              ready := b.ready.erase eval
              inflight := b.inflight ++
                [{ Eval := eval, ReceiptHandle := b.handles,
                   NackTimeoutDeadline := now + b.visibility,
                   DeliveryCount := (b.counts.lookup eval.ID).getD 0 }]
              handles := b.handles + 1 } test = b.activeCount test := by
      intro test
      have := countP_erase_add b.ready test eval hmem
      simp only [Broker.activeCount, List.countP_append, List.countP_cons, List.countP_nil]
      omega
    exact serialised_of_le b _ h (fun t => le_of_eq (key t)) (fun t => by rw [key t])

/-- The promotion either changes nothing or moves an evaluation of the job from the
per-job queue to the ready queue. -/
theorem promote_cases (b : Broker) (jobID : String) :
    b.promote jobID = b ∨
      ∃ next, next ∈ b.pending ∧ next.JobID = jobID ∧
        b.promote jobID =
          { b with pending := b.pending.erase next, ready := b.ready ++ [next] } := by
  unfold Broker.promote
  split
  · exact Or.inl rfl
  · rename_i next hfind
    have h1 := List.mem_of_find?_eq_some hfind
    have h2 := List.find?_some hfind
    exact Or.inr ⟨next, h1, by simpa using h2, rfl⟩

/-- `Ack` keeps the evaluations of a job serialised. -/
theorem ack_serialised (b : Broker) (now : Int) (evalID : String) (handle : ReceiptHandle)
    (h : b.serialised) : (b.Ack now evalID handle).1.serialised := by
  unfold Broker.Ack
  split
  · exact h
  · rename_i entry hcheck
    obtain ⟨hlook, _⟩ := checkReceipt_ok b evalID handle entry hcheck
    obtain ⟨hmem, hid⟩ := inflight_mem_of_lookup b evalID entry hlook
    have hprom : (Broker.promote { b with
        inflight := b.inflight.filter (fun x => x.Eval.ID != evalID)
        counts := b.counts.filter (fun c => c.1 != evalID)
        requeue := b.requeue.filter (fun r => r.1 != handle) } entry.Eval.JobID).serialised := by
      have hrem : ∀ test : Evaluation → Bool, (b.inflight.filter (fun x => x.Eval.ID != evalID)).countP
          (fun x => test x.Eval) + (if test entry.Eval = true then 1 else 0) ≤
          b.inflight.countP (fun x => test x.Eval) :=
        fun test => countP_filter_removed b.inflight _ (fun x => test x.Eval) entry hmem
          (by simp [hid])
      rcases promote_cases { b with
        inflight := b.inflight.filter (fun x => x.Eval.ID != evalID)
        counts := b.counts.filter (fun c => c.1 != evalID)
        requeue := b.requeue.filter (fun r => r.1 != handle) } entry.Eval.JobID with
        hp | ⟨next, hnext, hjob, hp⟩
      · rw [hp]
        refine serialised_of_le b _ h (fun test => ?_) (fun test => ?_)
        · have := hrem test
          simp only [Broker.activeCount]
          split at this <;> omega
        · have := hrem test
          simp only [Broker.activeCount]
          split at this <;> omega
      · rw [hp]
        refine ⟨fun j => ?_, fun id => ?_⟩
        · have h1 := h.1 j
          have h2 := hrem (fun x => x.JobID == j)
          simp only [Broker.activeCount, List.countP_append, List.countP_cons,
            List.countP_nil] at *
          by_cases hc : entry.Eval.JobID = j
          · simp [hc] at h2
            simp [hjob, hc]
            omega
          · have hn : ¬ next.JobID = j := by rw [hjob]; exact hc
            simp [hc] at h2
            simp [hn]
            omega
        · have h1 := h.2 id
          have h2 := hrem (fun x => x.ID == id)
          have h3 := countP_erase_add b.pending (fun x => x.ID == id) next hnext
          simp only [Broker.activeCount, List.countP_append, List.countP_cons,
            List.countP_nil] at *
          split at h2 <;> split at h3 <;> simp_all <;> omega
    dsimp only
    split
    · exact enqueue_serialised _ _ _ hprom
    · exact hprom

/-- `Nack` keeps the evaluations of a job serialised. -/
theorem nack_serialised (b : Broker) (evalID : String) (handle : ReceiptHandle)
    (h : b.serialised) : (b.Nack evalID handle).1.serialised := by
  unfold Broker.Nack
  split
  · exact h
  · rename_i entry hcheck
    obtain ⟨hlook, _⟩ := checkReceipt_ok b evalID handle entry hcheck
    obtain ⟨hmem, hid⟩ := inflight_mem_of_lookup b evalID entry hlook
    have hrem : ∀ test : Evaluation → Bool, (b.inflight.filter (fun x => x.Eval.ID != evalID)).countP
        (fun x => test x.Eval) + (if test entry.Eval = true then 1 else 0) ≤
        b.inflight.countP (fun x => test x.Eval) :=
      fun test => countP_filter_removed b.inflight _ (fun x => test x.Eval) entry hmem
        (by simp [hid])
    have key : ∀ test, Broker.activeCount { b with
        inflight := b.inflight.filter (fun x => x.Eval.ID != evalID)
        ready := b.ready ++ [entry.Eval] } test ≤ b.activeCount test := by
      intro test
      have := hrem test
      simp only [Broker.activeCount, List.countP_append, List.countP_cons, List.countP_nil]
      split at this <;> simp_all
      omega
    exact serialised_of_le b _ h key (fun t => Nat.add_le_add_right (key t) _)

/-- `InflightExtend` keeps the evaluations of a job serialised. -/
theorem inflightExtend_serialised (b : Broker) (now : Int) (evalID : String)
    (handle : ReceiptHandle) (h : b.serialised) :
    (b.InflightExtend now evalID handle).1.serialised := by
  unfold Broker.InflightExtend
  split
  · exact h
  · have key : ∀ test, Broker.activeCount { b with
        inflight := b.inflight.map (fun x =>
          if x.Eval.ID == evalID then { x with NackTimeoutDeadline := now + b.visibility }
          else x) } test = b.activeCount test := by
      intro test
      simp only [Broker.activeCount, List.countP_map]
      congr 1
      apply List.countP_congr
      intro x _
      simp only [Function.comp]
      split <;> rfl
    exact serialised_of_le b _ h (fun t => le_of_eq (key t)) (fun t => by rw [key t])

/-- The janitor keeps the evaluations of a job serialised. -/
theorem tick_serialised (b : Broker) (now : Int) (h : b.serialised) :
    (b.Tick now).serialised := by
  have key : ∀ test, (b.Tick now).activeCount test ≤ b.activeCount test := by
    intro test
    have h1 := countP_filter_split b.delayed (fun x => decide ((x.WaitUntil.getD now) ≤ now)) test
    have h2 := countP_filter_split b.inflight (fun x => decide (x.NackTimeoutDeadline ≤ now))
      (fun x => test x.Eval)
    have h3 := countP_filter_le
      (b.inflight.filter (fun x => decide (x.NackTimeoutDeadline ≤ now)))
      (fun x => !decide (b.maxRetries < x.DeliveryCount + 1)) (fun x => test x.Eval)
    simp only [Broker.Tick, Broker.activeCount, List.countP_append, List.countP_map,
      Function.comp_def] at *
    omega
  exact serialised_of_le b _ h key (fun t => Nat.add_le_add_right (key t) _)

/-- An item of `EnqueueAll` keeps the evaluations of a job serialised. -/
theorem enqueueItem_serialised (b : Broker) (now : Int)
    (item : Evaluation × Option ReceiptHandle) (h : b.serialised) :
    (b.enqueueItem now item).serialised := by
  unfold Broker.enqueueItem
  split
  · split
    · exact h
    · exact enqueue_serialised _ _ _ h
  · exact enqueue_serialised _ _ _ h

/-- `EnqueueAll` keeps the evaluations of a job serialised. -/
theorem enqueueAll_serialised (b : Broker) (now : Int)
    (items : List (Evaluation × Option ReceiptHandle)) (h : b.serialised) :
    (b.EnqueueAll now items).serialised := by
  unfold Broker.EnqueueAll
  induction items generalizing b with
  | nil => exact h
  | cons item items ih => exact ih _ (enqueueItem_serialised b now item h)

/-- Every call keeps the evaluations of a job serialised. -/
theorem step_serialised (b : Broker) (op : BrokerOp) (h : b.serialised) :
    (b.step op).1.serialised := by
  cases op with
  | Enqueue now eval => exact enqueue_serialised b now eval h
  | EnqueueAll now items => exact enqueueAll_serialised b now items h
  | Dequeue now types => exact dequeue_serialised b now types h
  | Ack now evalID handle => exact ack_serialised b now evalID handle h
  | Nack evalID handle => exact nack_serialised b evalID handle h
  | InflightExtend now evalID handle => exact inflightExtend_serialised b now evalID handle h
  | Tick now => exact tick_serialised b now h

/-- Every sequence of calls keeps the evaluations of a job serialised. -/
theorem run_serialised (b : Broker) (ops : List BrokerOp) (h : b.serialised) :
    (b.run ops).1.serialised := by
  induction ops generalizing b with
  | nil => exact h
  | cons op ops ih => exact ih _ (step_serialised b op h)

/-- The empty broker is serialised. -/
theorem new_serialised (visibility : Int) (maxRetries : Nat) :
    (Broker.new visibility maxRetries).serialised :=
  ⟨fun _ => by simp [Broker.new, Broker.activeCount],
    fun _ => by simp [Broker.new, Broker.activeCount]⟩

/-- `Enqueue` leaves the inflight table and the handles alone and removes nothing
from the per-job queues or the ready queue. -/
theorem enqueue_frame (b : Broker) (now : Int) (eval : Evaluation) :
    (b.Enqueue now eval).inflight = b.inflight ∧ (b.Enqueue now eval).handles = b.handles ∧
      (∀ x, x ∈ b.pending → x ∈ (b.Enqueue now eval).pending) ∧
      ∀ x, x ∈ b.ready → x ∈ (b.Enqueue now eval).ready := by
  unfold Broker.Enqueue
  split
  · exact ⟨rfl, rfl, fun _ h => h, fun _ h => h⟩
  · split
    · exact ⟨rfl, rfl, fun _ h => List.mem_append_left _ h, fun _ h => h⟩
    · split
      · split
        · exact ⟨rfl, rfl, fun _ h => h, fun _ h => h⟩
        · exact ⟨rfl, rfl, fun _ h => h, fun _ h => List.mem_append_left _ h⟩
      · exact ⟨rfl, rfl, fun _ h => h, fun _ h => List.mem_append_left _ h⟩

/-- An item of `EnqueueAll` leaves the inflight table and the handles alone and
removes nothing from the per-job queues or the ready queue. -/
theorem enqueueItem_frame (b : Broker) (now : Int) (item : Evaluation × Option ReceiptHandle) :
    (b.enqueueItem now item).inflight = b.inflight ∧
      (b.enqueueItem now item).handles = b.handles ∧
      (∀ x, x ∈ b.pending → x ∈ (b.enqueueItem now item).pending) ∧
      ∀ x, x ∈ b.ready → x ∈ (b.enqueueItem now item).ready := by
  unfold Broker.enqueueItem
  split
  · split
    · exact ⟨rfl, rfl, fun _ h => h, fun _ h => h⟩
    · exact enqueue_frame b now item.1
  · exact enqueue_frame b now item.1

/-- `EnqueueAll` leaves the inflight table and the handles alone and removes nothing
from the per-job queues or the ready queue. -/
theorem enqueueAll_frame (b : Broker) (now : Int)
    (items : List (Evaluation × Option ReceiptHandle)) :
    (b.EnqueueAll now items).inflight = b.inflight ∧
      (b.EnqueueAll now items).handles = b.handles ∧
      (∀ x, x ∈ b.pending → x ∈ (b.EnqueueAll now items).pending) ∧
      ∀ x, x ∈ b.ready → x ∈ (b.EnqueueAll now items).ready := by
  unfold Broker.EnqueueAll
  induction items generalizing b with
  | nil => exact ⟨rfl, rfl, fun _ h => h, fun _ h => h⟩
  | cons item items ih =>
    obtain ⟨h1, h2, h3, h4⟩ := enqueueItem_frame b now item
    obtain ⟨k1, k2, k3, k4⟩ := ih (b.enqueueItem now item)
    simp only [List.foldl_cons]
    exact ⟨k1.trans h1, k2.trans h2, fun x hx => k3 x (h3 x hx), fun x hx => k4 x (h4 x hx)⟩

/-- A new evaluation of a job that has an evaluation in the broker goes to the
per-job queue. -/
theorem enqueue_second (b : Broker) (now : Int) (eval : Evaluation)
    (hnew : b.hasEval eval.ID = false) (hjob : b.hasJob eval.JobID = true) :
    b.Enqueue now eval = { b with pending := b.pending ++ [eval] } := by
  unfold Broker.Enqueue
  simp [hnew, hjob]

/-- In a serialised broker an evaluation of a per-job queue is not ready. -/
theorem not_ready_of_pending (b : Broker) (h : b.serialised) (x : Evaluation)
    (hx : x ∈ b.pending) : x ∉ b.ready := by
  intro hr
  have h1 : 0 < b.pending.countP (fun y => y.ID == x.ID) :=
    List.countP_pos_iff.2 ⟨x, hx, by simp⟩
  have h2 : 0 < b.ready.countP (fun y => y.ID == x.ID) :=
    List.countP_pos_iff.2 ⟨x, hr, by simp⟩
  have := h.2 x.ID
  simp only [Broker.activeCount] at this
  omega

/-- In a serialised broker `Dequeue` delivers no evaluation of a per-job queue. -/
theorem dequeue_not_pending (b : Broker) (h : b.serialised) (now : Int) (types : List String)
    (x : Evaluation) (hx : x ∈ b.pending) (handle : ReceiptHandle) :
    (b.Dequeue now types).2 ≠ some (x, handle) := by
  rcases dequeue_cases b now types with hd | ⟨eval, hmem, _, hd⟩
  · rw [hd]; simp
  · rw [hd]
    intro heq
    simp only [Option.some.injEq, Prod.mk.injEq] at heq
    exact not_ready_of_pending b h x hx (heq.1 ▸ hmem)

/-- `Ack` either fails the receipt check and changes nothing, or removes the entry
of the evaluation; only an evaluation of the same job leaves the per-job queue,
and it becomes ready. -/
theorem ack_cases (b : Broker) (now : Int) (evalID : String) (handle : ReceiptHandle) :
    (∃ err, b.checkReceipt evalID handle = .error err ∧ b.Ack now evalID handle = (b, some err)) ∨
      ∃ entry, b.Inflight evalID = some entry ∧ entry.ReceiptHandle = handle ∧
        entry ∈ b.inflight ∧ entry.Eval.ID = evalID ∧
        (b.Ack now evalID handle).2 = none ∧
        (b.Ack now evalID handle).1.inflight =
          b.inflight.filter (fun x => x.Eval.ID != evalID) ∧
        (b.Ack now evalID handle).1.handles = b.handles ∧
        ∀ x, x ∈ b.pending → x ∉ (b.Ack now evalID handle).1.pending →
          x.JobID = entry.Eval.JobID ∧ x ∈ (b.Ack now evalID handle).1.ready := by
  unfold Broker.Ack
  split
  · rename_i err hcheck
    exact Or.inl ⟨err, hcheck, rfl⟩
  · rename_i entry hcheck
    obtain ⟨hlook, hh⟩ := checkReceipt_ok b evalID handle entry hcheck
    obtain ⟨hmem, hid⟩ := inflight_mem_of_lookup b evalID entry hlook
    refine Or.inr ⟨entry, hlook, hh, hmem, hid, ?_⟩
    have hprom : ∀ c : Broker, c.pending = b.pending →
        (c.promote entry.Eval.JobID).inflight = c.inflight ∧
        (c.promote entry.Eval.JobID).handles = c.handles ∧
        ∀ x, x ∈ b.pending → x ∉ (c.promote entry.Eval.JobID).pending →
          x.JobID = entry.Eval.JobID ∧ x ∈ (c.promote entry.Eval.JobID).ready := by
      intro c hc
      rcases promote_cases c entry.Eval.JobID with hp | ⟨next, hnext, hjob, hp⟩
      · rw [hp]
        exact ⟨rfl, rfl, fun x hx hnot => absurd (hc ▸ hx) hnot⟩
      · rw [hp]
        refine ⟨rfl, rfl, fun x hx hnot => ?_⟩
        have hxn : x = next := by
          by_contra hne
          exact hnot ((List.mem_erase_of_ne hne).2 (hc ▸ hx))
        subst hxn
        exact ⟨hjob, by simp⟩
    obtain ⟨p1, p2, p3⟩ := hprom { b with
        inflight := b.inflight.filter (fun x => x.Eval.ID != evalID)
        counts := b.counts.filter (fun c => c.1 != evalID)
        requeue := b.requeue.filter (fun r => r.1 != handle) } rfl
    dsimp only
    split
    · rename_i eval _
      obtain ⟨e1, e2, e3, e4⟩ := enqueue_frame (Broker.promote { b with
        inflight := b.inflight.filter (fun x => x.Eval.ID != evalID)
        counts := b.counts.filter (fun c => c.1 != evalID)
        requeue := b.requeue.filter (fun r => r.1 != handle) } entry.Eval.JobID) now eval
      refine ⟨rfl, e1.trans p1, e2.trans p2, fun x hx hnot => ?_⟩
      have := p3 x hx (fun hin => hnot (e3 x hin))
      exact ⟨this.1, e4 x this.2⟩
    · exact ⟨rfl, p1, p2, p3⟩

/-- An evaluation leaves the per-job queue only by an `Ack`, with the current
handle, of the inflight evaluation of its job. -/
theorem step_pending_leaves (b : Broker) (op : BrokerOp) (x : Evaluation)
    (hx : x ∈ b.pending) (hgone : x ∉ (b.step op).1.pending) :
    ∃ now entry, op = BrokerOp.Ack now entry.Eval.ID entry.ReceiptHandle ∧
      b.Inflight entry.Eval.ID = some entry ∧ entry.Eval.JobID = x.JobID ∧
      x ∈ (b.step op).1.ready := by
  cases op with
  | Enqueue now eval => exact absurd ((enqueue_frame b now eval).2.2.1 x hx) hgone
  | EnqueueAll now items => exact absurd ((enqueueAll_frame b now items).2.2.1 x hx) hgone
  | Dequeue now types =>
    exfalso
    apply hgone
    simp only [Broker.step]
    rcases dequeue_cases b now types with hd | ⟨eval, _, _, hd⟩ <;> rw [hd] <;> exact hx
  | Ack now evalID handle =>
    rcases ack_cases b now evalID handle with ⟨err, _, hack⟩ | ⟨entry, h1, h2, _, h4, _, _, _, h8⟩
    · exfalso
      apply hgone
      simp only [Broker.step, hack]
      exact hx
    · have := h8 x hx hgone
      exact ⟨now, entry, by rw [h4, h2], by rw [h4]; exact h1, this.1.symm, this.2⟩
  | Nack evalID handle =>
    exfalso
    apply hgone
    simp only [Broker.step, Broker.Nack]
    split <;> exact hx
  | InflightExtend now evalID handle =>
    exfalso
    apply hgone
    simp only [Broker.step, Broker.InflightExtend]
    split <;> exact hx
  | Tick now => exact absurd hx hgone

/-- A call that returns only an error delivers nothing. -/
theorem deliveries_ofError (err : Option BrokerError) :
    deliveries [BrokerResult.ofError err] = [] := by
  cases err <;> rfl

/-- The deliveries of a sequence of results, result by result. -/
theorem deliveries_cons (r : BrokerResult) (rs : List BrokerResult) :
    deliveries (r :: rs) = deliveries [r] ++ deliveries rs := by
  cases r <;> rfl

/-- A call either delivers nothing, generates no handle and adds no inflight entry,
or delivers a ready evaluation with the next handle and enters it. -/
theorem step_inflight (b : Broker) (op : BrokerOp) :
    (deliveries [(b.step op).2] = [] ∧ (b.step op).1.handles = b.handles ∧
      ∀ e1 ∈ (b.step op).1.inflight, ∃ e ∈ b.inflight,
        e1.Eval = e.Eval ∧ e1.ReceiptHandle = e.ReceiptHandle) ∨
    ∃ eval entry, eval ∈ b.ready ∧ entry.Eval = eval ∧ entry.ReceiptHandle = b.handles ∧
      deliveries [(b.step op).2] = [(eval.ID, b.handles)] ∧
      (b.step op).1.handles = b.handles + 1 ∧
      (b.step op).1.inflight = b.inflight ++ [entry] := by
  cases op with
  | Enqueue now eval =>
    obtain ⟨h1, h2, _, _⟩ := enqueue_frame b now eval
    refine Or.inl ⟨rfl, h2, fun e1 he => ⟨e1, ?_, rfl, rfl⟩⟩
    simp only [Broker.step] at he
    rw [h1] at he
    exact he
  | EnqueueAll now items =>
    obtain ⟨h1, h2, _, _⟩ := enqueueAll_frame b now items
    refine Or.inl ⟨rfl, h2, fun e1 he => ⟨e1, ?_, rfl, rfl⟩⟩
    simp only [Broker.step] at he
    rw [h1] at he
    exact he
  | Dequeue now types =>
    simp only [Broker.step]
    rcases dequeue_cases b now types with hd | ⟨eval, hmem, _, hd⟩
    · rw [hd]
      exact Or.inl ⟨rfl, rfl, fun e1 he => ⟨e1, he, rfl, rfl⟩⟩
    · rw [hd]
      exact Or.inr ⟨eval, _, hmem, rfl, rfl, rfl, rfl, rfl⟩
  | Ack now evalID handle =>
    simp only [Broker.step]
    refine Or.inl ⟨deliveries_ofError _, ?_⟩
    rcases ack_cases b now evalID handle with ⟨err, _, hack⟩ | ⟨entry, _, _, _, _, _, h6, h7, _⟩
    · rw [hack]
      exact ⟨rfl, fun e1 he => ⟨e1, he, rfl, rfl⟩⟩
    · refine ⟨h7, fun e1 he => ⟨e1, ?_, rfl, rfl⟩⟩
      rw [h6] at he
      exact (List.mem_filter.1 he).1
  | Nack evalID handle =>
    simp only [Broker.step]
    refine Or.inl ⟨deliveries_ofError _, ?_⟩
    unfold Broker.Nack
    split
    · exact ⟨rfl, fun e1 he => ⟨e1, he, rfl, rfl⟩⟩
    · exact ⟨rfl, fun e1 he => ⟨e1, (List.mem_filter.1 he).1, rfl, rfl⟩⟩
  | InflightExtend now evalID handle =>
    simp only [Broker.step]
    refine Or.inl ⟨deliveries_ofError _, ?_⟩
    unfold Broker.InflightExtend
    split
    · exact ⟨rfl, fun e1 he => ⟨e1, he, rfl, rfl⟩⟩
    · refine ⟨rfl, fun e1 he => ?_⟩
      obtain ⟨e, hmem, hmap⟩ := List.mem_map.1 he
      refine ⟨e, hmem, ?_⟩
      rw [← hmap]
      split <;> exact ⟨rfl, rfl⟩
  | Tick now =>
    exact Or.inl ⟨rfl, rfl, fun e1 he => ⟨e1, (List.mem_filter.1 he).1, rfl, rfl⟩⟩

/-- In a serialised broker a ready evaluation is not inflight. -/
theorem inflight_ne_ready (b : Broker) (h : b.serialised) (eval : Evaluation)
    (entry : InflightEntry) (hr : eval ∈ b.ready) (hi : entry ∈ b.inflight) :
    entry.Eval.ID ≠ eval.ID := by
  intro heq
  have h1 : 0 < b.ready.countP (fun y => y.ID == eval.ID) :=
    List.countP_pos_iff.2 ⟨eval, hr, by simp⟩
  have h2 : 0 < b.inflight.countP (fun y => y.Eval.ID == eval.ID) :=
    List.countP_pos_iff.2 ⟨entry, hi, by simp [heq]⟩
  have := h.2 eval.ID
  simp only [Broker.activeCount] at this
  omega

/-- Every call keeps the receipt handles fresh. -/
theorem step_handlesFresh (b : Broker) (op : BrokerOp) (ds : List (String × ReceiptHandle))
    (hs : b.serialised) (hf : b.handlesFresh ds) :
    (b.step op).1.handlesFresh (ds ++ deliveries [(b.step op).2]) := by
  obtain ⟨f1, f2, f3⟩ := hf
  rcases step_inflight b op with ⟨h1, h2, h3⟩ | ⟨eval, entry, hr, he, hh, h1, h2, h3⟩
  · rw [h1, List.append_nil]
    refine ⟨fun d hd => h2 ▸ f1 d hd, f2, fun e1 he1 => ?_⟩
    obtain ⟨e, hmem, heq1, heq2⟩ := h3 e1 he1
    rw [heq1, heq2]
    exact f3 e hmem
  · rw [h1]
    refine ⟨fun d hd => ?_, ?_, fun e1 he1 => ?_⟩
    · rw [h2]
      rcases List.mem_append.1 hd with hd | hd
      · exact Nat.lt_succ_of_lt (f1 d hd)
      · simp only [List.mem_singleton] at hd
        subst hd
        exact Nat.lt_succ_self _
    · rw [List.pairwise_append]
      refine ⟨f2, List.pairwise_singleton _ _, fun a ha c hc => ?_⟩
      simp only [List.mem_singleton] at hc
      subst hc
      exact f1 a ha
    · rw [h3] at he1
      rcases List.mem_append.1 he1 with hin | hin
      · refine ⟨List.mem_append_left _ (f3 e1 hin).1, fun handle hd => ?_⟩
        rcases List.mem_append.1 hd with hd | hd
        · exact (f3 e1 hin).2 handle hd
        · simp only [List.mem_singleton, Prod.mk.injEq] at hd
          exact absurd hd.1 (inflight_ne_ready b hs eval e1 hr hin)
      · simp only [List.mem_singleton] at hin
        subst hin
        rw [he, hh]
        refine ⟨List.mem_append_right _ (List.mem_singleton.2 rfl), fun handle hd => ?_⟩
        rcases List.mem_append.1 hd with hd | hd
        · exact Nat.le_of_lt (f1 _ hd)
        · simp only [List.mem_singleton, Prod.mk.injEq] at hd
          exact Nat.le_of_eq hd.2

/-- Every sequence of calls keeps the receipt handles fresh. -/
theorem run_handlesFresh (b : Broker) (ops : List BrokerOp) (ds : List (String × ReceiptHandle))
    (hs : b.serialised) (hf : b.handlesFresh ds) :
    (b.run ops).1.handlesFresh (ds ++ deliveries (b.run ops).2) := by
  induction ops generalizing b ds with
  | nil => simpa [Broker.run, deliveries] using hf
  | cons op ops ih =>
    have := ih (b.step op).1 (ds ++ deliveries [(b.step op).2]) (step_serialised b op hs)
      (step_handlesFresh b op ds hs hf)
    simp only [Broker.run]
    rw [deliveries_cons, ← List.append_assoc]
    exact this

/-- The handles of the empty broker are fresh. -/
theorem new_handlesFresh (visibility : Int) (maxRetries : Nat) :
    (Broker.new visibility maxRetries).handlesFresh [] :=
  ⟨fun _ h => by simp at h, List.Pairwise.nil, fun _ h => by simp [Broker.new] at h⟩

/-- In a serialised broker every inflight entry is the one found for its ID. -/
theorem inflight_lookup (b : Broker) (hs : b.serialised) (entry : InflightEntry)
    (h : entry ∈ b.inflight) : b.Inflight entry.Eval.ID = some entry := by
  unfold Broker.Inflight
  apply find_of_unique _ _ _ _ h (by simp)
  have := hs.2 entry.Eval.ID
  simp only [Broker.activeCount] at this
  omega

/-- `Ack` and `Nack` with a handle other than the current one return
ErrWrongReceipt and change nothing. -/
theorem wrong_receipt (b : Broker) (entry : InflightEntry) (handle : ReceiptHandle)
    (hl : b.Inflight entry.Eval.ID = some entry) (hne : handle ≠ entry.ReceiptHandle) :
    (∀ now, b.Ack now entry.Eval.ID handle = (b, some BrokerError.ErrWrongReceipt)) ∧
      b.Nack entry.Eval.ID handle = (b, some BrokerError.ErrWrongReceipt) := by
  have hc : b.checkReceipt entry.Eval.ID handle = .error BrokerError.ErrWrongReceipt := by
    unfold Broker.checkReceipt
    rw [hl]
    simp [Ne.symm hne]
  exact ⟨fun now => by unfold Broker.Ack; rw [hc], by unfold Broker.Nack; rw [hc]⟩

/-- `Ack` succeeds exactly with the current handle of an inflight evaluation,
removes the entry then, and changes nothing when it fails. -/
theorem ack_matches (b : Broker) (now : Int) (evalID : String) (handle : ReceiptHandle) :
    ((b.Ack now evalID handle).2 = none ↔
      ∃ entry, b.Inflight evalID = some entry ∧ entry.ReceiptHandle = handle) ∧
    ((b.Ack now evalID handle).2 = none → (b.Ack now evalID handle).1.Inflight evalID = none) ∧
    ((b.Ack now evalID handle).2 ≠ none → (b.Ack now evalID handle).1 = b) := by
  rcases ack_cases b now evalID handle with ⟨err, hc, hack⟩ | ⟨entry, h1, h2, _, _, h5, h6, _, _⟩
  · rw [hack]
    refine ⟨⟨fun h => by simp at h, fun ⟨entry, hl, hh⟩ => ?_⟩, fun h => by simp at h,
      fun _ => rfl⟩
    unfold Broker.checkReceipt at hc
    rw [hl] at hc
    simp [hh] at hc
  · refine ⟨⟨fun _ => ⟨entry, h1, h2⟩, fun _ => h5⟩, fun _ => ?_, fun h => absurd h5 h⟩
    unfold Broker.Inflight
    rw [h6, List.find?_eq_none]
    intro x hx
    have := (List.mem_filter.1 hx).2
    simpa using this

/-- C17: in every state of the evaluation broker reached from the empty broker
by calls of Enqueue, EnqueueAll, Dequeue, Ack, Nack, InflightExtend and the
janitor, at most one evaluation of a job is inflight (and at most one is ready,
delayed or inflight); an evaluation enqueued for a job that has an evaluation
in the broker goes to the per-job queue; an evaluation in the per-job queue is
not ready and no Dequeue delivers it; and it leaves the per-job queue only by
an Ack, with the current handle, of the inflight evaluation of its job, which
makes it ready. -/
theorem broker_one_inflight_per_job (visibility : Int) (maxRetries : Nat)
    (ops : List BrokerOp) (b : Broker)
    (hrun : ((Broker.new visibility maxRetries).run ops).1 = b) :
    (∀ jobID, (b.inflight.filter (fun x => x.Eval.JobID == jobID)).length ≤ 1) ∧
    (∀ jobID, b.activeCount (fun x => x.JobID == jobID) ≤ 1) ∧
    (∀ now eval, b.hasEval eval.ID = false → b.hasJob eval.JobID = true →
      b.Enqueue now eval = { b with pending := b.pending ++ [eval] }) ∧
    (∀ x ∈ b.pending, x ∉ b.ready ∧
      ∀ now types handle, (b.Dequeue now types).2 ≠ some (x, handle)) ∧
    (∀ x ∈ b.pending, ∀ op, x ∉ (b.step op).1.pending →
      ∃ now entry, op = BrokerOp.Ack now entry.Eval.ID entry.ReceiptHandle ∧
        b.Inflight entry.Eval.ID = some entry ∧ entry.Eval.JobID = x.JobID ∧
        x ∈ (b.step op).1.ready) := by
  have hs : b.serialised := hrun ▸ run_serialised _ ops (new_serialised visibility maxRetries)
  refine ⟨fun jobID => ?_, hs.1, fun now eval => enqueue_second b now eval,
    fun x hx => ⟨not_ready_of_pending b hs x hx,
      fun now types handle => dequeue_not_pending b hs now types x hx handle⟩,
    fun x hx op => step_pending_leaves b op x hx⟩
  have := hs.1 jobID
  rw [← List.countP_eq_length_filter]
  simp only [Broker.activeCount] at this
  omega

/-- C17, at an instance: after two evaluations of one job are enqueued and one
is dequeued, the second waits in the per-job queue and no Dequeue delivers
it. -/
theorem broker_one_inflight_per_job_witness :
    ((Broker.new 60 3).run serialisedOps).1 = serialisedBroker ∧
    secondEvaluation ∈ serialisedBroker.pending ∧
    (serialisedBroker.inflight.filter (fun x => x.Eval.JobID == "job-1")).length ≤ 1 ∧
    ∀ now types handle,
      (serialisedBroker.Dequeue now types).2 ≠ some (secondEvaluation, handle) :=
  ⟨rfl, by decide,
    (broker_one_inflight_per_job 60 3 serialisedOps serialisedBroker rfl).1 "job-1",
    ((broker_one_inflight_per_job 60 3 serialisedOps serialisedBroker rfl).2.2.2.1
      secondEvaluation (by decide)).2⟩

/-- C18: over every run of the evaluation broker from the empty broker, each
delivery carries a receipt handle larger than the handles of all earlier
deliveries, so different from every earlier handle of the same evaluation; an
inflight entry carries the handle of the latest delivery of its evaluation, and
Ack and Nack with the handle of an earlier delivery return ErrWrongReceipt and
leave the broker as it was; Ack succeeds exactly when the handle is the current
one of the inflight entry, removes the entry then, and changes nothing when it
fails. -/
theorem broker_receipt_handles (visibility : Int) (maxRetries : Nat) (ops : List BrokerOp)
    (b : Broker) (results : List BrokerResult)
    (hrun : (Broker.new visibility maxRetries).run ops = (b, results)) :
    (deliveries results).Pairwise (fun d1 d2 => d1.2 < d2.2) ∧
    (∀ entry ∈ b.inflight,
      b.Inflight entry.Eval.ID = some entry ∧
      (entry.Eval.ID, entry.ReceiptHandle) ∈ deliveries results ∧
      ∀ old, (entry.Eval.ID, old) ∈ deliveries results → old ≠ entry.ReceiptHandle →
        old < entry.ReceiptHandle ∧
        (∀ now, b.Ack now entry.Eval.ID old = (b, some BrokerError.ErrWrongReceipt)) ∧
        b.Nack entry.Eval.ID old = (b, some BrokerError.ErrWrongReceipt)) ∧
    (∀ now evalID handle,
      ((b.Ack now evalID handle).2 = none ↔
        ∃ entry, b.Inflight evalID = some entry ∧ entry.ReceiptHandle = handle) ∧
      ((b.Ack now evalID handle).2 = none →
        (b.Ack now evalID handle).1.Inflight evalID = none) ∧
      ((b.Ack now evalID handle).2 ≠ none → (b.Ack now evalID handle).1 = b)) := by
  have h1 : ((Broker.new visibility maxRetries).run ops).1 = b := by rw [hrun]
  have h2 : ((Broker.new visibility maxRetries).run ops).2 = results := by rw [hrun]
  have hs : b.serialised := h1 ▸ run_serialised _ ops (new_serialised visibility maxRetries)
  have hf := run_handlesFresh _ ops [] (new_serialised visibility maxRetries)
    (new_handlesFresh visibility maxRetries)
  rw [h1, h2, List.nil_append] at hf
  obtain ⟨_, f2, f3⟩ := hf
  refine ⟨f2, fun entry he => ?_, fun now evalID handle => ack_matches b now evalID handle⟩
  have hl := inflight_lookup b hs entry he
  refine ⟨hl, (f3 entry he).1, fun old hold hne => ?_⟩
  have hw := wrong_receipt b entry old hl hne
  exact ⟨lt_of_le_of_ne ((f3 entry he).2 old hold) hne, hw.1, hw.2⟩

/-- C18, at an instance: an evaluation is delivered with handle 0, returned by
a Nack and delivered again with handle 1; Ack and Nack with handle 0 are then
rejected and change nothing. -/
theorem broker_receipt_handles_witness :
    (Broker.new 60 3).run redeliveryOps = (redeliveredBroker, redeliveryResults) ∧
    (∀ now, redeliveredBroker.Ack now "eval-a" 0 =
      (redeliveredBroker, some BrokerError.ErrWrongReceipt)) ∧
    redeliveredBroker.Nack "eval-a" 0 =
      (redeliveredBroker, some BrokerError.ErrWrongReceipt) :=
  ⟨rfl,
    ((broker_receipt_handles 60 3 redeliveryOps redeliveredBroker redeliveryResults rfl).2.1
      redeliveredEntry (by decide)).2.2 0 (by decide) (by decide) |>.2⟩

/-! ## Properties of expiry and of the terminal states -/

/-- C22: an execution is expired at a time exactly when its compute state is
BidAccepted, Running or Publishing and its ModifyTime lies strictly before that
time; so an execution in a terminal compute state is not expired, and neither
is one modified at or after that time. -/
theorem isExpired_iff (e : Execution) (t : Time) :
    (e.IsExpired t = true ↔
      (e.ComputeState.StateType = ExecutionStateBidAccepted ∨
        e.ComputeState.StateType = ExecutionStateRunning ∨
        e.ComputeState.StateType = ExecutionStatePublishing) ∧
      e.ModifyTime < t.unixNano) ∧
    (e.IsTerminalComputeState = true → e.IsExpired t = false) ∧
    (t.unixNano ≤ e.ModifyTime → e.IsExpired t = false) := by
  have key : e.IsExpired t = true ↔
      (e.ComputeState.StateType = ExecutionStateBidAccepted ∨
        e.ComputeState.StateType = ExecutionStateRunning ∨
        e.ComputeState.StateType = ExecutionStatePublishing) ∧
      e.ModifyTime < t.unixNano := by
    simp [Execution.IsExpired, ExecutionStateType.IsExecuting, Execution.GetModifyTime,
      Time.Before, Time.UTC, timeUnix, or_assoc]
  refine ⟨key, fun hterm => ?_, fun hle => ?_⟩
  · rw [Bool.eq_false_iff]
    intro h
    obtain ⟨hs, _⟩ := key.1 h
    unfold Execution.IsTerminalComputeState at hterm
    rcases hs with hs | hs | hs <;> rw [hs] at hterm <;> simp at hterm
  · rw [Bool.eq_false_iff]
    intro h
    have := (key.1 h).2
    omega

/-- C22, at an instance: a running execution modified at instant 1000 is
expired at instant 1001 and not at instant 1000. -/
theorem isExpired_iff_witness :
    runningExecution.IsExpired { unixNano := 1001 } = true ∧
    runningExecution.IsExpired { unixNano := 1000 } = false :=
  ⟨(isExpired_iff runningExecution { unixNano := 1001 }).1.2 ⟨Or.inr (Or.inl rfl), by decide⟩,
    (isExpired_iff runningExecution { unixNano := 1000 }).2.2 (by decide)⟩

/-- C28: the switch of `Execution.IsTerminalComputeState` and the method
`ExecutionStateType.IsTerminal` give the same answer on every state; a discarded
execution is in a terminal compute state; and a terminal compute state is not
discarded exactly when it is Completed. -/
theorem isTerminalComputeState_agrees (e : Execution) (s : ExecutionStateType)
    (hs : e.ComputeState.StateType = s) :
    e.IsTerminalComputeState = s.IsTerminal ∧
    (e.IsDiscarded = true → e.IsTerminalComputeState = true) ∧
    ((e.IsTerminalComputeState = true ∧ e.IsDiscarded = false) ↔
      s = ExecutionStateCompleted) := by
  subst hs
  unfold Execution.IsTerminalComputeState Execution.IsDiscarded ExecutionStateType.IsTerminal
  refine ⟨?_, ?_, ?_⟩
  · split_ifs <;> simp_all
  · split_ifs <;> simp_all
  · split_ifs <;> simp_all

/-- C28, at an instance: the two predicates agree on a running execution. -/
theorem isTerminalComputeState_agrees_witness :
    runningExecution.IsTerminalComputeState = ExecutionStateType.IsTerminal ExecutionStateRunning :=
  (isTerminalComputeState_agrees runningExecution ExecutionStateRunning rfl).1

/-! ## Properties of spec configs and of the job history types -/

/-- The first element left by `dropWhile` fails the test. -/
theorem dropWhile_head {α : Type} (p : α → Bool) (l : List α) (c : α)
    (h : (l.dropWhile p).head? = some c) : p c = false := by
  induction l with
  | nil => simp at h
  | cons x l ih =>
    by_cases hx : p x = true
    · rw [List.dropWhile_cons_of_pos hx] at h
      exact ih h
    · rw [List.dropWhile_cons_of_neg hx] at h
      simp at h
      subst h
      simpa using hx

/-- A list whose first element fails the test is left alone by `dropWhile`. -/
theorem dropWhile_of_head {α : Type} (p : α → Bool) (l : List α)
    (h : ∀ c, l.head? = some c → p c = false) : l.dropWhile p = l := by
  cases l with
  | nil => rfl
  | cons x l =>
    have hx := h x rfl
    rw [List.dropWhile_cons_of_neg (by simp [hx])]

/-- Leading elements that pass the test are dropped by `dropWhile`. -/
theorem dropWhile_all_append {α : Type} (p : α → Bool) (a b : List α)
    (ha : ∀ c ∈ a, p c = true) : (a ++ b).dropWhile p = b.dropWhile p := by
  induction a with
  | nil => rfl
  | cons x a ih =>
    rw [List.cons_append, List.dropWhile_cons_of_pos (ha x (List.mem_cons_self _ _))]
    exact ih (fun c hc => ha c (List.mem_cons_of_mem _ hc))

/-- The result of `strings.TrimSpace` neither starts nor ends with white space. -/
theorem trimSpaceChars_ends (cs : List Char) :
    (∀ c, (trimSpaceChars cs).head? = some c → unicodeIsSpace c = false) ∧
    (∀ c, (trimSpaceChars cs).getLast? = some c → unicodeIsSpace c = false) := by
  unfold trimSpaceChars
  constructor
  · intro c hc
    have hpre : ((cs.dropWhile unicodeIsSpace).reverse.dropWhile unicodeIsSpace).reverse <+:
        cs.dropWhile unicodeIsSpace := by
      have := List.dropWhile_suffix unicodeIsSpace (l := (cs.dropWhile unicodeIsSpace).reverse)
      rw [← List.reverse_prefix] at this
      simpa using this
    obtain ⟨t, ht⟩ := hpre
    apply dropWhile_head unicodeIsSpace cs c
    rw [← ht]
    cases hr : ((cs.dropWhile unicodeIsSpace).reverse.dropWhile unicodeIsSpace).reverse with
    | nil => rw [hr] at hc; simp at hc
    | cons x r => rw [hr] at hc; simpa using hc
  · intro c hc
    rw [List.getLast?_reverse] at hc
    exact dropWhile_head unicodeIsSpace _ c hc

/-- A list that neither starts nor ends with white space is left alone by
`strings.TrimSpace`. -/
theorem trimSpaceChars_of_ends (cs : List Char)
    (h1 : ∀ c, cs.head? = some c → unicodeIsSpace c = false)
    (h2 : ∀ c, cs.getLast? = some c → unicodeIsSpace c = false) :
    trimSpaceChars cs = cs := by
  unfold trimSpaceChars
  rw [dropWhile_of_head unicodeIsSpace cs h1,
    dropWhile_of_head unicodeIsSpace cs.reverse (by rw [List.head?_reverse]; exact h2),
    List.reverse_reverse]

/-- `strings.TrimSpace` applied twice is `strings.TrimSpace`. -/
theorem trimSpaceChars_idem (cs : List Char) :
    trimSpaceChars (trimSpaceChars cs) = trimSpaceChars cs :=
  trimSpaceChars_of_ends _ (trimSpaceChars_ends cs).1 (trimSpaceChars_ends cs).2

/-- White space around a text without white space is what `strings.TrimSpace`
drops. -/
theorem trimSpaceChars_padded (pre core post : List Char)
    (hpre : ∀ c ∈ pre, unicodeIsSpace c = true) (hpost : ∀ c ∈ post, unicodeIsSpace c = true)
    (hcore : ∀ c ∈ core, unicodeIsSpace c = false) :
    trimSpaceChars (pre ++ core ++ post) = core := by
  have hdrop : ∀ l : List Char, (∀ c ∈ l, unicodeIsSpace c = true) →
      l.dropWhile unicodeIsSpace = [] := by
    intro l hl
    have := dropWhile_all_append unicodeIsSpace l [] hl
    simpa using this
  unfold trimSpaceChars
  rw [List.append_assoc, dropWhile_all_append unicodeIsSpace pre _ hpre]
  cases core with
  | nil =>
    simp only [List.nil_append]
    rw [hdrop post hpost]
    rfl
  | cons x core =>
    have hx := hcore x (List.mem_cons_self _ _)
    rw [List.cons_append, List.dropWhile_cons_of_neg (by simp [hx]), ← List.cons_append,
      List.reverse_append,
      dropWhile_all_append unicodeIsSpace post.reverse _
        (fun c hc => hpost c (List.mem_reverse.1 hc)),
      dropWhile_of_head unicodeIsSpace _ (by
        intro c hc
        rw [List.head?_reverse] at hc
        exact hcore c (List.mem_of_getLast?_eq_some hc)),
      List.reverse_reverse]

/-- White space has no lower case of its own. -/
theorem toLower_of_isSpace (c : Char) (h : unicodeIsSpace c = true) : c.toLower = c := by
  unfold unicodeIsSpace at h
  unfold Char.toLower
  simp only [Bool.or_eq_true, Bool.and_eq_true, decide_eq_true_eq, beq_iff_eq] at h
  have : ¬ (c.toNat ≥ 65 ∧ c.toNat ≤ 90) := by omega
  simp [this]

/-- The three names and the loop of `UnmarshalText`, unrolled. -/
theorem unmarshalText_unrolled (fold : Char → Char) (s : JobHistoryType) (text : Text) :
    JobHistoryType.UnmarshalText fold s text =
      if stringsEqualFold fold "Undefined" (stringsTrimSpace text) then
        (JobHistoryTypeUndefined, none)
      else if stringsEqualFold fold "JobLevel" (stringsTrimSpace text) then
        (JobHistoryTypeJobLevel, none)
      else if stringsEqualFold fold "ExecutionLevel" (stringsTrimSpace text) then
        (JobHistoryTypeExecutionLevel, none)
      else (s, none) := by
  have h0 : JobHistoryType.String 0 = "Undefined" := by decide
  have h1 : JobHistoryType.String (0 + 1) = "JobLevel" := by decide
  have h2 : JobHistoryType.String (0 + 1 + 1) = "ExecutionLevel" := by decide
  simp only [JobHistoryType.UnmarshalText, unmarshalLoop, h0, h1, h2]
  split_ifs <;> simp_all

/-- Folding does not tell a text from its re-casing. -/
theorem equalFold_of_recased (fold : Char → Char) (hfold : ∀ c, fold c.toLower = fold c)
    (core name : List Char) (h : recased core name) :
    stringsEqualFold fold (String.mk name) (String.mk core) = true := by
  have hmap : ∀ l : List Char, l.map fold = (l.map Char.toLower).map fold := by
    intro l
    rw [List.map_map]
    apply List.map_congr_left
    intro c _
    exact (hfold c).symm
  unfold stringsEqualFold
  simp only [beq_iff_eq]
  rw [hmap name, hmap core, h]

/-- Texts of different lengths are not equal under folding. -/
theorem equalFold_length (fold : Char → Char) (s t : String)
    (h : s.data.length ≠ t.data.length) : stringsEqualFold fold s t = false := by
  unfold stringsEqualFold
  rw [beq_eq_false_iff_ne]
  intro heq
  apply h
  have := congrArg List.length heq
  simpa using this

/-- A re-casing of a text without white space has no white space. -/
theorem recased_no_space (core name : List Char) (h : recased core name)
    (hname : ∀ c ∈ name.map Char.toLower, unicodeIsSpace c = false) :
    ∀ c ∈ core, unicodeIsSpace c = false := by
  intro c hc
  by_contra hsp
  have hsp1 : unicodeIsSpace c = true := by simpa using hsp
  have hmem : c.toLower ∈ core.map Char.toLower := List.mem_map_of_mem _ hc
  rw [h] at hmem
  have := hname _ hmem
  rw [toLower_of_isSpace c hsp1] at this
  rw [this] at hsp1
  exact absurd hsp1 (by simp)

/-- Putting a character in lower case twice is putting it in lower case. -/
theorem toLower_toLower (c : Char) : c.toLower.toLower = c.toLower := by
  by_cases h : c.toNat ≥ 65 ∧ c.toNat ≤ 90
  · have hc : c = Char.ofNat c.toNat := (Char.ofNat_toNat c).symm
    generalize c.toNat = n at h hc
    subst hc
    obtain ⟨h1, h2⟩ := h
    interval_cases n <;> decide
  · have : c.toLower = c := by
      unfold Char.toLower
      simp [h]
    rw [this, this]

/-- C23: `Normalize` on a non-nil config trims the Type and leaves a non-nil
Params map with the entries it had: the Type then neither starts nor ends with
white space, a nil and an empty Params map give the same result, and
normalising twice gives what normalising once gives. -/
theorem normalize_spec (s : SpecConfig) :
    SpecConfig.Normalize (some s) =
      some { Typ := stringsTrimSpace s.Typ, Params := some (s.Params.getD []) } ∧
    (∀ c, (stringsTrimSpace s.Typ).data.head? = some c → unicodeIsSpace c = false) ∧
    (∀ c, (stringsTrimSpace s.Typ).data.getLast? = some c → unicodeIsSpace c = false) ∧
    SpecConfig.Normalize (some { s with Params := none }) =
      SpecConfig.Normalize (some { s with Params := some [] }) ∧
    SpecConfig.Normalize (SpecConfig.Normalize (some s)) = SpecConfig.Normalize (some s) := by
  have hform : ∀ t : SpecConfig, SpecConfig.Normalize (some t) =
      some { Typ := stringsTrimSpace t.Typ, Params := some (t.Params.getD []) } := by
    intro t
    rcases t with ⟨typ, params⟩
    rcases params with _ | params
    · simp [SpecConfig.Normalize]
    · cases params with
      | nil => simp [SpecConfig.Normalize]
      | cons p ps => simp [SpecConfig.Normalize]
  refine ⟨hform s, (trimSpaceChars_ends s.Typ.data).1, (trimSpaceChars_ends s.Typ.data).2,
    by rw [hform, hform]; rfl, ?_⟩
  rw [hform s, hform]
  simp only [stringsTrimSpace, trimSpaceChars_idem, Option.getD_some]

/-- C23, at an instance: a padded Type with a nil Params map. -/
theorem normalize_spec_witness :
    SpecConfig.Normalize (some { Typ := "  docker \n", Params := none }) =
      some { Typ := "docker", Params := some [] } :=
  (normalize_spec { Typ := "  docker \n", Params := none }).1.trans (by decide)

/-- C29: for each of Undefined, JobLevel and ExecutionLevel, `MarshalText`
returns the name of the type and no error, and `UnmarshalText` of that text
gives the type back whatever the receiver held, also when the name is re-cased
and surrounded by white space; a text that matches none of the three names
leaves the receiver unchanged, and no error is returned. -/
theorem jobHistoryType_roundtrip (fold : Char → Char)
    (hfold : ∀ c, fold c.toLower = fold c) (s : JobHistoryType) :
    (∀ typ : JobHistoryType,
      typ = JobHistoryTypeUndefined ∨ typ = JobHistoryTypeJobLevel ∨
        typ = JobHistoryTypeExecutionLevel →
      typ.MarshalText = (typ.String, none) ∧
      JobHistoryType.UnmarshalText fold s typ.MarshalText.1 = (typ, none) ∧
      ∀ pre core post : List Char,
        (∀ c ∈ pre, unicodeIsSpace c = true) → (∀ c ∈ post, unicodeIsSpace c = true) →
        recased core typ.String.data →
        JobHistoryType.UnmarshalText fold s (String.mk (pre ++ core ++ post)) = (typ, none)) ∧
    (∀ text : Text,
      (∀ typ : JobHistoryType,
        typ = JobHistoryTypeUndefined ∨ typ = JobHistoryTypeJobLevel ∨
          typ = JobHistoryTypeExecutionLevel →
        stringsEqualFold fold typ.String (stringsTrimSpace text) = false) →
      JobHistoryType.UnmarshalText fold s text = (s, none)) := by
  have hpadded : ∀ (typ : JobHistoryType) (pre core post : List Char),
      typ = JobHistoryTypeUndefined ∨ typ = JobHistoryTypeJobLevel ∨
        typ = JobHistoryTypeExecutionLevel →
      (∀ c ∈ pre, unicodeIsSpace c = true) → (∀ c ∈ post, unicodeIsSpace c = true) →
      recased core typ.String.data →
      JobHistoryType.UnmarshalText fold s (String.mk (pre ++ core ++ post)) = (typ, none) := by
    intro typ pre core post htyp hpre hpost hcore
    have hlen : core.length = typ.String.data.length := by
      have := congrArg List.length hcore
      simpa using this
    have hnospace : ∀ c ∈ typ.String.data.map Char.toLower, unicodeIsSpace c = false := by
      rcases htyp with rfl | rfl | rfl <;> decide
    have htrim : stringsTrimSpace (String.mk (pre ++ core ++ post)) = String.mk core := by
      unfold stringsTrimSpace
      rw [trimSpaceChars_padded pre core post hpre hpost
        (recased_no_space core _ hcore hnospace)]
    have hmatch := equalFold_of_recased fold hfold core typ.String.data hcore
    rw [unmarshalText_unrolled, htrim]
    rcases htyp with rfl | rfl | rfl
    · have h0 : JobHistoryType.String JobHistoryTypeUndefined = "Undefined" := by decide
      rw [h0] at hmatch
      rw [if_pos hmatch]
    · have h1 : JobHistoryType.String JobHistoryTypeJobLevel = "JobLevel" := by decide
      rw [h1] at hmatch hlen
      have hne : stringsEqualFold fold "Undefined" (String.mk core) = false :=
        equalFold_length fold _ _ (by rw [hlen]; decide)
      rw [hne, hmatch]
      rfl
    · have h2 : JobHistoryType.String JobHistoryTypeExecutionLevel = "ExecutionLevel" := by
        decide
      rw [h2] at hmatch hlen
      have hne0 : stringsEqualFold fold "Undefined" (String.mk core) = false :=
        equalFold_length fold _ _ (by rw [hlen]; decide)
      have hne1 : stringsEqualFold fold "JobLevel" (String.mk core) = false :=
        equalFold_length fold _ _ (by rw [hlen]; decide)
      rw [hne0, hne1, hmatch]
      rfl
  refine ⟨fun typ htyp => ⟨rfl, ?_, fun pre core post => hpadded typ pre core post htyp⟩,
    fun text hnone => ?_⟩
  · have := hpadded typ [] typ.String.data [] htyp (fun _ h => by simp at h)
      (fun _ h => by simp at h) rfl
    simpa [JobHistoryType.MarshalText] using this
  · rw [unmarshalText_unrolled]
    have h0 := hnone JobHistoryTypeUndefined (Or.inl rfl)
    have h1 := hnone JobHistoryTypeJobLevel (Or.inr (Or.inl rfl))
    have h2 := hnone JobHistoryTypeExecutionLevel (Or.inr (Or.inr rfl))
    have e0 : JobHistoryType.String JobHistoryTypeUndefined = "Undefined" := by decide
    have e1 : JobHistoryType.String JobHistoryTypeJobLevel = "JobLevel" := by decide
    have e2 : JobHistoryType.String JobHistoryTypeExecutionLevel = "ExecutionLevel" := by decide
    rw [e0] at h0
    rw [e1] at h1
    rw [e2] at h2
    rw [h0, h1, h2]
    rfl

/-- C29, at an instance: with the folding of ASCII letters, the text
" joblevel" followed by a line feed is read as JobLevel, and the text "queued"
leaves the receiver at ExecutionLevel. -/
theorem jobHistoryType_roundtrip_witness :
    JobHistoryType.UnmarshalText Char.toLower JobHistoryTypeUndefined " joblevel\n" =
      (JobHistoryTypeJobLevel, none) ∧
    JobHistoryType.UnmarshalText Char.toLower JobHistoryTypeExecutionLevel "queued" =
      (JobHistoryTypeExecutionLevel, none) :=
  ⟨((jobHistoryType_roundtrip Char.toLower toLower_toLower JobHistoryTypeUndefined).1
      JobHistoryTypeJobLevel (Or.inr (Or.inl rfl))).2.2
      [Char.ofNat 32] "joblevel".data [Char.ofNat 10] (by decide) (by decide)
      (by unfold recased; decide),
    (jobHistoryType_roundtrip Char.toLower toLower_toLower JobHistoryTypeExecutionLevel).2
      "queued" (by intro typ htyp; rcases htyp with rfl | rfl | rfl <;> decide)⟩

/-! ## Properties of copying a spec config -/

/-- Reading a map of the heap after an allocation. -/
theorem read_alloc (h : MapHeap) (entries : List (String × String)) (ref : Nat) :
    (h.alloc entries).1.read ref =
      if ref = h.maps.length then entries else h.read ref := by
  unfold MapHeap.alloc MapHeap.read
  simp only [List.getD_eq_getElem?_getD]
  by_cases hr : ref = h.maps.length
  · subst hr
    simp
  · rw [if_neg hr]
    by_cases hlt : ref < h.maps.length
    · rw [List.getElem?_append_left hlt]
    · have h1 : (h.maps ++ [entries]).length ≤ ref := by
        simp only [List.length_append, List.length_singleton]
        omega
      have h2 : h.maps.length ≤ ref := by omega
      rw [List.getElem?_eq_none h1, List.getElem?_eq_none h2]

/-- Reading a map of the heap after an assignment through a reference. -/
theorem read_assign (h : MapHeap) (ref other : Nat) (key value : String)
    (hne : other ≠ ref) : (h.assign ref key value).read other = h.read other := by
  unfold MapHeap.assign MapHeap.read
  simp only [List.getD_eq_getElem?_getD]
  rw [List.getElem?_set_ne (Ne.symm hne)]

/-- Reading the assigned map of the heap. -/
theorem read_assign_self (h : MapHeap) (ref : Nat) (key value : String)
    (hlt : ref < h.maps.length) :
    (h.assign ref key value).read ref = mapAssign (h.read ref) key value := by
  unfold MapHeap.assign
  conv_lhs => unfold MapHeap.read
  simp only [List.getD_eq_getElem?_getD]
  rw [List.getElem?_set_self hlt]
  simp [MapHeap.read, List.getD_eq_getElem?_getD]

/-- The value just assigned is the value read. -/
theorem lookup_mapAssign (m : List (String × String)) (key value : String) :
    (mapAssign m key value).lookup key = some value := by
  simp [mapAssign, List.lookup]

/-- C30: `Copy` of a nil config is nil and `Copy` of a non-nil config is not;
the copy has the Type and the Params entries of the original, and its Params is
nil exactly when the original's is; after `WithParam` on the copy the original
still has the entries it had, and after `WithParam` on the original the copy
still has them; in both cases the parameter set is read back through the
receiver. -/
theorem copy_independent (h : MapHeap) (sv : SpecConfigRef) (halloc : sv.allocated h) :
    (SpecConfigRef.Copy h none).2 = none ∧
    ∃ h1 cv, SpecConfigRef.Copy h (some sv) = (h1, some cv) ∧
      cv.Typ = sv.Typ ∧ cv.entries h1 = sv.entries h ∧ sv.entries h1 = sv.entries h ∧
      (cv.Params = none ↔ sv.Params = none) ∧
      (∀ key value,
        sv.entries (cv.WithParam h1 key value).1 = sv.entries h ∧
        (cv.WithParam h1 key value).2.Typ = sv.Typ ∧
        (cv.WithParam h1 key value).2.param (cv.WithParam h1 key value).1 key = some value) ∧
      (∀ key value,
        cv.entries (sv.WithParam h1 key value).1 = sv.entries h ∧
        (sv.WithParam h1 key value).2.param (sv.WithParam h1 key value).1 key = some value) := by
  refine ⟨rfl, ?_⟩
  rcases sv with ⟨typ, params⟩
  cases params with
  | none =>
    refine ⟨h, { Typ := typ, Params := none }, rfl, rfl, rfl, rfl, Iff.rfl, ?_, ?_⟩ <;>
    · intro key value
      refine ⟨rfl, ?_⟩
      simp only [SpecConfigRef.WithParam, SpecConfigRef.param, SpecConfigRef.entries]
      have hlen : h.maps.length < (h.alloc []).1.maps.length := by simp [MapHeap.alloc]
      have hr : (h.alloc []).2 = h.maps.length := rfl
      rw [hr, read_assign_self _ _ _ _ hlen]
      simp [lookup_mapAssign]
  | some ref =>
    have hlt : (ref : Nat) < h.maps.length := halloc ref rfl
    have hne : (ref : Nat) ≠ h.maps.length := Nat.ne_of_lt hlt
    have hlen1 : h.maps.length < (h.alloc (h.read ref)).1.maps.length := by
      simp [MapHeap.alloc]
    have hlen2 : (ref : Nat) < (h.alloc (h.read ref)).1.maps.length :=
      Nat.lt_trans hlt hlen1
    have hc : (h.alloc (h.read ref)).1.read h.maps.length = h.read ref := by
      rw [read_alloc, if_pos rfl]
    have hs : (h.alloc (h.read ref)).1.read ref = h.read ref := by
      rw [read_alloc, if_neg hne]
    refine ⟨(h.alloc (h.read ref)).1, { Typ := typ, Params := some h.maps.length }, rfl, rfl,
      hc, hs, by simp, ?_, ?_⟩
    · intro key value
      simp only [SpecConfigRef.WithParam, SpecConfigRef.param, SpecConfigRef.entries]
      refine ⟨?_, trivial, ?_⟩
      · rw [read_assign _ _ _ _ _ hne, hs]
      · rw [read_assign_self _ _ _ _ hlen1, lookup_mapAssign]
    · intro key value
      simp only [SpecConfigRef.WithParam, SpecConfigRef.param, SpecConfigRef.entries]
      refine ⟨?_, ?_⟩
      · rw [read_assign _ _ _ _ _ (Ne.symm hne), hc]
      · rw [read_assign_self _ _ _ _ hlen2, lookup_mapAssign]

/-- C30, at an instance: the image is overwritten on the copy of a docker
config, and the original still reads the image it had. -/
theorem copy_independent_witness :
    SpecConfigRef.Copy dockerHeap (some dockerSpec) =
      ({ maps := [[("Image", "ubuntu")], [("Image", "ubuntu")]] },
        some { Typ := "docker", Params := some 1 }) ∧
    ∃ h1 cv, SpecConfigRef.Copy dockerHeap (some dockerSpec) = (h1, some cv) ∧
      dockerSpec.entries (cv.WithParam h1 "Image" "alpine").1 = [("Image", "ubuntu")] :=
  ⟨rfl,
    (copy_independent dockerHeap dockerSpec (by
      intro ref href
      cases href
      decide)).2.imp fun _ hx => hx.imp fun _ hy => ⟨hy.1, (hy.2.2.2.2.2.1 "Image" "alpine").1⟩⟩

/-! ## Properties of the watch options -/

/-- The result of `errors.Join` is nil exactly when every argument is nil. -/
theorem errorsJoin_eq_none (errs : List (Option GoError)) :
    errorsJoin errs = none ↔ ∀ e ∈ errs, e = none := by
  unfold errorsJoin
  constructor
  · intro h e he
    cases e with
    | none => rfl
    | some x =>
      have hm : x ∈ errs.filterMap id := List.mem_filterMap.2 ⟨some x, he, rfl⟩
      split at h
      · rename_i hnil
        rw [hnil] at hm
        simp at hm
      · simp at h
  · intro h
    have : errs.filterMap id = [] := by
      rw [List.filterMap_eq_nil_iff]
      intro e he
      rw [h e he]
      rfl
    rw [this]

/-- The helpers modelled by their names are sound. -/
theorem specNumberValidators_sound : specNumberValidators.sound := by
  refine ⟨fun n msg => ?_, fun n msg => ?_, fun a b msg => ?_⟩ <;>
    simp only [specNumberValidators] <;> split <;> simp_all

/-- C24: with helpers that do what their names say, `validate` returns no error
exactly when batchSize is positive, the two backoffs and maxRetries are not
negative, maxBackoff is at least initialBackoff, and a handler is set if
autoStart is; the default options validate, the default options with
`WithAutoStart` alone do not, and with a handler as well they do. -/
theorem watchOptions_validate (v : NumberValidators) (hv : v.sound) (o : watchOptions) :
    (o.validate v = none ↔
      0 < o.batchSize ∧ 0 ≤ o.initialBackoff ∧ 0 ≤ o.maxBackoff ∧ 0 ≤ o.maxRetries ∧
      o.initialBackoff ≤ o.maxBackoff ∧ (o.autoStart = true → o.handler ≠ none)) ∧
    defaultWatchOptions.validate v = none ∧
    (WithAutoStart defaultWatchOptions).validate v ≠ none ∧
    ∀ handler, (WithHandler (some handler) (WithAutoStart defaultWatchOptions)).validate v =
      none := by
  obtain ⟨h1, h2, h3⟩ := hv
  have key : ∀ o : watchOptions, o.validate v = none ↔
      0 < o.batchSize ∧ 0 ≤ o.initialBackoff ∧ 0 ≤ o.maxBackoff ∧ 0 ≤ o.maxRetries ∧
      o.initialBackoff ≤ o.maxBackoff ∧ (o.autoStart = true → o.handler ≠ none) := by
    intro o
    unfold watchOptions.validate
    dsimp only
    split
    · rename_i hauto
      simp only [Bool.and_eq_true, Option.isNone_iff_eq_none] at hauto
      rw [errorsJoin_eq_none]
      constructor
      · intro h
        have := h (some (GoError.errorString "handler must be set when autoStart is enabled"))
          (by simp)
        simp at this
      · intro h
        exact absurd hauto.2 (h.2.2.2.2.2 hauto.1)
    · rename_i hauto
      simp only [Bool.and_eq_true, Option.isNone_iff_eq_none, not_and] at hauto
      rw [errorsJoin_eq_none]
      simp only [List.mem_cons, List.mem_singleton, List.not_mem_nil, or_false, forall_eq_or_imp,
        forall_eq, h1, h2, h3]
      constructor
      · rintro ⟨a, b, c, d, e⟩
        exact ⟨a, b, c, d, e, hauto⟩
      · rintro ⟨a, b, c, d, e, _⟩
        exact ⟨a, b, c, d, e⟩
  refine ⟨key o, (key _).2 ?_, fun h => ?_, fun handler => (key _).2 ?_⟩
  · simp [defaultWatchOptions]
  · have := ((key _).1 h).2.2.2.2.2
    simp [WithAutoStart, defaultWatchOptions] at this
  · simp [WithHandler, WithAutoStart, defaultWatchOptions]

/-- C24, at an instance: the default options with a batch size of zero do not
validate. -/
theorem watchOptions_validate_witness :
    specNumberValidators.sound ∧
    ({ defaultWatchOptions with batchSize := 0 } : watchOptions).validate specNumberValidators ≠
      none ∧
    defaultWatchOptions.validate specNumberValidators = none :=
  ⟨specNumberValidators_sound,
    fun h => absurd
      ((watchOptions_validate specNumberValidators specNumberValidators_sound
        { defaultWatchOptions with batchSize := 0 }).1.1 h).1 (by decide),
    (watchOptions_validate specNumberValidators specNumberValidators_sound
      defaultWatchOptions).2.1⟩

/-! ## Properties of the detection of an EC2 instance -/

/-- C21: the first call of `IsEC2Instance` returns true exactly when the AWS
config loads, whatever the metadata request answers: on a machine where the
config loads and the metadata request fails it returns true, and
`DefaultAWSConfig` leaves the metadata client enabled. Every later call returns
the value of the first and leaves the package variables alone. -/
theorem isEC2Instance_ignores_metadata_failure (env later : AWSEnvironment) :
    (IsEC2Instance env {}).1 = env.loadDefaultConfig.isNone ∧
    IsEC2Instance later (IsEC2Instance env {}).2 =
      ((IsEC2Instance env {}).1, (IsEC2Instance env {}).2) ∧
    outsideEC2.getMetadata ≠ none ∧
    (IsEC2Instance outsideEC2 {}).1 = true ∧
    (DefaultAWSConfig outsideEC2 {}).1 = ClientEnableState.ClientEnabled := by
  refine ⟨?_, rfl, by decide, rfl, rfl⟩
  rcases env with ⟨load, request⟩
  cases load <;> rfl

/-! ## Properties of the authenticating client -/

/-- In the legacy flow with both callbacks set, `doRequest` returns, and it
calls `Authenticate` exactly when the client holds no credential or the first
request, made with the credential held, failed with ErrInvalidToken. When it
does, the calls after the first request (if one was made) are `Authenticate`,
one `PersistCredential` with the credential returned (nil if the callback
failed), and then the request with that credential exactly when both callbacks
succeeded, whose answer is returned; otherwise a non-nil error is returned.
When it does not, the only call is the first request and its answer is
returned. -/
theorem doRequest_legacy_persisting (t : AuthenticatingClient)
    (runRequest : Nat → Option HTTPCredential → Option GoError)
    (auth : Option HTTPCredential × Option GoError)
    (persist : Option HTTPCredential → Option GoError)
    (hlegacy : t.NewAuthenticationFlowEnabled = false)
    (hauth : t.Authenticate = some auth) (hpersist : t.PersistCredential = some persist) :
    ∃ out, doRequest t runRequest = some out ∧
      (AuthCall.Authenticate ∈ out.calls ↔
        (t.Credential = none ∨
          ∃ credential err, t.Credential = some credential ∧
            runRequest 0 (some credential) = some err ∧ t.IsInvalidToken err = true)) ∧
      (AuthCall.Authenticate ∈ out.calls →
        ∃ first,
          (first = [] ∧ t.Credential = none ∨
            first = [AuthCall.RunRequest t.Credential] ∧ t.Credential ≠ none) ∧
          out.Credential = authenticatedCredential auth ∧
          (auth.2 = none ∧ persist (authenticatedCredential auth) = none →
            out.calls = first ++ [AuthCall.Authenticate,
              AuthCall.PersistCredential (authenticatedCredential auth),
              AuthCall.RunRequest (authenticatedCredential auth)] ∧
            out.err = runRequest first.length (authenticatedCredential auth)) ∧
          (¬ (auth.2 = none ∧ persist (authenticatedCredential auth) = none) →
            out.calls = first ++ [AuthCall.Authenticate,
              AuthCall.PersistCredential (authenticatedCredential auth)] ∧
            out.err ≠ none)) ∧
      (AuthCall.Authenticate ∉ out.calls →
        out.calls = [AuthCall.RunRequest t.Credential] ∧
        out.err = runRequest 0 t.Credential ∧ out.Credential = t.Credential) := by
  rcases auth with ⟨authenticated, authenticateErr⟩
  have hretry : ∀ (err : Option GoError) (calls : List AuthCall),
      (t.Credential = none ∨ ∃ e, err = some e ∧ t.IsInvalidToken e = true) →
      ∃ out, t.authenticateAndRetry runRequest err calls = some out ∧
        out.Credential = authenticatedCredential (authenticated, authenticateErr) ∧
        (authenticateErr = none ∧
            persist (authenticatedCredential (authenticated, authenticateErr)) = none →
          out.calls = calls ++ [AuthCall.Authenticate,
            AuthCall.PersistCredential (authenticatedCredential (authenticated, authenticateErr)),
            AuthCall.RunRequest (authenticatedCredential (authenticated, authenticateErr))] ∧
          out.err = runRequest calls.length
            (authenticatedCredential (authenticated, authenticateErr))) ∧
        (¬ (authenticateErr = none ∧
            persist (authenticatedCredential (authenticated, authenticateErr)) = none) →
          out.calls = calls ++ [AuthCall.Authenticate,
            AuthCall.PersistCredential
              (authenticatedCredential (authenticated, authenticateErr))] ∧
          out.err ≠ none) := by
    intro err calls hcond
    unfold AuthenticatingClient.authenticateAndRetry
    dsimp only
    split
    · simp only [hauth, hpersist, authenticatedCredential]
      cases hp : persist (if authenticateErr.isSome = true then none else authenticated) with
      | none =>
        cases authenticateErr with
        | none => simp
        | some e => simp
      | some perr =>
        have hj := errorsJoin_pair_some authenticateErr
          (pkgerrorsWrap perr "unable to persist new client credential")
        cases hjoin : errorsJoin [authenticateErr,
            some (pkgerrorsWrap perr "unable to persist new client credential")] with
        | none => exact absurd hjoin hj
        | some e => simp [hjoin]
    · rename_i hneg
      exfalso
      apply hneg
      rcases hcond with h | ⟨e, rfl, h⟩ <;> simp [h]
  unfold doRequest
  simp only [hlegacy, Bool.false_eq_true, if_false]
  cases hc : t.Credential with
  | none =>
    obtain ⟨out, h1, h2, h3, h4⟩ := hretry none [] (Or.inl hc)
    have hmem : AuthCall.Authenticate ∈ out.calls := by
      by_cases hb : authenticateErr = none ∧
          persist (authenticatedCredential (authenticated, authenticateErr)) = none
      · rw [(h3 hb).1]; simp
      · rw [(h4 hb).1]; simp
    refine ⟨out, h1, ⟨fun _ => Or.inl rfl, fun _ => hmem⟩,
      fun _ => ⟨[], Or.inl ⟨rfl, rfl⟩, h2, h3, h4⟩, fun hn => absurd hmem hn⟩
  | some credential =>
    dsimp only
    cases hr : runRequest 0 (some credential) with
    | none =>
      dsimp only
      refine ⟨_, rfl, ⟨fun h => by simp at h, fun h => ?_⟩, fun h => by simp at h,
        fun _ => ⟨rfl, rfl, rfl⟩⟩
      rcases h with h | ⟨c, e, hc1, hc2, _⟩
      · simp at h
      · simp only [Option.some.injEq] at hc1
        subst hc1
        rw [hr] at hc2
        simp at hc2
    | some err =>
      dsimp only
      simp only [hauth]
      by_cases htok : t.IsInvalidToken err = true
      · obtain ⟨out, h1, h2, h3, h4⟩ :=
          hretry (some err) [AuthCall.RunRequest (some credential)] (Or.inr ⟨err, rfl, htok⟩)
        have hmem : AuthCall.Authenticate ∈ out.calls := by
          by_cases hb : authenticateErr = none ∧
              persist (authenticatedCredential (authenticated, authenticateErr)) = none
          · rw [(h3 hb).1]; simp
          · rw [(h4 hb).1]; simp
        refine ⟨out, h1, ⟨fun _ => Or.inr ⟨credential, err, rfl, hr, htok⟩, fun _ => hmem⟩,
          fun _ => ⟨[AuthCall.RunRequest (some credential)], Or.inr ⟨rfl, by simp⟩, h2, h3, h4⟩,
          fun hn => absurd hmem hn⟩
      · have hout : t.authenticateAndRetry runRequest (some err)
            [AuthCall.RunRequest (some credential)] =
            some { err := some err, Credential := some credential,
                   calls := [AuthCall.RunRequest (some credential)] } := by
          unfold AuthenticatingClient.authenticateAndRetry
          simp [hc, htok]
        refine ⟨_, hout, ⟨fun h => by simp at h, fun h => ?_⟩, fun h => by simp at h,
          fun _ => ⟨rfl, rfl, rfl⟩⟩
        rcases h with h | ⟨c, e, hc1, hc2, hc3⟩
        · simp at h
        · simp only [Option.some.injEq] at hc1
          subst hc1
          rw [hr] at hc2
          simp only [Option.some.injEq] at hc2
          subst hc2
          exact absurd hc3 htok

/-- In the legacy flow with `Authenticate` set and a nil `PersistCredential`,
`doRequest` panics when a new token is required and otherwise makes the first
request only. -/
theorem doRequest_legacy_nil_persist (t : AuthenticatingClient)
    (runRequest : Nat → Option HTTPCredential → Option GoError)
    (auth : Option HTTPCredential × Option GoError)
    (hlegacy : t.NewAuthenticationFlowEnabled = false)
    (hauth : t.Authenticate = some auth) (hnil : t.PersistCredential = none) :
    ((t.Credential = none ∨
        ∃ credential err, t.Credential = some credential ∧
          runRequest 0 (some credential) = some err ∧ t.IsInvalidToken err = true) →
      doRequest t runRequest = none) ∧
    (¬ (t.Credential = none ∨
        ∃ credential err, t.Credential = some credential ∧
          runRequest 0 (some credential) = some err ∧ t.IsInvalidToken err = true) →
      doRequest t runRequest =
        some { err := runRequest 0 t.Credential, Credential := t.Credential,
               calls := [AuthCall.RunRequest t.Credential] }) := by
  have hretry : ∀ (err : Option GoError) (calls : List AuthCall),
      (t.Credential = none ∨ ∃ e, err = some e ∧ t.IsInvalidToken e = true) →
      t.authenticateAndRetry runRequest err calls = none := by
    intro err calls hcond
    unfold AuthenticatingClient.authenticateAndRetry
    dsimp only
    split
    · simp only [hauth, hnil]
    · rename_i hneg
      exfalso
      apply hneg
      rcases hcond with h | ⟨e, rfl, h⟩ <;> simp [h]
  unfold doRequest
  simp only [hlegacy, Bool.false_eq_true, if_false]
  cases hc : t.Credential with
  | none =>
    refine ⟨fun _ => hretry none [] (Or.inl hc), fun hn => absurd (Or.inl rfl) hn⟩
  | some credential =>
    dsimp only
    cases hr : runRequest 0 (some credential) with
    | none =>
      dsimp only
      refine ⟨fun h => ?_, fun _ => rfl⟩
      rcases h with h | ⟨c, e, hc1, hc2, _⟩
      · simp at h
      · simp only [Option.some.injEq] at hc1
        subst hc1
        rw [hr] at hc2
        simp at hc2
    | some err =>
      dsimp only
      simp only [hauth]
      by_cases htok : t.IsInvalidToken err = true
      · exact ⟨fun _ => hretry (some err) [AuthCall.RunRequest (some credential)]
          (Or.inr ⟨err, rfl, htok⟩), fun hn => absurd (Or.inr ⟨credential, err, rfl, hr, htok⟩) hn⟩
      · refine ⟨fun h => ?_, fun _ => ?_⟩
        · rcases h with h | ⟨c, e, hc1, hc2, hc3⟩
          · simp at h
          · simp only [Option.some.injEq] at hc1
            subst hc1
            rw [hr] at hc2
            simp only [Option.some.injEq] at hc2
            subst hc2
            exact absurd hc3 htok
        · unfold AuthenticatingClient.authenticateAndRetry
          simp [hc, htok]

/-- C26: in the legacy flow with `Authenticate` set, `doRequest` panics exactly
when a new token is required (the client holds no credential, or the first
request, made with the credential held, failed with ErrInvalidToken) and
`PersistCredential` is nil. When it returns, it has called `Authenticate`
exactly when a new token was required; when it has, `PersistCredential` is set
and the calls after the first request (if one was made) are `Authenticate`, one
`PersistCredential` with the credential returned (nil if the callback failed),
and then the request with that credential exactly when both callbacks
succeeded, whose answer is returned; otherwise a non-nil error is returned.
When it has not, the only call is the first request and its answer is
returned. -/
theorem doRequest_legacy (t : AuthenticatingClient)
    (runRequest : Nat → Option HTTPCredential → Option GoError)
    (auth : Option HTTPCredential × Option GoError)
    (hlegacy : t.NewAuthenticationFlowEnabled = false)
    (hauth : t.Authenticate = some auth) :
    (doRequest t runRequest = none ↔
      t.PersistCredential = none ∧
        (t.Credential = none ∨
          ∃ credential err, t.Credential = some credential ∧
            runRequest 0 (some credential) = some err ∧ t.IsInvalidToken err = true)) ∧
    ∀ out, doRequest t runRequest = some out →
      (AuthCall.Authenticate ∈ out.calls ↔
        (t.Credential = none ∨
          ∃ credential err, t.Credential = some credential ∧
            runRequest 0 (some credential) = some err ∧ t.IsInvalidToken err = true)) ∧
      (AuthCall.Authenticate ∈ out.calls →
        ∃ persist first, t.PersistCredential = some persist ∧
          (first = [] ∧ t.Credential = none ∨
            first = [AuthCall.RunRequest t.Credential] ∧ t.Credential ≠ none) ∧
          out.Credential = authenticatedCredential auth ∧
          (auth.2 = none ∧ persist (authenticatedCredential auth) = none →
            out.calls = first ++ [AuthCall.Authenticate,
              AuthCall.PersistCredential (authenticatedCredential auth),
              AuthCall.RunRequest (authenticatedCredential auth)] ∧
            out.err = runRequest first.length (authenticatedCredential auth)) ∧
          (¬ (auth.2 = none ∧ persist (authenticatedCredential auth) = none) →
            out.calls = first ++ [AuthCall.Authenticate,
              AuthCall.PersistCredential (authenticatedCredential auth)] ∧
            out.err ≠ none)) ∧
      (AuthCall.Authenticate ∉ out.calls →
        out.calls = [AuthCall.RunRequest t.Credential] ∧
        out.err = runRequest 0 t.Credential ∧ out.Credential = t.Credential) := by
  cases hp : t.PersistCredential with
  | none =>
    obtain ⟨hpanic, hplain⟩ := doRequest_legacy_nil_persist t runRequest auth hlegacy hauth hp
    by_cases hneed : t.Credential = none ∨
        ∃ credential err, t.Credential = some credential ∧
          runRequest 0 (some credential) = some err ∧ t.IsInvalidToken err = true
    · refine ⟨⟨fun _ => ⟨rfl, hneed⟩, fun _ => hpanic hneed⟩, fun out hout => ?_⟩
      rw [hpanic hneed] at hout
      simp at hout
    · refine ⟨⟨fun h => ?_, fun h => absurd h.2 hneed⟩, fun out hout => ?_⟩
      · rw [hplain hneed] at h
        simp at h
      · rw [hplain hneed] at hout
        simp only [Option.some.injEq] at hout
        subst hout
        refine ⟨⟨fun h => by simp at h, fun h => absurd h hneed⟩, fun h => by simp at h,
          fun _ => ⟨rfl, rfl, rfl⟩⟩
  | some persist =>
    obtain ⟨out0, hout0, h1, h2, h3⟩ :=
      doRequest_legacy_persisting t runRequest auth persist hlegacy hauth hp
    refine ⟨⟨fun h => ?_, fun h => by simp at h⟩, fun out hout => ?_⟩
    · rw [hout0] at h
      simp at h
    · rw [hout0] at hout
      simp only [Option.some.injEq] at hout
      subst hout
      refine ⟨h1, fun hmem => ?_, h3⟩
      obtain ⟨first, hfirst, hrest⟩ := h2 hmem
      exact ⟨persist, first, rfl, hfirst, hrest⟩

/-- C26, at an instance: the old token is refused as invalid, the client
authenticates, persists the new token and repeats the request with it; a client
without a credential and without a persist callback panics. -/
theorem doRequest_legacy_witness :
    doRequest expiredTokenClient newTokenServer =
      some { err := none, Credential := some "new-token",
             calls := [AuthCall.RunRequest (some "old-token"), AuthCall.Authenticate,
               AuthCall.PersistCredential (some "new-token"),
               AuthCall.RunRequest (some "new-token")] } ∧
    (∀ out, doRequest expiredTokenClient newTokenServer = some out →
      AuthCall.Authenticate ∈ out.calls) ∧
    doRequest noPersistClient newTokenServer = none :=
  ⟨rfl,
    fun out hout =>
      ((doRequest_legacy expiredTokenClient newTokenServer (some "new-token", none)
        rfl rfl).2 out hout).1.2
          (Or.inr ⟨"old-token", GoError.errorString "invalid token", rfl, rfl, rfl⟩),
    (doRequest_legacy noPersistClient newTokenServer (some "new-token", none)
      rfl rfl).1.2 ⟨rfl, Or.inl rfl⟩⟩

/-! ## Properties of the metric recorder -/

/-- Wrapping a sum whose first term was wrapped is wrapping the sum. -/
theorem wrapInt64_add (a b : Int) : wrapInt64 (wrapInt64 a + b) = wrapInt64 (a + b) := by
  unfold wrapInt64
  omega

/-- A value in the range of `int64` is not changed by the wrap-around. -/
theorem wrapInt64_of_range (a : Int) (h1 : -9223372036854775808 ≤ a)
    (h2 : a < 9223372036854775808) : wrapInt64 a = a := by
  unfold wrapInt64
  omega

/-- The values under a key after `m[key] += delta`. -/
theorem valuesOf_mapAdd {K V : Type} [DecidableEq K] (add : V → V → V) (zero : V)
    (m : List (K × V)) (key other : K) (delta : V) :
    valuesOf other (mapAdd add zero m key delta) =
      if other = key then
        match valuesOf key m with
        | [] => [add zero delta]
        | v :: vs => add v delta :: vs
      else valuesOf other m := by
  induction m with
  | nil =>
    by_cases h : other = key
    · subst h; simp [mapAdd, valuesOf]
    · have h1 : ¬ key = other := fun e => h e.symm
      simp [mapAdd, valuesOf, h, h1]
  | cons p m ih =>
    rcases p with ⟨k, v⟩
    by_cases hk : k = key
    · subst hk
      by_cases h : other = k
      · subst h; simp [mapAdd, valuesOf]
      · have h1 : ¬ k = other := fun e => h e.symm
        simp [mapAdd, valuesOf, h, h1]
    · by_cases h : other = key
      · subst h
        have := ih
        simp only [if_true] at this
        simp only [mapAdd, hk, if_false, if_true]
        simp only [valuesOf, List.filter_cons, hk, decide_False, Bool.false_eq_true, if_false]
          at this ⊢
        exact this
      · have := ih
        simp only [h, if_false] at this
        simp only [mapAdd, hk, h, if_false]
        by_cases hko : k = other
        · simp only [valuesOf, List.filter_cons, hko, decide_True, if_true, List.map_cons]
            at this ⊢
          rw [this]
        · simp only [valuesOf, List.filter_cons, hko, decide_False, Bool.false_eq_true,
            if_false] at this ⊢
          exact this

/-- The aggregate of increments on a wrapped value is the wrapped sum. -/
theorem aggregate_wrapped (a : Int) (ns : List Int) :
    aggregate [wrapInt64 a] ns = [wrapInt64 (a + ns.sum)] := by
  induction ns generalizing a with
  | nil => simp [aggregate]
  | cons n ns ih =>
    simp only [aggregate, List.sum_cons]
    rw [wrapInt64_add, ih, add_assoc]

/-- The aggregate of increments on an absent key is the wrapped sum of the
increments, if there are any. -/
theorem aggregate_nil (ns : List Int) :
    aggregate [] ns = if ns = [] then [] else [wrapInt64 ns.sum] := by
  cases ns with
  | nil => rfl
  | cons n ns =>
    simp only [aggregate, List.sum_cons, reduceCtorEq, if_false]
    rw [aggregate_wrapped]
    simp

/-- Calls of `Count` and `CountN` publish nothing and change only the counts,
which they aggregate. -/
theorem run_counts (c : Int64Counter) (ops : List RecorderOp) :
    ∀ r : MetricRecorder, (∀ op ∈ ops, op.isCount = true) →
      (r.run ops).2 = [] ∧
      valuesOf c (r.run ops).1.counts = aggregate (valuesOf c r.counts) (increments c ops) ∧
      (r.run ops).1.attrs = r.attrs ∧ (r.run ops).1.latencies = r.latencies ∧
      (r.run ops).1.histograms = r.histograms ∧ (r.run ops).1.start = r.start := by
  induction ops with
  | nil =>
    intro r _
    refine ⟨rfl, ?_, rfl, rfl, rfl, rfl⟩
    cases hv : valuesOf c r.counts <;> simp [MetricRecorder.run, increments, aggregate, hv]
  | cons op ops ih =>
    intro r hops
    have hop := hops op (List.mem_cons_self _ _)
    have hrest : ∀ op1 ∈ ops, op1.isCount = true :=
      fun op1 h => hops op1 (List.mem_cons_of_mem _ h)
    have hbump : ∀ (n : Int) (c1 : Int64Counter),
        valuesOf c (mapAdd (fun a b => wrapInt64 (a + b)) 0 r.counts c1 n) =
          if c1 = c then aggregate (valuesOf c r.counts) [n] else valuesOf c r.counts := by
      intro n c1
      rw [valuesOf_mapAdd]
      by_cases h : c = c1
      · subst h
        simp only [if_true]
        cases valuesOf c r.counts <;> rfl
      · have h1 : ¬ c1 = c := fun e => h e.symm
        simp [h, h1]
    have hagg : ∀ (held : List Int) (n : Int) (ns : List Int),
        aggregate (aggregate held [n]) ns = aggregate held (n :: ns) := by
      intro held n ns
      cases held <;> rfl
    cases op with
    | Count c1 =>
      obtain ⟨h1, h2, h3, h4, h5, h6⟩ := ih (r.Count c1) hrest
      refine ⟨by simp [MetricRecorder.run, MetricRecorder.step, h1], ?_, h3, h4, h5, h6⟩
      simp only [MetricRecorder.run, MetricRecorder.step]
      rw [h2]
      simp only [MetricRecorder.Count, hbump, increments]
      by_cases h : c1 = c
      · simp only [h, if_true, hagg]
      · simp only [h, if_false]
    | CountN c1 n =>
      obtain ⟨h1, h2, h3, h4, h5, h6⟩ := ih (r.CountN c1 n) hrest
      refine ⟨by simp [MetricRecorder.run, MetricRecorder.step, h1], ?_, h3, h4, h5, h6⟩
      simp only [MetricRecorder.run, MetricRecorder.step]
      rw [h2]
      simp only [MetricRecorder.CountN, hbump, increments]
      by_cases h : c1 = c
      · simp only [h, if_true, hagg]
      · simp only [h, if_false]
    | Gauge g val => simp [RecorderOp.isCount] at hop
    | Histogram h value => simp [RecorderOp.isCount] at hop
    | Latency now h subOperation => simp [RecorderOp.isCount] at hop
    | DoneWithoutTotalDuration now attrs => simp [RecorderOp.isCount] at hop
    | Done now h attrs => simp [RecorderOp.isCount] at hop

/-- The `Add` calls a counter receives when a map of counts is published. -/
theorem addsOf_counts (c : Int64Counter) (attrs : List KeyValue)
    (counts : List (Int64Counter × Int)) (rest : List MetricCall) :
    addsOf c (counts.map (fun entry => MetricCall.CounterAdd entry.1 entry.2 attrs) ++ rest) =
      (valuesOf c counts).map (fun value => (value, attrs)) ++ addsOf c rest := by
  induction counts with
  | nil => rfl
  | cons p counts ih =>
    rcases p with ⟨k, v⟩
    by_cases h : k = c
    · simp [addsOf, valuesOf, h, List.filter_cons] at ih ⊢
      exact ih
    · simp [addsOf, valuesOf, h, List.filter_cons] at ih ⊢
      exact ih

/-- Records on histograms are no `Add` on a counter. -/
theorem addsOf_records {α : Type} (c : Int64Counter) (l : List α)
    (f : α → Float64Histogram) (g : α → Float) (a : α → List KeyValue)
    (rest : List MetricCall) :
    addsOf c (l.map (fun x => MetricCall.HistogramRecord (f x) (g x) (a x)) ++ rest) =
      addsOf c rest := by
  induction l with
  | nil => rfl
  | cons x l ih => simpa [addsOf] using ih

/-- C25, as stated, fails: after `CountN` by the largest `int64` and one `Count`
on the same counter, `DoneWithoutTotalDuration` adds the least `int64` to the
counter, which is not the sum of the two increments. -/
theorem metricRecorder_overflow_counterexample :
    (freshRecorder.run overflowingOps).2 = [] ∧
    addsOf "jobs" ((freshRecorder.run overflowingOps).1.DoneWithoutTotalDuration 9 []).2 =
      [(-9223372036854775808, [("operation", "process")])] ∧
    (increments "jobs" overflowingOps).sum = 9223372036854775808 := by
  refine ⟨rfl, ?_, ?_⟩
  · decide
  · decide

/-- C25, amended: on a recorder whose counts are empty, a sequence of `Count` and `CountN`
calls publishes nothing; `DoneWithoutTotalDuration` then gives every counter
used exactly one `Add`, with the recorder's attributes and the sum of the
increments recorded for it (as an `int64`, so the sum itself when it is in
range), and no `Add` to a counter not used; `Done` publishes the same after the
total duration. Afterwards counts, latencies and histogram values are empty: a
following `DoneWithoutTotalDuration` publishes nothing and a following `Done`
only the total duration. -/
theorem metricRecorder_publishes_at_done (r r1 r2 : MetricRecorder) (ops : List RecorderOp)
    (published calls : List MetricCall) (now : Int) (attrs : List KeyValue)
    (hfresh : r.counts = [])
    (hops : ∀ op ∈ ops, op.isCount = true)
    (hrun : r.run ops = (r1, published))
    (hdone : r1.DoneWithoutTotalDuration now attrs = (r2, calls)) :
    published = [] ∧
    (∀ c, addsOf c calls =
      if increments c ops = [] then []
      else [(wrapInt64 (increments c ops).sum, r.attrs ++ attrs)]) ∧
    (∀ c, -9223372036854775808 ≤ (increments c ops).sum →
      (increments c ops).sum < 9223372036854775808 →
      wrapInt64 (increments c ops).sum = (increments c ops).sum) ∧
    (∀ h, r1.Done now h attrs =
      (r2, MetricCall.HistogramRecord h (durationSeconds (now - r.start)) (r.attrs ++ attrs) ::
        calls)) ∧
    r2.counts = [] ∧ r2.latencies = [] ∧ r2.histograms = [] ∧
    (∀ now2 attrs2, (r2.DoneWithoutTotalDuration now2 attrs2).2 = []) ∧
    (∀ now2 h2 attrs2, (r2.Done now2 h2 attrs2).2 =
      [MetricCall.HistogramRecord h2 (durationSeconds (now2 - now)) (r.attrs ++ attrs2)]) := by
  have hr1 : (r.run ops).1 = r1 := by rw [hrun]
  have hp : (r.run ops).2 = published := by rw [hrun]
  have hr2 : r2 = r1.reset now := by
    have := congrArg Prod.fst hdone
    exact this.symm
  have hcalls : calls = (r1.DoneWithoutTotalDuration now attrs).2 := by rw [hdone]
  have hattrs : r1.attrs = r.attrs := by rw [← hr1]; exact (run_counts "" ops r hops).2.2.1
  have hstart : r1.start = r.start := by
    rw [← hr1]; exact (run_counts "" ops r hops).2.2.2.2.2
  refine ⟨by rw [← hp]; exact (run_counts "" ops r hops).1, fun c => ?_,
    fun c h1 h2 => wrapInt64_of_range _ h1 h2, fun h => ?_, by rw [hr2]; rfl, by rw [hr2]; rfl,
    by rw [hr2]; rfl, fun now2 attrs2 => by rw [hr2]; rfl, fun now2 h2 attrs2 => ?_⟩
  · have hv := (run_counts c ops r hops).2.1
    rw [hr1, hfresh] at hv
    have hv0 : valuesOf c ([] : List (Int64Counter × Int)) = [] := rfl
    rw [hv0, aggregate_nil] at hv
    rw [hcalls]
    simp only [MetricRecorder.DoneWithoutTotalDuration]
    rw [List.append_assoc, addsOf_records, addsOf_counts, hv, hattrs]
    have hrest : addsOf c (r1.histograms.map
        (fun entry => MetricCall.HistogramRecord entry.1 entry.2 (r.attrs ++ attrs))) = [] := by
      have := addsOf_records c r1.histograms (fun entry => entry.1) (fun entry => entry.2)
        (fun _ => r.attrs ++ attrs) []
      simpa using this
    rw [hrest]
    split <;> simp
  · simp only [MetricRecorder.Done, hdone, hattrs, hstart]
  · rw [hr2]
    simp only [MetricRecorder.Done, MetricRecorder.DoneWithoutTotalDuration,
      MetricRecorder.reset, hattrs, List.map_nil, List.append_nil]

/-- C25, amended, at an instance: three calls on two counters publish nothing, and
`DoneWithoutTotalDuration` then adds 3 to the counter counted once and then by
two. -/
theorem metricRecorder_publishes_at_done_witness :
    freshRecorder.run countingOps =
      ({ attrs := [("operation", "process")], counts := [("jobs", 3), ("bytes", 512)] }, []) ∧
    addsOf "jobs" [MetricCall.CounterAdd "jobs" 3 [("operation", "process")],
        MetricCall.CounterAdd "bytes" 512 [("operation", "process")]] =
      [(3, [("operation", "process")])] :=
  ⟨rfl,
    ((metricRecorder_publishes_at_done freshRecorder
      { attrs := [("operation", "process")], counts := [("jobs", 3), ("bytes", 512)] }
      { start := 9, lastOperation := 9, attrs := [("operation", "process")] } countingOps []
      [MetricCall.CounterAdd "jobs" 3 [("operation", "process")],
        MetricCall.CounterAdd "bytes" 512 [("operation", "process")]] 9 [] rfl
      (by decide) rfl rfl).2.1 "jobs").trans (by decide)⟩

end Bacalhau
